import Mathlib

/-!
# TextFileLoad: type inference and typed retrieval

A shallow embedding of `src/TextFileLoad.cpp` / `src/TextFileLoad.h`.

* a C++ `string` is a `List Char`, a `char` is a `Char`; `string::npos` is `none`, or `-1`
  where the source casts a position to `int` (strings are shorter than 2^31 characters);
* `int` is 32 bit, `long` is 64 bit two's complement, carried in `Int`;
* an input file is the list of the lines that successive `getline` calls
  return; the stream is at end-of-file exactly when no line is left;
* reading a `vector` outside its bounds is undefined behaviour in the source
  and is made explicit here as the failure `none` / `Fault.outOfRange`;
* `exit(1)` is made explicit as a `Fault` as well;
* `double` arithmetic is not interpreted: the operations the program uses on
  doubles are the fields of a `FloatModel`;
* `atoi` and `atol` are the C library functions, as `strtol` in base 10.
-/

namespace TFL

/-! ## Data model -/

/-- Value labels for data types, in the order of the `enum _VT_TYPE` of the header. -/
inductive VT where
  | _VT_INT
  | _VT_LONG
  | _VT_DOUBLE
  | _VT_BOOL
  | _VT_STRING
  deriving DecidableEq, Repr

open VT

/-- Position of a type in the restrictiveness order Bool < Int < Long < Double < String. -/
def rank : VT → Nat
  | _VT_BOOL => 0
  | _VT_INT => 1
  | _VT_LONG => 2
  | _VT_DOUBLE => 3
  | _VT_STRING => 4

/-- The operations on `double` that the program relies on (C library and casts). -/
structure FloatModel where
  /-- The carrier of `double` values. -/
  D : Type
  /-- The literal `0.0`. -/
  zero : D
  /-- The C library `atof` on the C string of the argument. -/
  atof : List Char → D
  /-- The cast `(bool)d`. -/
  toBool : D → Bool
  /-- The cast `(int)d`. -/
  toInt : D → Int
  /-- The cast `(long)d`. -/
  toLong : D → Int
  /-- The conversion of a `bool` to `double`. -/
  ofBool : Bool → D
  /-- The conversion of an `int` to `double`. -/
  ofInt : Int → D
  /-- The conversion of a `long` to `double`. -/
  ofLong : Int → D
  /-- The complete text that `printf("%f", d)` would print. -/
  fmt : D → List Char

/-! ## C and C++ library functions used by the program -/

/-- The value of an `int`-typed expression holding the mathematical value `v`: reduction modulo
2^32 into the signed 32-bit range (the cast `(int)` applied to a `long`). -/
def wrap32 (v : Int) : Int := (v + 2147483648) % 4294967296 - 2147483648

/-- The C predicate `isspace` in the "C" locale. -/
def isspace (c : Char) : Bool :=
  c = ' ' || c = '\t' || c = '\n' || c = '\x0b' || c = '\x0c' || c = '\r'

/-- The C predicate `isdigit`. -/
def isdigit (c : Char) : Bool := decide ('0' ≤ c) && decide (c ≤ '9')

/-- Accumulates the decimal digits at the front of a string; stops at the first character that
is not a digit (the terminating NUL of a C string included). -/
def digitsValue : Nat → List Char → Nat
  | acc, [] => acc
  | acc, c :: cs => if isdigit c then digitsValue (acc * 10 + (c.toNat - 48)) cs else acc

/-- The function `strtol(s, NULL, 10)` for a 64-bit `long`: skips leading white space, reads an
optional sign and the longest run of digits, and saturates at `LONG_MIN` / `LONG_MAX`. -/
def strtol : List Char → Int
  | [] => 0
  | c :: cs =>
    if isspace c then strtol cs
    else if c = '-' then
      max (-(digitsValue 0 cs : Int)) (-9223372036854775808)
    else if c = '+' then
      min (digitsValue 0 cs : Int) 9223372036854775807
    else
      min (digitsValue 0 (c :: cs) : Int) 9223372036854775807

/-- The C library `atol` (implemented as `strtol(s, NULL, 10)`). -/
def atol (s : List Char) : Int := strtol s

/-- The C library `atoi` (implemented as `(int) strtol(s, NULL, 10)`). -/
def atoi (s : List Char) : Int := wrap32 (strtol s)

/-- The index of the last character of `str` different from `c`, as `string::find_last_not_of`;
`none` is `string::npos`. The second argument is the index of the head of the list. -/
def find_last_not_of_from (c : Char) : List Char → Nat → Option Nat
  | [], _ => none
  | x :: xs, i =>
    match find_last_not_of_from c xs (i + 1) with
    | some j => some j
    | none => if x = c then none else some i

/-- The call `str.find_last_not_of(c)`. -/
def find_last_not_of (str : List Char) (c : Char) : Option Nat :=
  find_last_not_of_from c str 0

/-- The index of the first character of `str` different from `c`, as
`string::find_first_not_of`; `none` is `string::npos`. -/
def find_first_not_of_from (c : Char) : List Char → Nat → Option Nat
  | [], _ => none
  | x :: xs, i => if x = c then find_first_not_of_from c xs (i + 1) else some i

/-- The call `str.find_first_not_of(c)`. -/
def find_first_not_of (str : List Char) (c : Char) : Option Nat :=
  find_first_not_of_from c str 0

/-- The call `str.erase(pos + 1)` where `pos` is the result of a search: everything from index
`pos + 1` on is removed, and `npos + 1` wraps around to index 0. -/
def erase_after (str : List Char) (pos : Option Nat) : List Char :=
  match pos with
  | none => str.take 0
  | some p => str.take (p + 1)

/-- The call `str.erase(0, n)` where `n` is the result of a search: the first `n` characters are
removed, all of them when `n` is `npos`. -/
def erase_front (str : List Char) (n : Option Nat) : List Char :=
  match n with
  | none => []
  | some k => str.drop k

/-- The call `str.find(ch, pos)` cast to `int`: the index of the first occurrence of `ch` at or
after `pos`, or `-1`. The helper walks the list with the index of its head. -/
def find_from (ch : Char) : List Char → Nat → Int
  | [], _ => -1
  | x :: xs, i => if x = ch then (i : Int) else find_from ch xs (i + 1)

/-- The call `(int)str.find(ch, pos)`. -/
def find (str : List Char) (ch : Char) (pos : Nat) : Int :=
  find_from ch (str.drop pos) pos

/-- The call `str.substr(pos, len)` for `pos` within the string. -/
def substr (str : List Char) (pos len : Nat) : List Char :=
  (str.drop pos).take len

/-! ## Private methods: string classification -/

/-- Trims all beginning and ending spaces of a string (`TextFileLoad::_trim`). -/
def _trim (str : List Char) : List Char :=
  let r := erase_after str (find_last_not_of str ' ')
  erase_front r (find_first_not_of r ' ')

/-- The state of the character loop of `_isDouble`. -/
structure DoubleScan where
  period_present : Bool
  e_present : Bool
  ok_negative_loc : Int
  ok_positive_loc : Int

/-- The character loop of `_isDouble`, at index `i` with the characters from `i` on. -/
def _isDouble_loop : List Char → Nat → DoubleScan → Bool
  | [], _, _ => true
  | ch :: rest, i, st =>
    if isdigit ch then _isDouble_loop rest (i + 1) st
    else if ch = '.' then
      if st.period_present then false
      else _isDouble_loop rest (i + 1) { st with period_present := true }
    else if ch = 'e' then
      if st.e_present then false
      else _isDouble_loop rest (i + 1)
        { st with e_present := true, ok_negative_loc := i + 1, ok_positive_loc := i + 1 }
    else if ch = '-' then
      if (i : Int) ≠ st.ok_negative_loc then false else _isDouble_loop rest (i + 1) st
    else if ch = '+' then
      if (i : Int) ≠ st.ok_positive_loc then false else _isDouble_loop rest (i + 1) st
    else false

/-- Determines whether the string is a valid double (`TextFileLoad::_isDouble`). -/
def _isDouble (str : List Char) : Bool :=
  let str := _trim str
  _isDouble_loop str 0
    { period_present := false, e_present := false, ok_negative_loc := 0, ok_positive_loc := -1 }

/-- The character loop of `_isLong`. -/
def _isLong_loop : List Char → Bool
  | [] => true
  | ch :: rest => if isdigit ch then _isLong_loop rest else false

/-- Determines whether the string is a valid long (`TextFileLoad::_isLong`). -/
def _isLong (str : List Char) : Bool :=
  let str := _trim str
  _isLong_loop str

/-- Determines what type a particular string could be converted to (`TextFileLoad::_getType`). -/
def _getType (str : List Char) : VT :=
  if str.length = 0 then _VT_BOOL
  else if _trim str = ['0'] || _trim str = ['1'] then _VT_BOOL
  else if !_isDouble (_trim str) then _VT_STRING
  else if !_isLong (_trim str) then _VT_DOUBLE
  else
    let tmp_long := atol str
    if tmp_long < 32768 ∧ tmp_long > -32768 then _VT_INT else _VT_LONG

/-! ## Private methods: tokenizer -/

/-- The `while` loop of `_splitString`: one iteration per delimiter found. The first argument
bounds the number of iterations; the result is `first_pos` and `results` after the loop. -/
def _splitString_loop (str : List Char) (delimit : Char) :
    Nat → Nat → Int → List (List Char) → Nat × List (List Char)
  | 0, first_pos, _, results => (first_pos, results)
  | fuel + 1, first_pos, next_pos, results =>
    if next_pos ≠ -1 then
      let str_length := next_pos - (first_pos : Int)
      let temp := substr str first_pos str_length.toNat
      let first_pos := (next_pos + 1).toNat
      _splitString_loop str delimit fuel first_pos (find str delimit first_pos) (results ++ [temp])
    else (first_pos, results)

/-- Tokenizes a string and returns the tokens (`TextFileLoad::_splitString`); `offset` is the
member set by `_openFile`. The length of the final token is computed in `size_t`, modulo 2^64. -/
def _splitString (offset : Int) (str : List Char) (delimit : Char) : List (List Char) :=
  let next_pos := find str delimit 0
  let (first_pos, results) := _splitString_loop str delimit (str.length + 1) 0 next_pos []
  let temp := substr str first_pos
    ((((str.length : Int) - (first_pos : Int) - offset) % 18446744073709551616).toNat)
  results ++ [temp]

/-! ## The object and its construction -/

/-- The structure `variant`: every member is present at once, `vt_type` tells which one holds
the value of interest. -/
structure variant (F : FloatModel) where
  vt_bool : Bool
  vt_int : Int
  vt_long : Int
  vt_double : F.D
  vt_string : List Char
  vt_type : VT

/-- The declaration `variant tmp;`: the string member is empty; the scalar members are
indeterminate in the source and are given fixed values here (they are never read before being
assigned). -/
def variant.uninit (F : FloatModel) : variant F :=
  { vt_bool := false, vt_int := 0, vt_long := 0, vt_double := F.zero, vt_string := [],
    vt_type := _VT_INT }

/-- The ways in which the program stops instead of returning. -/
inductive Fault where
  /-- The branch `First row is empty!` followed by `exit(1)`. -/
  | firstRowEmpty
  /-- The branch `Column name ... does not exist!` followed by `exit(1)`. -/
  | columnNotFound
  /-- A `vector` is read outside its bounds (undefined behaviour in the source). -/
  | outOfRange
  deriving DecidableEq, Repr

/-- The data members of the class `TextFileLoad` that outlive construction. -/
structure TextFileLoad (F : FloatModel) where
  delimiter : Char
  header_row : Bool
  field_names : List (List Char)
  field_types : List VT
  data : List (List (variant F))
  field_count : Nat
  row_count : Nat
  offset : Int

/-- The call `getline(in_stream, line)`: the next line and the rest of the stream; the line is
empty when nothing is left. -/
def getline (in_stream : List (List Char)) : List Char × List (List Char) :=
  match in_stream with
  | [] => ([], [])
  | line :: rest => (line, rest)

/-- Detects the end-of-line formatting (`TextFileLoad::_openFile`): the value of `offset`. -/
def _openFile (file : List (List Char)) : Int :=
  let full_row := (getline file).1
  let next_pos := find full_row '\r' 0
  if next_pos = -1 then 0 else 1

/-- Stores the field names, or just counts the fields (`TextFileLoad::_getFieldNames`). The
result is `field_names`, `field_count` and the stream as it is left for `_getFieldTypes`. -/
def _getFieldNames (file : List (List Char)) (delimiter : Char) (header_row : Bool)
    (offset : Int) : Except Fault (List (List Char) × Nat × List (List Char)) :=
  let (first_line, in_stream) := getline file
  if first_line.length = 0 then Except.error Fault.firstRowEmpty
  else
    let field_names := _splitString offset first_line delimiter
    let field_count := field_names.length
    if !header_row then Except.ok ([], field_count, file)
    else Except.ok (field_names, field_count, in_stream)

/-- The first loop of `_getFieldTypes`: reads in the entire dataset, skipping empty lines. -/
def _getFieldTypes_read : List (List Char) → List (List Char) → List (List Char)
  | [], data => data
  | tmp :: in_stream, data =>
    if tmp.length = 0 then _getFieldTypes_read in_stream data
    else _getFieldTypes_read in_stream (data ++ [tmp])

/-- The `switch` of `_getFieldTypes`: the new value of `type` after a datum classified `t`. -/
def _getFieldTypes_switch (type : VT) (t : VT) : VT :=
  match t with
  | _VT_BOOL => type
  | _VT_INT => if type = _VT_BOOL then _VT_INT else type
  | _VT_LONG => if type = _VT_BOOL ∨ type = _VT_INT then _VT_LONG else type
  | _VT_DOUBLE => if type ≠ _VT_STRING then _VT_DOUBLE else type
  | _VT_STRING => _VT_STRING

/-- The inner loop of `_getFieldTypes` over the rows `data[j]` still to visit, for column `i`. -/
def _getFieldTypes_rows (delimiter : Char) (offset : Int) (i : Nat) :
    List (List Char) → VT → Option VT
  | [], type => some type
  | row :: data, type =>
    let one_split_row := _splitString offset row delimiter
    match one_split_row[i]? with
    | none => none
    | some datum =>
      _getFieldTypes_rows delimiter offset i data (_getFieldTypes_switch type (_getType datum))

/-- The outer loop of `_getFieldTypes`: `n` columns remain, starting with column `i`. -/
def _getFieldTypes_cols (delimiter : Char) (offset : Int) (data : List (List Char)) :
    Nat → Nat → List VT → Option (List VT)
  | 0, _, field_types => some field_types
  | n + 1, i, field_types =>
    match _getFieldTypes_rows delimiter offset i data _VT_BOOL with
    | none => none
    | some type => _getFieldTypes_cols delimiter offset data n (i + 1) (field_types ++ [type])

/-- Determines the variable type for each field (`TextFileLoad::_getFieldTypes`). -/
def _getFieldTypes (field_count : Nat) (delimiter : Char) (offset : Int)
    (in_stream : List (List Char)) : Option (List VT) :=
  let data := _getFieldTypes_read in_stream []
  _getFieldTypes_cols delimiter offset data field_count 0 []

/-- The `switch` of `_getData`: the variant stored for one cell of a column of type `t`. -/
def _getData_switch (F : FloatModel) (t : VT) (cell : List Char) : variant F :=
  let tmp := variant.uninit F
  match t with
  | _VT_BOOL => { tmp with vt_type := _VT_BOOL, vt_bool := decide (atoi cell ≠ 0) }
  | _VT_INT => { tmp with vt_type := _VT_INT, vt_int := atoi cell }
  | _VT_LONG => { tmp with vt_type := _VT_LONG, vt_long := atol cell }
  | _VT_DOUBLE => { tmp with vt_type := _VT_DOUBLE, vt_double := F.atof cell }
  | _VT_STRING => { tmp with vt_type := _VT_STRING, vt_string := cell }

/-- The loop of `_getData` over the columns of one row: the cells from `col_num` on. -/
def _getData_cols (F : FloatModel) (field_types : List VT) :
    List (List Char) → Nat → List (variant F) → Option (List (variant F))
  | [], _, row_data => some row_data
  | cell :: cells, col_num, row_data =>
    match field_types[col_num]? with
    | none => none
    | some t =>
      _getData_cols F field_types cells (col_num + 1) (row_data ++ [_getData_switch F t cell])

/-- The loop of `_getData` over the lines of the stream: `data` and `row_count`. -/
def _getData_rows (F : FloatModel) (field_types : List VT) (delimiter : Char) (offset : Int) :
    List (List Char) → List (List (variant F)) → Nat → Option (List (List (variant F)) × Nat)
  | [], data, row_count => some (data, row_count)
  | full_row :: in_stream, data, row_count =>
    let split_row := _splitString offset full_row delimiter
    if full_row.length = 0 then
      _getData_rows F field_types delimiter offset in_stream data row_count
    else
      match _getData_cols F field_types split_row 0 [] with
      | none => none
      | some row_data =>
        _getData_rows F field_types delimiter offset in_stream (data ++ [row_data])
          (row_count + 1)

/-- Loads all the data into the vector of variants (`TextFileLoad::_getData`). -/
def _getData (F : FloatModel) (field_types : List VT) (delimiter : Char) (offset : Int)
    (header_row : Bool) (file : List (List Char)) :
    Option (List (List (variant F)) × Nat) :=
  let in_stream := if header_row then (getline file).2 else file
  _getData_rows F field_types delimiter offset in_stream [] 0

/-- The constructor `TextFileLoad(textfile, delimit, headers)` on the lines of the file. -/
def TextFileLoad.ctor (F : FloatModel) (file : List (List Char)) (delimit : Char)
    (headers : Bool) : Except Fault (TextFileLoad F) :=
  let offset := _openFile file
  match _getFieldNames file delimit headers offset with
  | Except.error e => Except.error e
  | Except.ok (field_names, field_count, in_stream) =>
    match _getFieldTypes field_count delimit offset in_stream with
    | none => Except.error Fault.outOfRange
    | some field_types =>
      match _getData F field_types delimit offset headers file with
      | none => Except.error Fault.outOfRange
      | some (data, row_count) =>
        Except.ok
          { delimiter := delimit, header_row := headers, field_names := field_names,
            field_types := field_types, data := data, field_count := field_count,
            row_count := row_count, offset := offset }

/-! ## Public methods: retrieval by column number -/

/-- The element `xs[i]` of a `vector` for an index of type `int`; `none` outside the bounds. -/
def vector_at {α : Type} (xs : List α) (i : Int) : Option α :=
  if i < 0 then none else xs[i.toNat]?

/-- The element `data[i][col_num]`. -/
def data_at {F : FloatModel} (t : TextFileLoad F) (i : Nat) (col_num : Int) :
    Option (variant F) :=
  match t.data[i]? with
  | none => none
  | some row => vector_at row col_num

/-- The call `col_data.clear()`. -/
def clear {α : Type} (_col_data : List α) : List α := []

/-- The loop `for(int i = 0; i < row_count; i++) col_data.push_back(...)` of `getField`, with
`n` iterations left, the next one at index `i`; `get i` is the value pushed at index `i`. -/
def getField_loop {α : Type} (get : Nat → Option α) : Nat → Nat → List α → Option (List α)
  | 0, _, col_data => some col_data
  | n + 1, i, col_data =>
    match get i with
    | none => none
    | some v => getField_loop get n (i + 1) (col_data ++ [v])

/-- The conversion of a `bool` to `int` or `long`. -/
def bool_to_int (b : Bool) : Int := if b then 1 else 0

/-- The text printed by the formats `%d` and `%ld`. -/
def fmt_d (v : Int) : List Char :=
  if v < 0 then '-' :: Nat.toDigits 10 v.natAbs else Nat.toDigits 10 v.natAbs

/-- The call `snprintf(conv, sizeof(conv), ...)` with `char conv[14]` followed by the conversion
of `conv` to a `string`: at most 13 characters of the text are kept. -/
def snprintf_conv (text : List Char) : List Char := text.take 13

/-- Overloaded version for BOOLS: `getField(int col_num, vector<bool>& col_data)`. -/
def getField_bool {F : FloatModel} (t : TextFileLoad F) (col_num : Int)
    (col_data : List Bool) : Option (List Bool) :=
  let col_num := col_num - 1
  let col_data := clear col_data
  match vector_at t.field_types col_num with
  | none => none
  | some _VT_BOOL =>
    getField_loop (fun i => (data_at t i col_num).map (fun v => v.vt_bool)) t.row_count 0
      col_data
  | some _VT_INT =>
    getField_loop (fun i => (data_at t i col_num).map (fun v => decide (v.vt_int ≠ 0)))
      t.row_count 0 col_data
  | some _VT_LONG =>
    getField_loop (fun i => (data_at t i col_num).map (fun v => decide (v.vt_long ≠ 0)))
      t.row_count 0 col_data
  | some _VT_DOUBLE =>
    getField_loop (fun i => (data_at t i col_num).map (fun v => F.toBool v.vt_double))
      t.row_count 0 col_data
  | some _VT_STRING => getField_loop (fun _ => some false) t.row_count 0 col_data

/-- Overloaded version for INTS: `getField(int col_num, vector<int>& col_data)`. -/
def getField_int {F : FloatModel} (t : TextFileLoad F) (col_num : Int)
    (col_data : List Int) : Option (List Int) :=
  let col_num := col_num - 1
  let col_data := clear col_data
  match vector_at t.field_types col_num with
  | none => none
  | some _VT_BOOL =>
    getField_loop (fun i => (data_at t i col_num).map (fun v => bool_to_int v.vt_bool))
      t.row_count 0 col_data
  | some _VT_INT =>
    getField_loop (fun i => (data_at t i col_num).map (fun v => v.vt_int)) t.row_count 0
      col_data
  | some _VT_LONG =>
    getField_loop (fun i => (data_at t i col_num).map (fun v => wrap32 v.vt_long))
      t.row_count 0 col_data
  | some _VT_DOUBLE =>
    getField_loop (fun i => (data_at t i col_num).map (fun v => F.toInt v.vt_double))
      t.row_count 0 col_data
  | some _VT_STRING => getField_loop (fun _ => some 0) t.row_count 0 col_data

/-- Overloaded version for LONGS: `getField(int col_num, vector<long>& col_data)`. -/
def getField_long {F : FloatModel} (t : TextFileLoad F) (col_num : Int)
    (col_data : List Int) : Option (List Int) :=
  let col_num := col_num - 1
  let col_data := clear col_data
  match vector_at t.field_types col_num with
  | none => none
  | some _VT_BOOL =>
    getField_loop (fun i => (data_at t i col_num).map (fun v => bool_to_int v.vt_bool))
      t.row_count 0 col_data
  | some _VT_INT =>
    getField_loop (fun i => (data_at t i col_num).map (fun v => v.vt_int)) t.row_count 0
      col_data
  | some _VT_LONG =>
    getField_loop (fun i => (data_at t i col_num).map (fun v => v.vt_long)) t.row_count 0
      col_data
  | some _VT_DOUBLE =>
    getField_loop (fun i => (data_at t i col_num).map (fun v => F.toLong v.vt_double))
      t.row_count 0 col_data
  | some _VT_STRING => getField_loop (fun _ => some 0) t.row_count 0 col_data

/-- Overloaded version for DOUBLES: `getField(int col_num, vector<double>& col_data)`. -/
def getField_double {F : FloatModel} (t : TextFileLoad F) (col_num : Int)
    (col_data : List F.D) : Option (List F.D) :=
  let col_num := col_num - 1
  let col_data := clear col_data
  match vector_at t.field_types col_num with
  | none => none
  | some _VT_BOOL =>
    getField_loop (fun i => (data_at t i col_num).map (fun v => F.ofBool v.vt_bool))
      t.row_count 0 col_data
  | some _VT_INT =>
    getField_loop (fun i => (data_at t i col_num).map (fun v => F.ofInt v.vt_int))
      t.row_count 0 col_data
  | some _VT_LONG =>
    getField_loop (fun i => (data_at t i col_num).map (fun v => F.ofLong v.vt_long))
      t.row_count 0 col_data
  | some _VT_DOUBLE =>
    getField_loop (fun i => (data_at t i col_num).map (fun v => v.vt_double)) t.row_count 0
      col_data
  | some _VT_STRING => getField_loop (fun _ => some F.zero) t.row_count 0 col_data

/-- Overloaded version for STRINGS: `getField(int col_num, vector<string>& col_data)`. -/
def getField_string {F : FloatModel} (t : TextFileLoad F) (col_num : Int)
    (col_data : List (List Char)) : Option (List (List Char)) :=
  let col_num := col_num - 1
  let col_data := clear col_data
  match vector_at t.field_types col_num with
  | none => none
  | some _VT_BOOL =>
    getField_loop
      (fun i => (data_at t i col_num).map (fun v => snprintf_conv (fmt_d (bool_to_int v.vt_bool))))
      t.row_count 0 col_data
  | some _VT_INT =>
    getField_loop (fun i => (data_at t i col_num).map (fun v => snprintf_conv (fmt_d v.vt_int)))
      t.row_count 0 col_data
  | some _VT_LONG =>
    getField_loop (fun i => (data_at t i col_num).map (fun v => snprintf_conv (fmt_d v.vt_long)))
      t.row_count 0 col_data
  | some _VT_DOUBLE =>
    getField_loop
      (fun i => (data_at t i col_num).map (fun v => snprintf_conv (F.fmt v.vt_double)))
      t.row_count 0 col_data
  | some _VT_STRING =>
    getField_loop (fun i => (data_at t i col_num).map (fun v => v.vt_string)) t.row_count 0
      col_data

/-! ## Private and public methods: lookup by column name -/

/-- The C library `toupper` in the "C" locale on one character. -/
def toupper (c : Char) : Char :=
  if 'a' ≤ c ∧ c ≤ 'z' then Char.ofNat (c.toNat - 32) else c

/-- Capitalizes a string (`TextFileLoad::_toUpper`): `toupper` on every character. -/
def _toUpper : List Char → List Char
  | [] => []
  | ch :: str => toupper ch :: _toUpper str

/-- The loop of `_getColNum`: `n` columns remain, starting with `col_num`; `column_name` is
already capitalized when the search is not case sensitive. -/
def _getColNum_loop (field_names : List (List Char)) (column_name : List Char)
    (case_sensitive : Bool) : Nat → Nat → Except Fault Nat
  | 0, _ => Except.error Fault.columnNotFound
  | n + 1, col_num =>
    match field_names[col_num]? with
    | none => Except.error Fault.outOfRange
    | some field_name =>
      let col_name := if case_sensitive then field_name else _toUpper field_name
      if column_name = col_name then Except.ok col_num
      else _getColNum_loop field_names column_name case_sensitive n (col_num + 1)

/-- Returns the column number for a given column name (`TextFileLoad::_getColNum`); when the
column is not found the program exits. -/
def _getColNum {F : FloatModel} (t : TextFileLoad F) (column_name : List Char)
    (case_sensitive : Bool) : Except Fault Nat :=
  let column_name := if !case_sensitive then _toUpper column_name else column_name
  _getColNum_loop t.field_names column_name case_sensitive t.field_count 0

/-- Returns the field names for the columns (`TextFileLoad::getFieldNames`). -/
def getFieldNames {F : FloatModel} (t : TextFileLoad F) : List (List Char) := t.field_names

/-- The label that `getFieldTypes` gives to a type. -/
def typeLabel : VT → List Char
  | _VT_BOOL => "BOOLEAN".toList
  | _VT_INT => "INT".toList
  | _VT_LONG => "LONG".toList
  | _VT_DOUBLE => "DOUBLE".toList
  | _VT_STRING => "STRING".toList

/-- The loop of `getFieldTypes` over the types still to label. -/
def getFieldTypes_loop : List VT → List (List Char) → List (List Char)
  | [], types => types
  | type :: rest, types => getFieldTypes_loop rest (types ++ [typeLabel type])

/-- Returns the field types for the columns as strings (`TextFileLoad::getFieldTypes`). -/
def getFieldTypes {F : FloatModel} (t : TextFileLoad F) : List (List Char) :=
  getFieldTypes_loop t.field_types []

/-- The loop of `existsFieldName` over the field names still to compare; `name` is already
capitalized when the search is not case sensitive. -/
def existsFieldName_loop (name : List Char) (case_sensitive : Bool) : List (List Char) → Bool
  | [] => false
  | field_name :: rest =>
    if case_sensitive && decide (name = field_name) then true
    else if name = _toUpper field_name then true
    else existsFieldName_loop name case_sensitive rest

/-- Returns true if the string parameter matches the name of an existing field
(`TextFileLoad::existsFieldName`). -/
def existsFieldName {F : FloatModel} (t : TextFileLoad F) (name : List Char)
    (case_sensitive : Bool) : Bool :=
  let name := if !case_sensitive then _toUpper name else name
  existsFieldName_loop name case_sensitive t.field_names

/-- Returns the number of columns in the dataset (`TextFileLoad::getFieldCount`). -/
def getFieldCount {F : FloatModel} (t : TextFileLoad F) : Nat := t.field_count

/-- Returns the number of rows in the dataset (`TextFileLoad::getRowCount`). -/
def getRowCount {F : FloatModel} (t : TextFileLoad F) : Nat := t.row_count

/-- The outcome of a call of `getField` by column number made from `getField` by column name:
reading outside the bounds is a fault. -/
def byNumber {α : Type} (r : Option (List α)) : Except Fault (List α) :=
  match r with
  | none => Except.error Fault.outOfRange
  | some col_data => Except.ok col_data

/-- Overloaded version for BOOLS: `getField(string field_name, vector<bool>&, bool)`. -/
def getField_bool_by_name {F : FloatModel} (t : TextFileLoad F) (field_name : List Char)
    (col_data : List Bool) (case_sensitive : Bool) : Except Fault (List Bool) :=
  match _getColNum t field_name case_sensitive with
  | Except.error e => Except.error e
  | Except.ok col_num => byNumber (getField_bool t ((col_num : Int) + 1) col_data)

/-- Overloaded version for INTS: `getField(string field_name, vector<int>&, bool)`. -/
def getField_int_by_name {F : FloatModel} (t : TextFileLoad F) (field_name : List Char)
    (col_data : List Int) (case_sensitive : Bool) : Except Fault (List Int) :=
  match _getColNum t field_name case_sensitive with
  | Except.error e => Except.error e
  | Except.ok col_num => byNumber (getField_int t ((col_num : Int) + 1) col_data)

/-- Overloaded version for LONGS: `getField(string field_name, vector<long>&, bool)`. -/
def getField_long_by_name {F : FloatModel} (t : TextFileLoad F) (field_name : List Char)
    (col_data : List Int) (case_sensitive : Bool) : Except Fault (List Int) :=
  match _getColNum t field_name case_sensitive with
  | Except.error e => Except.error e
  | Except.ok col_num => byNumber (getField_long t ((col_num : Int) + 1) col_data)

/-- Overloaded version for DOUBLES: `getField(string field_name, vector<double>&, bool)`. -/
def getField_double_by_name {F : FloatModel} (t : TextFileLoad F) (field_name : List Char)
    (col_data : List F.D) (case_sensitive : Bool) : Except Fault (List F.D) :=
  match _getColNum t field_name case_sensitive with
  | Except.error e => Except.error e
  | Except.ok col_num => byNumber (getField_double t ((col_num : Int) + 1) col_data)

/-- Overloaded version for STRINGS: `getField(string field_name, vector<string>&, bool)`. -/
def getField_string_by_name {F : FloatModel} (t : TextFileLoad F) (field_name : List Char)
    (col_data : List (List Char)) (case_sensitive : Bool) : Except Fault (List (List Char)) :=
  match _getColNum t field_name case_sensitive with
  | Except.error e => Except.error e
  | Except.ok col_num => byNumber (getField_string t ((col_num : Int) + 1) col_data)

/-! ## An exact-arithmetic instance of the operations on doubles

Used to evaluate the program on concrete inputs. Every value is the exact rational number that
the decimal text denotes; binary rounding is not represented. -/

/-- Scans a run of decimal digits: the accumulated value, the number of digits read and the
characters that follow the run. -/
def scanDigits : List Char → Nat → Nat → Nat × Nat × List Char
  | [], acc, n => (acc, n, [])
  | c :: cs, acc, n =>
    if isdigit c then scanDigits cs (acc * 10 + (c.toNat - 48)) (n + 1) else (acc, n, c :: cs)

/-- The decimal exponent that follows the mantissa: `e` or `E`, an optional sign and at least
one digit; zero when no well-formed exponent is there. -/
def scanExponent : List Char → Int
  | [] => 0
  | c :: r =>
    if c = 'e' ∨ c = 'E' then
      match r with
      | '-' :: r1 => -((scanDigits r1 0 0).1 : Int)
      | '+' :: r1 => ((scanDigits r1 0 0).1 : Int)
      | _ => ((scanDigits r 0 0).1 : Int)
    else 0

/-- The number denoted by an unsigned decimal text: digits, an optional point and digits, an
optional exponent; zero when there is no digit in the mantissa. -/
def decimalValue (s : List Char) : ℚ :=
  let (ip, n1, r1) := scanDigits s 0 0
  let (m, n2, r2) :=
    match r1 with
    | '.' :: r => scanDigits r ip 0
    | _ => (ip, 0, r1)
  if n1 + n2 = 0 then 0
  else
    let e : Int := scanExponent r2 - (n2 : Int)
    if 0 ≤ e then (m : ℚ) * (10 : ℚ) ^ e.toNat else (m : ℚ) / (10 : ℚ) ^ (-e).toNat

/-- The value of `strtod` on decimal input: white space, an optional sign, a decimal text. -/
def strtod_exact : List Char → ℚ
  | [] => 0
  | c :: cs =>
    if isspace c then strtod_exact cs
    else if c = '-' then -decimalValue cs
    else if c = '+' then decimalValue cs
    else decimalValue (c :: cs)

/-- The text of the format `%f` for an exact value: six decimals, rounded to nearest. -/
def fmt_f_exact (d : ℚ) : List Char :=
  let n : Nat := (Rat.floor (|d| * 1000000 + 1 / 2)).toNat
  let frac := Nat.toDigits 10 (n % 1000000)
  let body := Nat.toDigits 10 (n / 1000000) ++ '.' :: (List.replicate (6 - frac.length) '0' ++ frac)
  if d < 0 then '-' :: body else body

/-- Doubles read as exact rationals; casts to integer types truncate toward zero. -/
def exactModel : FloatModel where
  D := ℚ
  zero := 0
  atof := strtod_exact
  toBool := fun d => decide (d ≠ 0)
  toInt := fun d => wrap32 (Int.tdiv d.num d.den)
  toLong := fun d => Int.tdiv d.num d.den
  ofBool := fun b => if b then 1 else 0
  ofInt := fun n => (n : ℚ)
  ofLong := fun n => (n : ℚ)
  fmt := fmt_f_exact

/-- A sample file: a header and three data lines, one of them empty. -/
def sampleFile : List (List Char) :=
  ["id\tn\tnote".toList, "1\t5\tx".toList, [], "0\t70000\t5".toList]

/-! ## Notions used to state the properties -/

/-- The tokens of a line by structural recursion: the pieces between the occurrences of the
delimiter. The loop of `_splitString` is checked against it. -/
def tokens (d : Char) : List Char → List (List Char)
  | [] => [[]]
  | c :: cs =>
    if c = d then [] :: tokens d cs
    else
      match tokens d cs with
      | t :: ts => (c :: t) :: ts
      | [] => [[c]]

/-- The final token as `_splitString` cuts it: `len - offset` characters, computed modulo
2^64, of the text after the last delimiter. -/
def finalToken (offset : Int) (last : List Char) : List Char :=
  last.take ((((last.length : Int) - offset) % 18446744073709551616).toNat)

/-- The data rows that the type-inference pass keeps: the lines of the stream that are not
empty, in order. -/
def dataRows (in_stream : List (List Char)) : List (List Char) :=
  in_stream.filter (fun tmp => !decide (tmp.length = 0))

/-- The raw cell of column `i` (0-based) of a line, when the line has that many tokens. -/
def rawCell (offset : Int) (delimiter : Char) (row : List Char) (i : Nat) :
    Option (List Char) :=
  (_splitString offset row delimiter)[i]?

/-- The classification of the raw cell of column `i` of a line (`_VT_BOOL` when the line has no
such cell). -/
def cellType (offset : Int) (delimiter : Char) (i : Nat) (row : List Char) : VT :=
  match rawCell offset delimiter row i with
  | some datum => _getType datum
  | none => _VT_BOOL

/-- Every data row of the stream has at least `field_count` tokens. -/
def RowsCover (field_count : Nat) (delimiter : Char) (offset : Int)
    (in_stream : List (List Char)) : Prop :=
  ∀ row ∈ in_stream, row ≠ [] → field_count ≤ (_splitString offset row delimiter).length

/-- The type resolved for column `i` (0-based) by `_getFieldTypes`, when it returns and the
column exists. -/
def resolvedType (field_count : Nat) (delimiter : Char) (offset : Int)
    (in_stream : List (List Char)) (i : Nat) : Option VT :=
  match _getFieldTypes field_count delimiter offset in_stream with
  | none => none
  | some field_types => field_types[i]?

/-- Every data row among `lines` has "0", "1" or the empty string as raw cell of column `i`. -/
def BoolCells (offset : Int) (delimiter : Char) (i : Nat) (lines : List (List Char)) : Prop :=
  ∀ row ∈ lines, row ≠ [] →
    rawCell offset delimiter row i = some ['0'] ∨ rawCell offset delimiter row i = some ['1'] ∨
      rawCell offset delimiter row i = some []

/-- The invariant of a constructed object: one type per field, `row_count` rows, and
`field_count` cells in every row. -/
def WellFormed {F : FloatModel} (t : TextFileLoad F) : Prop :=
  t.field_types.length = t.field_count ∧ t.data.length = t.row_count ∧
    ∀ row ∈ t.data, row.length = t.field_count

/-- The conversion that `getField` into a `vector<bool>` applies to a stored value of a column
of the given type. -/
def convert_bool (F : FloatModel) (type : VT) (v : variant F) : Bool :=
  match type with
  | _VT_BOOL => v.vt_bool
  | _VT_INT => decide (v.vt_int ≠ 0)
  | _VT_LONG => decide (v.vt_long ≠ 0)
  | _VT_DOUBLE => F.toBool v.vt_double
  | _VT_STRING => false

/-- The conversion that `getField` into a `vector<int>` applies to a stored value. -/
def convert_int (F : FloatModel) (type : VT) (v : variant F) : Int :=
  match type with
  | _VT_BOOL => bool_to_int v.vt_bool
  | _VT_INT => v.vt_int
  | _VT_LONG => wrap32 v.vt_long
  | _VT_DOUBLE => F.toInt v.vt_double
  | _VT_STRING => 0

/-- The conversion that `getField` into a `vector<long>` applies to a stored value. -/
def convert_long (F : FloatModel) (type : VT) (v : variant F) : Int :=
  match type with
  | _VT_BOOL => bool_to_int v.vt_bool
  | _VT_INT => v.vt_int
  | _VT_LONG => v.vt_long
  | _VT_DOUBLE => F.toLong v.vt_double
  | _VT_STRING => 0

/-- The conversion that `getField` into a `vector<double>` applies to a stored value. -/
def convert_double (F : FloatModel) (type : VT) (v : variant F) : F.D :=
  match type with
  | _VT_BOOL => F.ofBool v.vt_bool
  | _VT_INT => F.ofInt v.vt_int
  | _VT_LONG => F.ofLong v.vt_long
  | _VT_DOUBLE => v.vt_double
  | _VT_STRING => F.zero

/-- The conversion that `getField` into a `vector<string>` applies to a stored value. -/
def convert_string (F : FloatModel) (type : VT) (v : variant F) : List Char :=
  match type with
  | _VT_BOOL => snprintf_conv (fmt_d (bool_to_int v.vt_bool))
  | _VT_INT => snprintf_conv (fmt_d v.vt_int)
  | _VT_LONG => snprintf_conv (fmt_d v.vt_long)
  | _VT_DOUBLE => snprintf_conv (F.fmt v.vt_double)
  | _VT_STRING => v.vt_string

/-- The object that the constructor builds from `sampleFile` read with a header. -/
def sampleTable : TextFileLoad exactModel :=
  { delimiter := '\t', header_row := true,
    field_names := ["id".toList, "n".toList, "note".toList],
    field_types := [_VT_BOOL, _VT_LONG, _VT_STRING],
    data :=
      [[{ variant.uninit exactModel with vt_type := _VT_BOOL, vt_bool := true },
        { variant.uninit exactModel with vt_type := _VT_LONG, vt_long := 5 },
        { variant.uninit exactModel with vt_type := _VT_STRING, vt_string := "x".toList }],
       [{ variant.uninit exactModel with vt_type := _VT_BOOL, vt_bool := false },
        { variant.uninit exactModel with vt_type := _VT_LONG, vt_long := 70000 },
        { variant.uninit exactModel with vt_type := _VT_STRING, vt_string := "5".toList }]],
    field_count := 3, row_count := 2, offset := 0 }

/-- The lines that the two passes over the data read: the lines after the header when a header
row was specified, all the lines otherwise. -/
def dataLines (header_row : Bool) (file : List (List Char)) : List (List Char) :=
  if header_row then (getline file).2 else file

/-- The fault with which a computation stopped, if it did. -/
def faultOf {α : Type} (r : Except Fault α) : Option Fault :=
  match r with
  | Except.error e => some e
  | Except.ok _ => none

/-- Position `i` of `s` is immediately after an exponent marker. -/
def AfterMarker (markers : List Char) (s : List Char) (i : Nat) : Prop :=
  ∃ j, i = j + 1 ∧ ∃ m ∈ markers, s[j]? = some m

/-- A valid floating-point lexeme, in the words of the specification, for a given list of
exponent markers: only digits, `.`, markers, `-` and `+` occur; at most one `.`; at most one
exponent marker; `-` occurs only at position 0 or immediately after the exponent marker; `+`
occurs only immediately after the exponent marker. -/
def ValidLexeme (markers : List Char) (s : List Char) : Prop :=
  (∀ c ∈ s, isdigit c = true ∨ c = '.' ∨ c ∈ markers ∨ c = '-' ∨ c = '+') ∧
  s.count '.' ≤ 1 ∧
  s.countP (fun c => decide (c ∈ markers)) ≤ 1 ∧
  (∀ i, s[i]? = some '-' → i = 0 ∨ AfterMarker markers s i) ∧
  (∀ i, s[i]? = some '+' → AfterMarker markers s i)

/-- The character `c` may follow the already accepted characters `pre`. -/
def StepOK (pre : List Char) (c : Char) : Prop :=
  (isdigit c = true ∨ c = '.' ∨ c = 'e' ∨ c = '-' ∨ c = '+') ∧
  (c = '.' → '.' ∉ pre) ∧ (c = 'e' → 'e' ∉ pre) ∧
  (c = '-' → pre = [] ∨ pre.getLast? = some 'e') ∧
  (c = '+' → pre.getLast? = some 'e')

/-- Every character of `cs` may follow the characters before it, `pre` being accepted. -/
def ValidSteps : List Char → List Char → Prop
  | _, [] => True
  | pre, c :: cs => StepOK pre c ∧ ValidSteps (pre ++ [c]) cs

/-- The relation between the characters `pre` already scanned by the loop of `_isDouble` and
its state at index `i`. -/
structure ScanInv (pre : List Char) (i : Nat) (st : DoubleScan) : Prop where
  idx : i = pre.length
  period : st.period_present = true ↔ '.' ∈ pre
  exp : st.e_present = true ↔ 'e' ∈ pre
  neg : (i : Int) = st.ok_negative_loc ↔ (pre = [] ∨ pre.getLast? = some 'e')
  pos : (i : Int) = st.ok_positive_loc ↔ pre.getLast? = some 'e'
  neg_le : st.ok_negative_loc ≤ (i : Int)
  pos_le : st.ok_positive_loc ≤ (i : Int)

/-- A file with one column, whose single data cell is an integer of 14 digits. -/
def longFile : List (List Char) := ["n".toList, "12345678901234".toList]

/-- The object that the constructor builds from `longFile` read with a header. -/
def longTable : TextFileLoad exactModel :=
  { delimiter := '\t', header_row := true, field_names := ["n".toList],
    field_types := [_VT_LONG],
    data := [[{ variant.uninit exactModel with vt_type := _VT_LONG, vt_long := 12345678901234 }]],
    field_count := 1, row_count := 1, offset := 0 }

/-- A file in carriage-return mode: every line but the last ends in a carriage return, the
last line has no line terminator. -/
def crFile : List (List Char) :=
  ["x\ty\r".toList, "1\thello\r".toList, "0\tworld".toList]

/-- The row that `_getData` stores for the cells of one line, the first cell being in column
`col_num`: each cell converted for the type of its column. -/
def storedRow (F : FloatModel) (field_types : List VT) : List (List Char) → Nat → List (variant F)
  | [], _ => []
  | cell :: cells, col_num =>
    _getData_switch F (field_types.getD col_num _VT_INT) cell
      :: storedRow F field_types cells (col_num + 1)

/-- The key under which a name is compared: the name itself when the comparison is case
sensitive, the capitalized name otherwise. -/
def nameKey (case_sensitive : Bool) (name : List Char) : List Char :=
  if case_sensitive then name else _toUpper name

/-- The field of ordinal `c` (0-based) exists and its name matches `name`. -/
def NameMatches {F : FloatModel} (t : TextFileLoad F) (name : List Char) (case_sensitive : Bool)
    (c : Nat) : Prop :=
  ∃ field_name, t.field_names[c]? = some field_name ∧
    nameKey case_sensitive name = nameKey case_sensitive field_name

/-- A file with a header whose String column holds padded texts, one of them numeric. -/
def paddedFile : List (List Char) :=
  [" a\tNote ".toList, "7\t x y ".toList, "8\t 5".toList]

/-- The object that the constructor builds from `paddedFile` read with a header. -/
def paddedTable : TextFileLoad exactModel :=
  { delimiter := '\t', header_row := true,
    field_names := [" a".toList, "Note ".toList],
    field_types := [_VT_INT, _VT_STRING],
    data :=
      [[{ variant.uninit exactModel with vt_type := _VT_INT, vt_int := 7 },
        { variant.uninit exactModel with vt_type := _VT_STRING, vt_string := " x y ".toList }],
       [{ variant.uninit exactModel with vt_type := _VT_INT, vt_int := 8 },
        { variant.uninit exactModel with vt_type := _VT_STRING, vt_string := " 5".toList }]],
    field_count := 2, row_count := 2, offset := 0 }

/-- The tab-delimited file of the end-to-end scenario: a header and two data lines. -/
def scenarioFile : List (List Char) :=
  ["id\tvalue\tnote".toList, "1\t3.14\thello".toList, "0\t2\tworld".toList]

/-- The two data lines of the scenario without the header line. -/
def scenarioData : List (List Char) :=
  ["1\t3.14\thello".toList, "0\t2\tworld".toList]

/-- The object that the constructor builds from `scenarioFile` read with a header. -/
def scenarioTable (F : FloatModel) : TextFileLoad F :=
  { delimiter := '\t', header_row := true,
    field_names := ["id".toList, "value".toList, "note".toList],
    field_types := [_VT_BOOL, _VT_DOUBLE, _VT_STRING],
    data :=
      [[{ variant.uninit F with vt_type := _VT_BOOL, vt_bool := true },
        { variant.uninit F with vt_type := _VT_DOUBLE, vt_double := F.atof "3.14".toList },
        { variant.uninit F with vt_type := _VT_STRING, vt_string := "hello".toList }],
       [{ variant.uninit F with vt_type := _VT_BOOL, vt_bool := false },
        { variant.uninit F with vt_type := _VT_DOUBLE, vt_double := F.atof "2".toList },
        { variant.uninit F with vt_type := _VT_STRING, vt_string := "world".toList }]],
    field_count := 3, row_count := 2, offset := 0 }

/-- The object that the constructor builds from `scenarioData` read without a header. -/
def scenarioDataTable (F : FloatModel) : TextFileLoad F :=
  { scenarioTable F with header_row := false, field_names := [] }

/-- A file with one column of each type, whose second data line has only blank cells. -/
def blankFile : List (List Char) :=
  ["a\tb\tc\td\te".toList, "1\t5\t70000\t1.5\tx".toList, "\t\t\t\t".toList]

/-- The object that the constructor builds from `blankFile` read with a header. -/
def blankTable : TextFileLoad exactModel :=
  { delimiter := '\t', header_row := true,
    field_names := ["a".toList, "b".toList, "c".toList, "d".toList, "e".toList],
    field_types := [_VT_BOOL, _VT_INT, _VT_LONG, _VT_DOUBLE, _VT_STRING],
    data :=
      [[{ variant.uninit exactModel with vt_type := _VT_BOOL, vt_bool := true },
        { variant.uninit exactModel with vt_type := _VT_INT, vt_int := 5 },
        { variant.uninit exactModel with vt_type := _VT_LONG, vt_long := 70000 },
        { variant.uninit exactModel with vt_type := _VT_DOUBLE,
                                         vt_double := strtod_exact "1.5".toList },
        { variant.uninit exactModel with vt_type := _VT_STRING, vt_string := "x".toList }],
       [{ variant.uninit exactModel with vt_type := _VT_BOOL, vt_bool := false },
        { variant.uninit exactModel with vt_type := _VT_INT, vt_int := 0 },
        { variant.uninit exactModel with vt_type := _VT_LONG, vt_long := 0 },
        { variant.uninit exactModel with vt_type := _VT_DOUBLE, vt_double := strtod_exact [] },
        { variant.uninit exactModel with vt_type := _VT_STRING, vt_string := [] }]],
    field_count := 5, row_count := 2, offset := 0 }

/-- The value stored for the blank cell of the Double column of `blankFile`. -/
def blankDoubleCell : variant exactModel :=
  { variant.uninit exactModel with vt_type := _VT_DOUBLE, vt_double := strtod_exact [] }

/-- A file whose integer cells carry leading zeros and space padding. -/
def digitsFile : List (List Char) :=
  ["a\tb\tc".toList, " 007 \t 40000\t1".toList, "12\t0005 \t 0 ".toList]

/-- The object that the constructor builds from `digitsFile` read with a header. -/
def digitsTable : TextFileLoad exactModel :=
  { delimiter := '\t', header_row := true,
    field_names := ["a".toList, "b".toList, "c".toList],
    field_types := [_VT_INT, _VT_LONG, _VT_BOOL],
    data :=
      [[{ variant.uninit exactModel with vt_type := _VT_INT, vt_int := 7 },
        { variant.uninit exactModel with vt_type := _VT_LONG, vt_long := 40000 },
        { variant.uninit exactModel with vt_type := _VT_BOOL, vt_bool := true }],
       [{ variant.uninit exactModel with vt_type := _VT_INT, vt_int := 12 },
        { variant.uninit exactModel with vt_type := _VT_LONG, vt_long := 5 },
        { variant.uninit exactModel with vt_type := _VT_BOOL, vt_bool := false }]],
    field_count := 3, row_count := 2, offset := 0 }

/-! ## Classification of single values -/

/-- C2 (boundary between Int and Long): `_getType` classifies "32767" as Int and "32768" as
Long, but it classifies both "-32767" and "-32768" as Double, because `_isLong` rejects the
sign; the lower bound test of `_getType` is never reached with a negative value. -/
theorem C2_negative_boundary_is_double :
    _getType "32767".toList = _VT_INT ∧ _getType "32768".toList = _VT_LONG ∧
      _isLong "-32767".toList = false ∧ _getType "-32767".toList = _VT_DOUBLE ∧
      _getType "-32768".toList = _VT_DOUBLE := by
  decide

/-! ## Resolution of column types -/

theorem getFieldTypes_read_eq (in_stream data : List (List Char)) :
    _getFieldTypes_read in_stream data = data ++ dataRows in_stream := by
  induction in_stream generalizing data with
  | nil => simp [_getFieldTypes_read, dataRows]
  | cons tmp rest ih =>
    by_cases h : tmp.length = 0
    · have ht : tmp = [] := List.length_eq_zero.mp h
      subst ht
      simp [_getFieldTypes_read, dataRows, ih]
    · have ht : tmp ≠ [] := fun e => h (by simp [e])
      simp [_getFieldTypes_read, dataRows, h, ih, ht]

theorem mem_dataRows {in_stream : List (List Char)} {row : List Char} :
    row ∈ dataRows in_stream ↔ row ∈ in_stream ∧ row ≠ [] := by
  simp [dataRows]

theorem rank_switch (type t : VT) :
    rank (_getFieldTypes_switch type t) = max (rank type) (rank t) := by
  cases type <;> cases t <;> decide

theorem switch_eq_or (type t : VT) :
    _getFieldTypes_switch type t = type ∨ _getFieldTypes_switch type t = t := by
  cases type <;> cases t <;> decide

theorem switch_comm (type a b : VT) :
    _getFieldTypes_switch (_getFieldTypes_switch type a) b
      = _getFieldTypes_switch (_getFieldTypes_switch type b) a := by
  cases type <;> cases a <;> cases b <;> decide

theorem rank_injective {a b : VT} (h : rank a = rank b) : a = b := by
  cases a <;> cases b <;> first | rfl | (exact absurd h (by decide))

/-- The inner loop returns the fold of the `switch` over the classifications of the column,
when every row has the column. -/
theorem getFieldTypes_rows_eq (delimiter : Char) (offset : Int) (i : Nat)
    (data : List (List Char)) (type : VT)
    (h : ∀ row ∈ data, i < (_splitString offset row delimiter).length) :
    _getFieldTypes_rows delimiter offset i data type
      = some (data.foldl
          (fun ty row => _getFieldTypes_switch ty (cellType offset delimiter i row)) type) := by
  induction data generalizing type with
  | nil => simp [_getFieldTypes_rows]
  | cons row rest ih =>
    have hrow : i < (_splitString offset row delimiter).length := h row (by simp)
    have hcell : (_splitString offset row delimiter)[i]?
        = some ((_splitString offset row delimiter)[i]) := List.getElem?_eq_getElem hrow
    have hrest : ∀ r ∈ rest, i < (_splitString offset r delimiter).length :=
      fun r hr => h r (by simp [hr])
    simp only [_getFieldTypes_rows, hcell, List.foldl_cons, cellType, rawCell]
    exact ih _ hrest

theorem getFieldTypes_cols_eq (delimiter : Char) (offset : Int) (data : List (List Char))
    (bound : Nat) (h : ∀ row ∈ data, bound ≤ (_splitString offset row delimiter).length)
    (n i : Nat) (hn : i + n ≤ bound) (field_types : List VT) :
    _getFieldTypes_cols delimiter offset data n i field_types
      = some (field_types ++ (List.range' i n).map (fun k => data.foldl
          (fun ty row => _getFieldTypes_switch ty (cellType offset delimiter k row))
          _VT_BOOL)) := by
  induction n generalizing i field_types with
  | zero => simp [_getFieldTypes_cols]
  | succ n ih =>
    have hi : ∀ row ∈ data, i < (_splitString offset row delimiter).length :=
      fun row hr => by have := h row hr; omega
    simp only [_getFieldTypes_cols, getFieldTypes_rows_eq delimiter offset i data _VT_BOOL hi]
    rw [ih (i + 1) (by omega)]
    simp [List.range'_succ]

/-- The closed form of `_getFieldTypes` on streams whose data rows have enough tokens. -/
theorem getFieldTypes_eq (field_count : Nat) (delimiter : Char) (offset : Int)
    (in_stream : List (List Char)) (h : RowsCover field_count delimiter offset in_stream) :
    _getFieldTypes field_count delimiter offset in_stream
      = some ((List.range field_count).map (fun k => (dataRows in_stream).foldl
          (fun ty row => _getFieldTypes_switch ty (cellType offset delimiter k row))
          _VT_BOOL)) := by
  have hd : ∀ row ∈ dataRows in_stream,
      field_count ≤ (_splitString offset row delimiter).length := by
    intro row hr
    rw [mem_dataRows] at hr
    exact h row hr.1 hr.2
  unfold _getFieldTypes
  simp only [getFieldTypes_read_eq, List.nil_append]
  rw [getFieldTypes_cols_eq delimiter offset _ field_count hd field_count 0 (by omega)]
  simp [List.range_eq_range']

/-- The fold of the `switch` is an upper bound of the start value and of every classification
it meets, and it is one of them. -/
theorem fold_switch_spec (f : List Char → VT) (data : List (List Char)) (type : VT) :
    rank type ≤ rank (data.foldl (fun ty row => _getFieldTypes_switch ty (f row)) type) ∧
    (∀ row ∈ data,
      rank (f row) ≤ rank (data.foldl (fun ty row => _getFieldTypes_switch ty (f row)) type)) ∧
    (data.foldl (fun ty row => _getFieldTypes_switch ty (f row)) type = type ∨
      ∃ row ∈ data, f row = data.foldl (fun ty row => _getFieldTypes_switch ty (f row)) type) := by
  induction data generalizing type with
  | nil => simp
  | cons row rest ih =>
    obtain ⟨h1, h2, h3⟩ := ih (_getFieldTypes_switch type (f row))
    have hr := rank_switch type (f row)
    simp only [List.foldl_cons]
    refine ⟨by omega, ?_, ?_⟩
    · intro r hr'
      rcases List.mem_cons.mp hr' with rfl | hmem
      · omega
      · exact h2 r hmem
    · rcases h3 with h3 | ⟨r, hr', hfr⟩
      · rcases switch_eq_or type (f row) with hs | hs
        · left; rw [h3, hs]
        · right; exact ⟨row, by simp, by rw [h3, hs]⟩
      · right; exact ⟨r, by simp [hr'], hfr⟩

theorem cellType_of_rawCell {offset : Int} {delimiter : Char} {row : List Char} {i : Nat}
    {datum : List Char} (h : rawCell offset delimiter row i = some datum) :
    cellType offset delimiter i row = _getType datum := by
  simp [cellType, h]

theorem rawCell_of_lt {offset : Int} {delimiter : Char} {row : List Char} {i : Nat}
    (h : i < (_splitString offset row delimiter).length) :
    rawCell offset delimiter row i = some ((_splitString offset row delimiter)[i]) := by
  simp [rawCell, List.getElem?_eq_getElem h]

theorem splitString_nil (offset : Int) (delimiter : Char) :
    _splitString offset [] delimiter = [[]] := by
  simp [_splitString, find, find_from, _splitString_loop, substr]

theorem resolvedType_eq (field_count : Nat) (delimiter : Char) (offset : Int)
    (in_stream : List (List Char)) (h : RowsCover field_count delimiter offset in_stream)
    (i : Nat) (hi : i < field_count) :
    resolvedType field_count delimiter offset in_stream i
      = some ((dataRows in_stream).foldl
          (fun ty row => _getFieldTypes_switch ty (cellType offset delimiter i row))
          _VT_BOOL) := by
  simp [resolvedType, getFieldTypes_eq field_count delimiter offset in_stream h, hi]

/-- C1 (resolved type is the column maximum): when every data row has at least `field_count`
tokens, `_getFieldTypes` returns `field_count` types, and the type of each column is an upper
bound, in the order Bool < Int < Long < Double < String, of the classification by `_getType` of
the raw cell of every data row, and is Bool or the classification of one of these cells. -/
theorem C1_getFieldTypes_is_column_maximum (field_count : Nat) (delimiter : Char)
    (offset : Int) (in_stream : List (List Char))
    (hrows : RowsCover field_count delimiter offset in_stream) :
    ∃ field_types, _getFieldTypes field_count delimiter offset in_stream = some field_types ∧
      field_types.length = field_count ∧
      ∀ i, i < field_count → ∃ type, field_types[i]? = some type ∧
        (∀ row ∈ in_stream, row ≠ [] → ∃ datum,
          rawCell offset delimiter row i = some datum ∧ rank (_getType datum) ≤ rank type) ∧
        (type = _VT_BOOL ∨ ∃ row ∈ in_stream, row ≠ [] ∧ ∃ datum,
          rawCell offset delimiter row i = some datum ∧ _getType datum = type) := by
  refine ⟨_, getFieldTypes_eq field_count delimiter offset in_stream hrows, by simp, ?_⟩
  intro i hi
  obtain ⟨-, h2, h3⟩ := fold_switch_spec (cellType offset delimiter i) (dataRows in_stream)
    _VT_BOOL
  refine ⟨(dataRows in_stream).foldl
    (fun ty row => _getFieldTypes_switch ty (cellType offset delimiter i row)) _VT_BOOL,
    by simp [hi], ?_, ?_⟩
  · intro row hrow hne
    have hlt : i < (_splitString offset row delimiter).length := by
      have := hrows row hrow hne; omega
    refine ⟨_, rawCell_of_lt hlt, ?_⟩
    rw [← cellType_of_rawCell (rawCell_of_lt hlt)]
    exact h2 row (mem_dataRows.mpr ⟨hrow, hne⟩)
  · rcases h3 with h3 | ⟨row, hrow, hfr⟩
    · left; exact h3
    · right
      obtain ⟨hmem, hne⟩ := mem_dataRows.mp hrow
      have hlt : i < (_splitString offset row delimiter).length := by
        have := hrows row hmem hne; omega
      refine ⟨row, hmem, hne, _, rawCell_of_lt hlt, ?_⟩
      rw [← cellType_of_rawCell (rawCell_of_lt hlt)]
      exact hfr

theorem C1_getFieldTypes_is_column_maximum_witness :
    RowsCover 2 '\t' 0 ["7\tx".toList, [], "40000\t1.5".toList] ∧
    ∃ field_types,
      _getFieldTypes 2 '\t' 0 ["7\tx".toList, [], "40000\t1.5".toList] = some field_types ∧
      field_types.length = 2 ∧
      ∀ i, i < 2 → ∃ type, field_types[i]? = some type ∧
        (∀ row ∈ ["7\tx".toList, [], "40000\t1.5".toList], row ≠ [] → ∃ datum,
          rawCell 0 '\t' row i = some datum ∧ rank (_getType datum) ≤ rank type) ∧
        (type = _VT_BOOL ∨ ∃ row ∈ ["7\tx".toList, [], "40000\t1.5".toList], row ≠ [] ∧
          ∃ datum, rawCell 0 '\t' row i = some datum ∧ _getType datum = type) :=
  have h : RowsCover 2 '\t' 0 ["7\tx".toList, [], "40000\t1.5".toList] := by
    unfold RowsCover; decide
  ⟨h, C1_getFieldTypes_is_column_maximum 2 '\t' 0 _ h⟩

/-- C7 (row order does not matter): for every stream whose data rows have at least
`field_count` tokens and every permutation of its lines, `_getFieldTypes` returns the same list
of column types on both. -/
theorem C7_getFieldTypes_permutation_invariant (field_count : Nat) (delimiter : Char)
    (offset : Int) (in_stream permuted : List (List Char))
    (hperm : List.Perm in_stream permuted)
    (hrows : RowsCover field_count delimiter offset in_stream) :
    ∃ field_types, _getFieldTypes field_count delimiter offset in_stream = some field_types ∧
      _getFieldTypes field_count delimiter offset permuted = some field_types := by
  have hrows2 : RowsCover field_count delimiter offset permuted :=
    fun row hrow hne => hrows row (hperm.mem_iff.mpr hrow) hne
  refine ⟨_, getFieldTypes_eq field_count delimiter offset in_stream hrows, ?_⟩
  rw [getFieldTypes_eq field_count delimiter offset permuted hrows2]
  congr 1
  apply List.map_congr_left
  intro k _
  have hp : List.Perm (dataRows in_stream) (dataRows permuted) := hperm.filter _
  exact (hp.foldl_eq' (fun x _ y _ z => switch_comm z (cellType offset delimiter k x)
    (cellType offset delimiter k y)) _VT_BOOL).symm

theorem C7_getFieldTypes_permutation_invariant_witness :
    List.Perm ["7\tx".toList, "40000\t1.5".toList] ["40000\t1.5".toList, "7\tx".toList] ∧
    RowsCover 2 '\t' 0 ["7\tx".toList, "40000\t1.5".toList] ∧
    ∃ field_types,
      _getFieldTypes 2 '\t' 0 ["7\tx".toList, "40000\t1.5".toList] = some field_types ∧
      _getFieldTypes 2 '\t' 0 ["40000\t1.5".toList, "7\tx".toList] = some field_types :=
  have hp : List.Perm ["7\tx".toList, "40000\t1.5".toList]
      ["40000\t1.5".toList, "7\tx".toList] := List.Perm.swap _ _ _
  have h : RowsCover 2 '\t' 0 ["7\tx".toList, "40000\t1.5".toList] := by
    unfold RowsCover; decide
  ⟨hp, h, C7_getFieldTypes_permutation_invariant 2 '\t' 0 _ _ hp h⟩

theorem rank_le_four (t : VT) : rank t ≤ 4 := by
  cases t <;> decide

theorem rawCell_nil {offset : Int} {delimiter : Char} {i : Nat} {datum : List Char}
    (h : rawCell offset delimiter [] i = some datum) : datum = [] := by
  rw [rawCell, splitString_nil] at h
  cases i with
  | zero => simpa using h.symm
  | succ n => simp at h

theorem cellType_of_boolCells {offset : Int} {delimiter : Char} {i : Nat}
    {lines : List (List Char)} (h : BoolCells offset delimiter i lines) {row : List Char}
    (hrow : row ∈ dataRows lines) : cellType offset delimiter i row = _VT_BOOL := by
  obtain ⟨hmem, hne⟩ := mem_dataRows.mp hrow
  rcases h row hmem hne with h0 | h1 | h2
  · rw [cellType_of_rawCell h0]; decide
  · rw [cellType_of_rawCell h1]; decide
  · rw [cellType_of_rawCell h2]; decide

theorem dataRows_insert (pre post : List (List Char)) (row : List Char) {r : List Char}
    (h : r ∈ dataRows (pre ++ row :: post)) : r = row ∨ r ∈ dataRows (pre ++ post) := by
  rw [mem_dataRows] at h
  obtain ⟨hmem, hne⟩ := h
  rcases List.mem_append.mp hmem with hp | hp
  · right; exact mem_dataRows.mpr ⟨List.mem_append.mpr (Or.inl hp), hne⟩
  · rcases List.mem_cons.mp hp with rfl | hq
    · left; rfl
    · right; exact mem_dataRows.mpr ⟨List.mem_append.mpr (Or.inr hq), hne⟩

/-- C8 (Bool columns, one "2", absorbing String): for data rows with at least `field_count`
tokens and a column `i`, (1) if every cell of the column is "0", "1" or empty, the column
resolves to Bool; (2) inserting at any position one row whose cell is "2" makes it resolve to
Int; (3) inserting at any position, among any rows, one row whose cell `_getType` classifies
as String makes the column resolve to String. -/
theorem C8_bool_column_two_and_absorbing_string (field_count : Nat) (delimiter : Char)
    (offset : Int) (pre post : List (List Char)) (row : List Char) (i : Nat)
    (hi : i < field_count)
    (hrows : RowsCover field_count delimiter offset (pre ++ row :: post)) :
    (BoolCells offset delimiter i (pre ++ post) →
      resolvedType field_count delimiter offset (pre ++ post) i = some _VT_BOOL) ∧
    (BoolCells offset delimiter i (pre ++ post) →
      rawCell offset delimiter row i = some ['2'] →
      resolvedType field_count delimiter offset (pre ++ row :: post) i = some _VT_INT) ∧
    (∀ datum, rawCell offset delimiter row i = some datum → _getType datum = _VT_STRING →
      resolvedType field_count delimiter offset (pre ++ row :: post) i = some _VT_STRING) := by
  have hrows2 : RowsCover field_count delimiter offset (pre ++ post) := by
    intro r hr hne
    apply hrows r _ hne
    rcases List.mem_append.mp hr with h | h
    · exact List.mem_append.mpr (Or.inl h)
    · exact List.mem_append.mpr (Or.inr (List.mem_cons_of_mem _ h))
  have hmemrow : row ∈ pre ++ row :: post := by simp
  refine ⟨?_, ?_, ?_⟩
  · intro hcells
    rw [resolvedType_eq _ _ _ _ hrows2 i hi]
    obtain ⟨-, -, h3⟩ := fold_switch_spec (cellType offset delimiter i) (dataRows (pre ++ post))
      _VT_BOOL
    rcases h3 with h3 | ⟨r, hr, hfr⟩
    · rw [h3]
    · rw [← hfr, cellType_of_boolCells hcells hr]
  · intro hcells h2
    rw [resolvedType_eq _ _ _ _ hrows i hi]
    obtain ⟨-, hub, h3⟩ := fold_switch_spec (cellType offset delimiter i)
      (dataRows (pre ++ row :: post)) _VT_BOOL
    have hne : row ≠ [] := by
      intro e
      rw [e] at h2
      have := rawCell_nil h2
      simp at this
    have hty : cellType offset delimiter i row = _VT_INT := by
      rw [cellType_of_rawCell h2]; decide
    have hge := hub row (mem_dataRows.mpr ⟨hmemrow, hne⟩)
    rw [hty] at hge
    rcases h3 with h3 | ⟨r, hr, hfr⟩
    · rw [h3] at hge; exact absurd hge (by decide)
    · rcases dataRows_insert pre post row hr with rfl | hr'
      · rw [← hfr, hty]
      · rw [← hfr, cellType_of_boolCells hcells hr'] at hge
        exact absurd hge (by decide)
  · intro datum hcell hstr
    rw [resolvedType_eq _ _ _ _ hrows i hi]
    obtain ⟨-, hub, -⟩ := fold_switch_spec (cellType offset delimiter i)
      (dataRows (pre ++ row :: post)) _VT_BOOL
    have hne : row ≠ [] := by
      intro e
      rw [e] at hcell
      have := rawCell_nil hcell
      rw [this] at hstr
      exact absurd hstr (by decide)
    have hge := hub row (mem_dataRows.mpr ⟨hmemrow, hne⟩)
    rw [cellType_of_rawCell hcell, hstr] at hge
    have hle := rank_le_four ((dataRows (pre ++ row :: post)).foldl
      (fun ty row => _getFieldTypes_switch ty (cellType offset delimiter i row)) _VT_BOOL)
    congr 1
    apply rank_injective
    have h4 : rank _VT_STRING = 4 := rfl
    omega

theorem C8_bool_column_two_and_absorbing_string_witness :
    resolvedType 2 '\t' 0 ["1\t0".toList, "\t1".toList] 0 = some _VT_BOOL ∧
    resolvedType 2 '\t' 0 ["1\t0".toList, "2\tx".toList, "\t1".toList] 0 = some _VT_INT ∧
    resolvedType 2 '\t' 0 ["1\t0".toList, "2\tx".toList, "\t1".toList] 1 = some _VT_STRING :=
  have hrows : RowsCover 2 '\t' 0 (["1\t0".toList] ++ "2\tx".toList :: ["\t1".toList]) := by
    unfold RowsCover; decide
  have hcells : BoolCells 0 '\t' 0 (["1\t0".toList] ++ ["\t1".toList]) := by
    unfold BoolCells; decide
  ⟨(C8_bool_column_two_and_absorbing_string 2 '\t' 0 ["1\t0".toList] ["\t1".toList]
      "2\tx".toList 0 (by decide) hrows).1 hcells,
    (C8_bool_column_two_and_absorbing_string 2 '\t' 0 ["1\t0".toList] ["\t1".toList]
      "2\tx".toList 0 (by decide) hrows).2.1 hcells (by decide),
    (C8_bool_column_two_and_absorbing_string 2 '\t' 0 ["1\t0".toList] ["\t1".toList]
      "2\tx".toList 1 (by decide) hrows).2.2 "x".toList (by decide) (by decide)⟩

/-! ## Retrieval by column number -/

theorem sampleTable_constructed :
    TextFileLoad.ctor exactModel sampleFile '\t' true = Except.ok sampleTable := by
  rfl

theorem getField_loop_const {α : Type} (z : α) (n i : Nat) (col_data : List α) :
    getField_loop (fun _ => some z) n i col_data = some (col_data ++ List.replicate n z) := by
  induction n generalizing i col_data with
  | zero => simp [getField_loop]
  | succ n ih =>
    simp only [getField_loop, ih, List.replicate_succ]
    simp

theorem getField_loop_eq {α : Type} (get : Nat → Option α) (g : Nat → α) (n i : Nat)
    (col_data : List α) (h : ∀ j, i ≤ j → j < i + n → get j = some (g j)) :
    getField_loop get n i col_data = some (col_data ++ (List.range' i n).map g) := by
  induction n generalizing i col_data with
  | zero => simp [getField_loop]
  | succ n ih =>
    have h0 : get i = some (g i) := h i (by omega) (by omega)
    simp only [getField_loop, h0]
    rw [ih (i + 1) _ (fun j h1 h2 => h j (by omega) (by omega))]
    simp [List.range'_succ]

/-- C9 (String columns read as numbers): for every object and every column number whose
field type is String, `getField` into a vector of bool, int, long or double returns exactly
`row_count` elements, all equal to false, 0, 0 and 0.0, whatever the stored texts and whatever
the vector held before. -/
theorem C9_string_column_reads_as_zero {F : FloatModel} (t : TextFileLoad F) (col_num : Int)
    (hstring : vector_at t.field_types (col_num - 1) = some _VT_STRING)
    (bools : List Bool) (ints longs : List Int) (doubles : List F.D) :
    getField_bool t col_num bools = some (List.replicate t.row_count false) ∧
    getField_int t col_num ints = some (List.replicate t.row_count 0) ∧
    getField_long t col_num longs = some (List.replicate t.row_count 0) ∧
    getField_double t col_num doubles = some (List.replicate t.row_count F.zero) := by
  refine ⟨?_, ?_, ?_, ?_⟩
  · simp [getField_bool, hstring, getField_loop_const, clear]
  · simp [getField_int, hstring, getField_loop_const, clear]
  · simp [getField_long, hstring, getField_loop_const, clear]
  · simp [getField_double, hstring, getField_loop_const, clear]

theorem C9_string_column_reads_as_zero_witness :
    vector_at sampleTable.field_types (3 - 1) = some _VT_STRING ∧
    data_at sampleTable 1 (3 - 1)
      = some { variant.uninit exactModel with vt_type := _VT_STRING, vt_string := "5".toList } ∧
    getField_bool sampleTable 3 [true] = some [false, false] ∧
    getField_int sampleTable 3 [7, 8, 9] = some [0, 0] ∧
    getField_long sampleTable 3 [] = some [0, 0] ∧
    getField_double sampleTable 3 [(1 : ℚ)] = some [(0 : ℚ), 0] :=
  ⟨rfl, rfl, C9_string_column_reads_as_zero sampleTable 3 rfl [true] [7, 8, 9] [] [(1 : ℚ)]⟩

theorem vector_at_some {α : Type} (xs : List α) (c : Int) (hc0 : 0 ≤ c)
    (hc1 : c < xs.length) : ∃ x, vector_at xs c = some x := by
  have hlt : c.toNat < xs.length := by omega
  exact ⟨xs[c.toNat], by simp [vector_at, not_lt.mpr hc0, List.getElem?_eq_getElem hlt]⟩

theorem data_at_some {F : FloatModel} (t : TextFileLoad F) (hwf : WellFormed t) (c : Int)
    (hc0 : 0 ≤ c) (hc1 : c < t.field_count) (i : Nat) (hi : i < t.row_count) :
    ∃ v, data_at t i c = some v := by
  obtain ⟨-, hlen, hrow⟩ := hwf
  have hlt : i < t.data.length := by omega
  have hmem : t.data[i] ∈ t.data := List.getElem_mem hlt
  have hc : c < (t.data[i]).length := by rw [hrow _ hmem]; exact hc1
  obtain ⟨v, hv⟩ := vector_at_some (t.data[i]) c hc0 hc
  exact ⟨v, by simp [data_at, List.getElem?_eq_getElem hlt, hv]⟩

/-- The loop of `getField` over a column that exists in every row: one element per row, the
projection of the stored value of that row. -/
theorem getField_loop_column {F : FloatModel} {α : Type} (t : TextFileLoad F)
    (hwf : WellFormed t) (c : Int) (hc0 : 0 ≤ c) (hc1 : c < t.field_count)
    (proj : variant F → α) :
    ∃ res, getField_loop (fun i => (data_at t i c).map proj) t.row_count 0 [] = some res ∧
      res.length = t.row_count ∧
      ∀ i, i < t.row_count → ∃ v, data_at t i c = some v ∧ res[i]? = some (proj v) := by
  have hget : ∀ j, 0 ≤ j → j < 0 + t.row_count →
      (fun i => (data_at t i c).map proj) j
        = some ((fun i => match data_at t i c with
            | some v => proj v
            | none => proj (variant.uninit F)) j) := by
    intro j _ hj
    obtain ⟨v, hv⟩ := data_at_some t hwf c hc0 hc1 j (by omega)
    simp [hv]
  refine ⟨_, getField_loop_eq _ _ t.row_count 0 [] hget, by simp, ?_⟩
  intro i hi
  obtain ⟨v, hv⟩ := data_at_some t hwf c hc0 hc1 i hi
  refine ⟨v, hv, ?_⟩
  simp [List.getElem?_range', hi, hv]

/-- The loop of `getField` that pushes a constant: one element per row. -/
theorem getField_loop_const_column {F : FloatModel} {α : Type} (t : TextFileLoad F)
    (hwf : WellFormed t) (c : Int) (hc0 : 0 ≤ c) (hc1 : c < t.field_count) (z : α) :
    ∃ res, getField_loop (fun _ => some z) t.row_count 0 [] = some res ∧
      res.length = t.row_count ∧
      ∀ i, i < t.row_count → ∃ v, data_at t i c = some v ∧ res[i]? = some z := by
  refine ⟨_, getField_loop_const z t.row_count 0 [], by simp, ?_⟩
  intro i hi
  obtain ⟨v, hv⟩ := data_at_some t hwf c hc0 hc1 i hi
  exact ⟨v, hv, by simp [List.getElem?_replicate, hi]⟩

/-- C10 (retrieval by column number): for every object with `field_count` types and
`field_count` cells in each of its `row_count` rows, and every column number `k` with
1 ≤ k ≤ field_count, each of the five `getField` overloads returns, whatever the vector held
before the call, exactly `row_count` elements, the element of index `i` being the conversion
of the stored value `data[i][k-1]` for the type of the column. -/
theorem C10_getField_yields_column_in_row_order {F : FloatModel} (t : TextFileLoad F)
    (hwf : WellFormed t) (k : Int) (hk1 : 1 ≤ k) (hk2 : k ≤ t.field_count) :
    ∃ type, vector_at t.field_types (k - 1) = some type ∧
      (∀ out, ∃ res, getField_bool t k out = some res ∧ res.length = t.row_count ∧
        ∀ i, i < t.row_count → ∃ v, data_at t i (k - 1) = some v ∧
          res[i]? = some (convert_bool F type v)) ∧
      (∀ out, ∃ res, getField_int t k out = some res ∧ res.length = t.row_count ∧
        ∀ i, i < t.row_count → ∃ v, data_at t i (k - 1) = some v ∧
          res[i]? = some (convert_int F type v)) ∧
      (∀ out, ∃ res, getField_long t k out = some res ∧ res.length = t.row_count ∧
        ∀ i, i < t.row_count → ∃ v, data_at t i (k - 1) = some v ∧
          res[i]? = some (convert_long F type v)) ∧
      (∀ out, ∃ res, getField_double t k out = some res ∧ res.length = t.row_count ∧
        ∀ i, i < t.row_count → ∃ v, data_at t i (k - 1) = some v ∧
          res[i]? = some (convert_double F type v)) ∧
      (∀ out, ∃ res, getField_string t k out = some res ∧ res.length = t.row_count ∧
        ∀ i, i < t.row_count → ∃ v, data_at t i (k - 1) = some v ∧
          res[i]? = some (convert_string F type v)) := by
  have hc0 : 0 ≤ k - 1 := by omega
  have hc1 : k - 1 < t.field_count := by omega
  have hc1' : k - 1 < t.field_types.length := by rw [hwf.1]; exact hc1
  obtain ⟨type, htype⟩ := vector_at_some t.field_types (k - 1) hc0 hc1'
  refine ⟨type, htype, ?_, ?_, ?_, ?_, ?_⟩
  · intro out
    cases type <;> simp only [getField_bool, htype, clear, convert_bool]
    · exact getField_loop_column t hwf (k - 1) hc0 hc1 _
    · exact getField_loop_column t hwf (k - 1) hc0 hc1 _
    · exact getField_loop_column t hwf (k - 1) hc0 hc1 _
    · exact getField_loop_column t hwf (k - 1) hc0 hc1 _
    · exact getField_loop_const_column t hwf (k - 1) hc0 hc1 _
  · intro out
    cases type <;> simp only [getField_int, htype, clear, convert_int]
    · exact getField_loop_column t hwf (k - 1) hc0 hc1 _
    · exact getField_loop_column t hwf (k - 1) hc0 hc1 _
    · exact getField_loop_column t hwf (k - 1) hc0 hc1 _
    · exact getField_loop_column t hwf (k - 1) hc0 hc1 _
    · exact getField_loop_const_column t hwf (k - 1) hc0 hc1 _
  · intro out
    cases type <;> simp only [getField_long, htype, clear, convert_long]
    · exact getField_loop_column t hwf (k - 1) hc0 hc1 _
    · exact getField_loop_column t hwf (k - 1) hc0 hc1 _
    · exact getField_loop_column t hwf (k - 1) hc0 hc1 _
    · exact getField_loop_column t hwf (k - 1) hc0 hc1 _
    · exact getField_loop_const_column t hwf (k - 1) hc0 hc1 _
  · intro out
    cases type <;> simp only [getField_double, htype, clear, convert_double]
    · exact getField_loop_column t hwf (k - 1) hc0 hc1 _
    · exact getField_loop_column t hwf (k - 1) hc0 hc1 _
    · exact getField_loop_column t hwf (k - 1) hc0 hc1 _
    · exact getField_loop_column t hwf (k - 1) hc0 hc1 _
    · exact getField_loop_const_column t hwf (k - 1) hc0 hc1 _
  · intro out
    cases type <;> simp only [getField_string, htype, clear, convert_string]
    · exact getField_loop_column t hwf (k - 1) hc0 hc1 _
    · exact getField_loop_column t hwf (k - 1) hc0 hc1 _
    · exact getField_loop_column t hwf (k - 1) hc0 hc1 _
    · exact getField_loop_column t hwf (k - 1) hc0 hc1 _
    · exact getField_loop_column t hwf (k - 1) hc0 hc1 _

theorem sampleTable_wellFormed : WellFormed sampleTable := by
  refine ⟨rfl, rfl, ?_⟩
  intro row hrow
  simp only [sampleTable, List.mem_cons, List.mem_singleton, List.not_mem_nil, or_false] at hrow
  rcases hrow with rfl | rfl <;> rfl

theorem C10_getField_yields_column_in_row_order_witness :
    WellFormed sampleTable ∧ (1 : Int) ≤ 2 ∧ (2 : Int) ≤ sampleTable.field_count ∧
    ∃ type, vector_at sampleTable.field_types (2 - 1) = some type ∧
      (∀ out, ∃ res, getField_bool sampleTable 2 out = some res ∧
        res.length = sampleTable.row_count ∧
        ∀ i, i < sampleTable.row_count → ∃ v, data_at sampleTable i (2 - 1) = some v ∧
          res[i]? = some (convert_bool exactModel type v)) ∧
      (∀ out, ∃ res, getField_int sampleTable 2 out = some res ∧
        res.length = sampleTable.row_count ∧
        ∀ i, i < sampleTable.row_count → ∃ v, data_at sampleTable i (2 - 1) = some v ∧
          res[i]? = some (convert_int exactModel type v)) ∧
      (∀ out, ∃ res, getField_long sampleTable 2 out = some res ∧
        res.length = sampleTable.row_count ∧
        ∀ i, i < sampleTable.row_count → ∃ v, data_at sampleTable i (2 - 1) = some v ∧
          res[i]? = some (convert_long exactModel type v)) ∧
      (∀ out, ∃ res, getField_double sampleTable 2 out = some res ∧
        res.length = sampleTable.row_count ∧
        ∀ i, i < sampleTable.row_count → ∃ v, data_at sampleTable i (2 - 1) = some v ∧
          res[i]? = some (convert_double exactModel type v)) ∧
      (∀ out, ∃ res, getField_string sampleTable 2 out = some res ∧
        res.length = sampleTable.row_count ∧
        ∀ i, i < sampleTable.row_count → ∃ v, data_at sampleTable i (2 - 1) = some v ∧
          res[i]? = some (convert_string exactModel type v)) :=
  ⟨sampleTable_wellFormed, by decide, by decide,
    C10_getField_yields_column_in_row_order sampleTable sampleTable_wellFormed 2 (by decide)
      (by decide)⟩

/-! ## The storage pass and the constructor -/

theorem splitString_length_pos (offset : Int) (str : List Char) (delimit : Char) :
    1 ≤ (_splitString offset str delimit).length := by
  simp [_splitString]

theorem dataRows_append_nil_cons (pre post : List (List Char)) :
    dataRows (pre ++ [] :: post) = dataRows (pre ++ post) := by
  simp [dataRows, List.filter_append, List.filter_cons]

theorem dataRows_length_le (in_stream : List (List Char)) :
    (dataRows in_stream).length ≤ in_stream.length := by
  unfold dataRows
  exact List.length_filter_le _ _

/-- The column loop of `_getData` returns one value per cell when the types reach that far. -/
theorem getData_cols_of_le (F : FloatModel) (field_types : List VT) (cells : List (List Char))
    (col_num : Nat) (row_data : List (variant F))
    (h : col_num + cells.length ≤ field_types.length) :
    ∃ row, _getData_cols F field_types cells col_num row_data = some row ∧
      row.length = row_data.length + cells.length := by
  induction cells generalizing col_num row_data with
  | nil => exact ⟨row_data, by simp [_getData_cols]⟩
  | cons cell rest ih =>
    simp only [List.length_cons] at h
    have hlt : col_num < field_types.length := by omega
    obtain ⟨row, hrow, hlen⟩ := ih (col_num + 1)
      (row_data ++ [_getData_switch F (field_types[col_num]) cell]) (by omega)
    refine ⟨row, ?_, ?_⟩
    · simp only [_getData_cols, List.getElem?_eq_getElem hlt]
      exact hrow
    · rw [hlen]; simp; omega

/-- When the column loop of `_getData` returns, it has stored one value per cell and the types
reach as far as the cells. -/
theorem getData_cols_some (F : FloatModel) (field_types : List VT) (cells : List (List Char))
    (col_num : Nat) (row_data row : List (variant F))
    (h : _getData_cols F field_types cells col_num row_data = some row) :
    row.length = row_data.length + cells.length ∧
      (cells ≠ [] → col_num + cells.length ≤ field_types.length) := by
  induction cells generalizing col_num row_data with
  | nil =>
    simp only [_getData_cols, Option.some.injEq] at h
    simp [h]
  | cons cell rest ih =>
    simp only [_getData_cols] at h
    cases hty : field_types[col_num]? with
    | none => simp [hty] at h
    | some ty =>
      simp only [hty] at h
      obtain ⟨hlen, hle⟩ := ih _ _ h
      have hlt : col_num < field_types.length := by
        by_contra hcon
        rw [List.getElem?_eq_none (by omega)] at hty
        exact absurd hty (by simp)
      refine ⟨by rw [hlen]; simp; omega, fun _ => ?_⟩
      by_cases hr : rest = []
      · subst hr; simp; omega
      · have := hle hr
        simp only [List.length_cons]; omega

/-- What the row loop of `_getData` returns when it returns: one row per data row of the
stream, appended in order, each with as many values as its line has tokens. -/
theorem getData_rows_some (F : FloatModel) (field_types : List VT) (delimiter : Char)
    (offset : Int) (in_stream : List (List Char)) (data data2 : List (List (variant F)))
    (row_count row_count2 : Nat)
    (h : _getData_rows F field_types delimiter offset in_stream data row_count
      = some (data2, row_count2)) :
    row_count2 = row_count + (dataRows in_stream).length ∧
      (∃ added, data2 = data ++ added ∧ added.length = (dataRows in_stream).length ∧
        ∀ row ∈ added, ∃ line ∈ in_stream, line ≠ [] ∧
          row.length = (_splitString offset line delimiter).length) ∧
      (∀ line ∈ in_stream, line ≠ [] →
        (_splitString offset line delimiter).length ≤ field_types.length) := by
  induction in_stream generalizing data row_count with
  | nil =>
    simp only [_getData_rows, Option.some.injEq, Prod.mk.injEq] at h
    refine ⟨by simp [dataRows, h.2], ⟨[], by simp [h.1], by simp [dataRows], by simp⟩, by simp⟩
  | cons full_row rest ih =>
    by_cases hemp : full_row.length = 0
    · have hnil : full_row = [] := List.length_eq_zero.mp hemp
      subst hnil
      simp only [_getData_rows, List.length_nil, if_true] at h
      obtain ⟨h1, ⟨added, h2, h3, h4⟩, h5⟩ := ih data row_count h
      have hd : dataRows ([] :: rest) = dataRows rest := by simp [dataRows]
      refine ⟨by rw [hd]; exact h1, ⟨added, h2, by rw [hd]; exact h3, ?_⟩, ?_⟩
      · intro row hrow
        obtain ⟨line, hl, hne, hlen⟩ := h4 row hrow
        exact ⟨line, List.mem_cons_of_mem _ hl, hne, hlen⟩
      · intro line hl hne
        rcases List.mem_cons.mp hl with rfl | hl'
        · exact absurd rfl hne
        · exact h5 line hl' hne
    · have hne : full_row ≠ [] := fun e => hemp (by simp [e])
      simp only [_getData_rows, hemp, if_false] at h
      cases hcols : _getData_cols F field_types (_splitString offset full_row delimiter) 0 []
        with
      | none => simp [hcols] at h
      | some row_data =>
        simp only [hcols] at h
        obtain ⟨h1, ⟨added, h2, h3, h4⟩, h5⟩ := ih _ _ h
        obtain ⟨hlen, hle⟩ := getData_cols_some F field_types _ 0 [] row_data hcols
        have hpos := splitString_length_pos offset full_row delimiter
        have hd : dataRows (full_row :: rest) = full_row :: dataRows rest := by
          simp [dataRows, hne]
        refine ⟨by rw [hd, h1]; simp; omega, ⟨row_data :: added, by simp [h2],
          by rw [hd]; simp [h3], ?_⟩, ?_⟩
        · intro row hrow
          rcases List.mem_cons.mp hrow with rfl | hrow'
          · exact ⟨full_row, by simp, hne, by simpa using hlen⟩
          · obtain ⟨line, hl, hne', hlen'⟩ := h4 row hrow'
            exact ⟨line, List.mem_cons_of_mem _ hl, hne', hlen'⟩
        · intro line hl hne'
          rcases List.mem_cons.mp hl with rfl | hl'
          · have := hle (by intro e; rw [e] at hpos; simp at hpos)
            omega
          · exact h5 line hl' hne'

/-- The row loop of `_getData` returns when no data row has more tokens than there are
types. -/
theorem getData_rows_of_le (F : FloatModel) (field_types : List VT) (delimiter : Char)
    (offset : Int) (in_stream : List (List Char)) (data : List (List (variant F)))
    (row_count : Nat)
    (h : ∀ line ∈ in_stream, line ≠ [] →
      (_splitString offset line delimiter).length ≤ field_types.length) :
    ∃ r, _getData_rows F field_types delimiter offset in_stream data row_count = some r := by
  induction in_stream generalizing data row_count with
  | nil => exact ⟨_, rfl⟩
  | cons full_row rest ih =>
    have hrest : ∀ line ∈ rest, line ≠ [] →
        (_splitString offset line delimiter).length ≤ field_types.length :=
      fun line hl hne => h line (List.mem_cons_of_mem _ hl) hne
    by_cases hemp : full_row.length = 0
    · simp only [_getData_rows, hemp, if_true]
      exact ih data row_count hrest
    · have hne : full_row ≠ [] := fun e => hemp (by simp [e])
      obtain ⟨row, hrow, -⟩ := getData_cols_of_le F field_types
        (_splitString offset full_row delimiter) 0 [] (by simpa using h full_row (by simp) hne)
      simp only [_getData_rows, hemp, if_false, hrow]
      exact ih _ _ hrest

theorem getData_rows_skip_empty (F : FloatModel) (field_types : List VT) (delimiter : Char)
    (offset : Int) (pre post : List (List Char)) (data : List (List (variant F)))
    (row_count : Nat) :
    _getData_rows F field_types delimiter offset (pre ++ [] :: post) data row_count
      = _getData_rows F field_types delimiter offset (pre ++ post) data row_count := by
  induction pre generalizing data row_count with
  | nil => simp [_getData_rows]
  | cons full_row rest ih =>
    by_cases hemp : full_row.length = 0
    · simp only [List.cons_append, _getData_rows, hemp, if_true]
      exact ih data row_count
    · simp only [List.cons_append, _getData_rows, hemp, if_false]
      cases _getData_cols F field_types (_splitString offset full_row delimiter) 0 [] with
      | none => rfl
      | some row_data => exact ih _ _

theorem getFieldTypes_skip_empty (field_count : Nat) (delimiter : Char) (offset : Int)
    (pre post : List (List Char)) :
    _getFieldTypes field_count delimiter offset (pre ++ [] :: post)
      = _getFieldTypes field_count delimiter offset (pre ++ post) := by
  simp only [_getFieldTypes, getFieldTypes_read_eq, dataRows_append_nil_cons]

theorem openFile_cons (first : List Char) (rest : List (List Char)) :
    _openFile (first :: rest) = if find first '\r' 0 = -1 then 0 else 1 := by
  simp [_openFile, getline]

theorem getData_skip_empty (F : FloatModel) (field_types : List VT) (delimiter : Char)
    (offset : Int) (pre post : List (List Char)) :
    _getData F field_types delimiter offset false (pre ++ [] :: post)
      = _getData F field_types delimiter offset false (pre ++ post) := by
  simp only [_getData, Bool.false_eq_true, if_false]
  exact getData_rows_skip_empty F field_types delimiter offset pre post [] 0

theorem getData_skip_empty_after_header (F : FloatModel) (field_types : List VT)
    (delimiter : Char) (offset : Int) (first : List Char) (pre post : List (List Char)) :
    _getData F field_types delimiter offset true (first :: (pre ++ [] :: post))
      = _getData F field_types delimiter offset true (first :: (pre ++ post)) := by
  simp only [_getData, getline, if_true]
  exact getData_rows_skip_empty F field_types delimiter offset pre post [] 0

theorem ctor_skip_empty (F : FloatModel) (delimiter : Char) (header_row : Bool)
    (first : List Char) (pre post : List (List Char)) :
    TextFileLoad.ctor F (first :: (pre ++ [] :: post)) delimiter header_row
      = TextFileLoad.ctor F (first :: (pre ++ post)) delimiter header_row := by
  have e1 := fun fc off => getFieldTypes_skip_empty fc delimiter off (first :: pre) post
  have e2 := fun ft off => getData_skip_empty F ft delimiter off (first :: pre) post
  simp only [List.cons_append] at e1 e2
  by_cases hfirst : first.length = 0
  · simp [TextFileLoad.ctor, _getFieldNames, getline, hfirst]
  · cases header_row
    · simp only [TextFileLoad.ctor, _getFieldNames, getline, hfirst, openFile_cons, if_false,
        Bool.not_false, if_true, e1, e2]
    · simp only [TextFileLoad.ctor, _getFieldNames, getline, hfirst, openFile_cons, if_false,
        Bool.not_true, Bool.false_eq_true, getFieldTypes_skip_empty,
        getData_skip_empty_after_header]

/-- The steps that a successful construction went through. -/
theorem ctor_ok {F : FloatModel} {file : List (List Char)} {delimit : Char} {headers : Bool}
    {t : TextFileLoad F} (h : TextFileLoad.ctor F file delimit headers = Except.ok t) :
    (getline file).1 ≠ [] ∧
    t.offset = _openFile file ∧
    t.field_count = (_splitString (_openFile file) (getline file).1 delimit).length ∧
    _getFieldTypes t.field_count delimit (_openFile file) (dataLines headers file)
      = some t.field_types ∧
    _getData F t.field_types delimit (_openFile file) headers file
      = some (t.data, t.row_count) := by
  unfold TextFileLoad.ctor at h
  by_cases hfirst : (getline file).1.length = 0
  · simp [_getFieldNames, hfirst] at h
  · have hne : (getline file).1 ≠ [] := fun e => hfirst (by simp [e])
    cases headers
    · simp only [_getFieldNames, hfirst, if_false, Bool.not_false, if_true] at h
      split at h
      · exact absurd h (by simp)
      · rename_i field_types hty
        split at h
        · exact absurd h (by simp)
        · rename_i data row_count hdata
          simp only [Except.ok.injEq] at h
          subst h
          exact ⟨hne, rfl, rfl, by simpa [dataLines] using hty, hdata⟩
    · simp only [_getFieldNames, hfirst, if_false, Bool.not_true, Bool.false_eq_true] at h
      split at h
      · exact absurd h (by simp)
      · rename_i field_types hty
        split at h
        · exact absurd h (by simp)
        · rename_i data row_count hdata
          simp only [Except.ok.injEq] at h
          subst h
          exact ⟨hne, rfl, rfl, by simpa [dataLines] using hty, hdata⟩

theorem getFieldTypes_rows_some (delimiter : Char) (offset : Int) (i : Nat)
    (data : List (List Char)) (type r : VT)
    (h : _getFieldTypes_rows delimiter offset i data type = some r) :
    ∀ row ∈ data, i < (_splitString offset row delimiter).length := by
  induction data generalizing type with
  | nil => simp
  | cons row rest ih =>
    simp only [_getFieldTypes_rows] at h
    cases hcell : (_splitString offset row delimiter)[i]? with
    | none => simp [hcell] at h
    | some datum =>
      simp only [hcell] at h
      have hlt : i < (_splitString offset row delimiter).length := by
        by_contra hcon
        rw [List.getElem?_eq_none (by omega)] at hcell
        exact absurd hcell (by simp)
      intro r' hr'
      rcases List.mem_cons.mp hr' with rfl | hmem
      · exact hlt
      · exact ih _ h r' hmem

theorem getFieldTypes_cols_some (delimiter : Char) (offset : Int) (data : List (List Char))
    (n i : Nat) (field_types types : List VT)
    (h : _getFieldTypes_cols delimiter offset data n i field_types = some types) :
    types.length = field_types.length + n ∧
      ∀ k, i ≤ k → k < i + n → ∀ row ∈ data, k < (_splitString offset row delimiter).length := by
  induction n generalizing i field_types with
  | zero =>
    simp only [_getFieldTypes_cols, Option.some.injEq] at h
    subst h
    exact ⟨by simp, fun k h1 h2 => by omega⟩
  | succ n ih =>
    simp only [_getFieldTypes_cols] at h
    cases hrows : _getFieldTypes_rows delimiter offset i data _VT_BOOL with
    | none => simp [hrows] at h
    | some type =>
      simp only [hrows] at h
      obtain ⟨hlen, hk⟩ := ih _ _ h
      refine ⟨by rw [hlen]; simp; omega, ?_⟩
      intro k h1 h2 row hrow
      by_cases hki : k = i
      · subst hki
        exact getFieldTypes_rows_some delimiter offset k data _VT_BOOL type hrows row hrow
      · exact hk k (by omega) (by omega) row hrow

/-- When `_getFieldTypes` returns, it returns one type per field and every data row has at
least `field_count` tokens. -/
theorem getFieldTypes_some (field_count : Nat) (delimiter : Char) (offset : Int)
    (in_stream : List (List Char)) (types : List VT)
    (h : _getFieldTypes field_count delimiter offset in_stream = some types) :
    types.length = field_count ∧ RowsCover field_count delimiter offset in_stream := by
  simp only [_getFieldTypes, getFieldTypes_read_eq, List.nil_append] at h
  obtain ⟨hlen, hk⟩ := getFieldTypes_cols_some delimiter offset _ _ _ _ _ h
  refine ⟨by simpa using hlen, ?_⟩
  intro row hrow hne
  cases field_count with
  | zero => omega
  | succ m =>
    have := hk m (by omega) (by omega) row (mem_dataRows.mpr ⟨hrow, hne⟩)
    omega

theorem getData_eq_rows (F : FloatModel) (field_types : List VT) (delimiter : Char)
    (offset : Int) (header_row : Bool) (file : List (List Char)) :
    _getData F field_types delimiter offset header_row file
      = _getData_rows F field_types delimiter offset (dataLines header_row file) [] 0 := by
  rfl

/-- Every object that the constructor returns is well formed: its rows have `field_count`
values because every data line had exactly `field_count` tokens; the number of rows is the
number of non-empty data lines. -/
theorem ctor_wellFormed {F : FloatModel} {file : List (List Char)} {delimit : Char}
    {headers : Bool} {t : TextFileLoad F}
    (h : TextFileLoad.ctor F file delimit headers = Except.ok t) :
    WellFormed t ∧ t.row_count = (dataRows (dataLines headers file)).length ∧
      ∀ line ∈ dataLines headers file, line ≠ [] →
        (_splitString (_openFile file) line delimit).length = t.field_count := by
  obtain ⟨-, -, -, hty, hdata⟩ := ctor_ok h
  obtain ⟨hlen, hcover⟩ := getFieldTypes_some _ _ _ _ _ hty
  rw [getData_eq_rows] at hdata
  obtain ⟨hrc, ⟨added, hadd, haddlen, hrowlen⟩, hle⟩ := getData_rows_some F _ _ _ _ _ _ _ _ hdata
  have hexact : ∀ line ∈ dataLines headers file, line ≠ [] →
      (_splitString (_openFile file) line delimit).length = t.field_count := by
    intro line hl hne
    have h1 := hle line hl hne
    have h2 := hcover line hl hne
    omega
  refine ⟨⟨hlen, ?_, ?_⟩, by omega, hexact⟩
  · rw [hadd]; simp; omega
  · intro row hrow
    rw [hadd] at hrow
    simp only [List.nil_append] at hrow
    obtain ⟨line, hl, hne, hrl⟩ := hrowlen row hrow
    rw [hrl]
    exact hexact line hl hne

/-- C6 (empty data lines), as the code has it: a line of length zero, as `getline` returns
it, inserted at any position of the lines read by the two passes changes neither the result
of `_getFieldTypes` nor the result of `_getData` (with or without a header line before them);
inserted at any position after the first line of the file it leaves the constructed object,
with its row count, column types and stored values, the same; and the row count of a
constructed object is the number of data lines of non-zero length. -/
theorem C6_empty_lines_are_skipped (F : FloatModel) (field_count : Nat)
    (field_types : List VT) (delimiter : Char) (offset : Int) (header_row : Bool)
    (first : List Char) (pre post : List (List Char)) :
    _getFieldTypes field_count delimiter offset (pre ++ [] :: post)
      = _getFieldTypes field_count delimiter offset (pre ++ post) ∧
    _getData F field_types delimiter offset false (pre ++ [] :: post)
      = _getData F field_types delimiter offset false (pre ++ post) ∧
    _getData F field_types delimiter offset true (first :: (pre ++ [] :: post))
      = _getData F field_types delimiter offset true (first :: (pre ++ post)) ∧
    TextFileLoad.ctor F (first :: (pre ++ [] :: post)) delimiter header_row
      = TextFileLoad.ctor F (first :: (pre ++ post)) delimiter header_row ∧
    (∀ t, TextFileLoad.ctor F (first :: (pre ++ [] :: post)) delimiter header_row = Except.ok t →
      t.row_count = (dataRows (dataLines header_row (first :: (pre ++ post)))).length ∧
        t.data.length = t.row_count) := by
  refine ⟨getFieldTypes_skip_empty _ _ _ _ _, getData_skip_empty _ _ _ _ _ _,
    getData_skip_empty_after_header _ _ _ _ _ _ _, ctor_skip_empty _ _ _ _ _ _, ?_⟩
  intro t ht
  rw [ctor_skip_empty] at ht
  obtain ⟨hwf, hrc, -⟩ := ctor_wellFormed ht
  exact ⟨hrc, hwf.2.1⟩

theorem C6_empty_lines_are_skipped_witness :
    TextFileLoad.ctor exactModel
        ("id\tn\tnote".toList :: (["1\t5\tx".toList] ++ [] :: ["0\t70000\t5".toList])) '\t' true
      = TextFileLoad.ctor exactModel
        ("id\tn\tnote".toList :: (["1\t5\tx".toList] ++ ["0\t70000\t5".toList])) '\t' true ∧
    sampleTable.row_count = 2 ∧ sampleTable.data.length = sampleTable.row_count :=
  ⟨(C6_empty_lines_are_skipped exactModel 3 [] '\t' 0 true "id\tn\tnote".toList
      ["1\t5\tx".toList] ["0\t70000\t5".toList]).2.2.2.1,
    (C6_empty_lines_are_skipped exactModel 3 [] '\t' 0 true "id\tn\tnote".toList
      ["1\t5\tx".toList] ["0\t70000\t5".toList]).2.2.2.2 sampleTable sampleTable_constructed⟩

/-- C6, as stated, fails in two ways. Without a header row, an empty line inserted before
the first data line stops the constructor with the first-row-empty fault, while the same data
lines alone give two rows. In a file whose lines end in a carriage return, a blank line
arrives as the one-character line of the carriage return, which the length test does not
skip: with one column it becomes a third row, with two columns its missing second token is
read out of bounds. -/
theorem C6_blank_line_counterexample :
    faultOf (TextFileLoad.ctor exactModel [[], "5\tx".toList, "6\ty".toList] '\t' false)
      = some Fault.firstRowEmpty ∧
    (TextFileLoad.ctor exactModel ["5\tx".toList, "6\ty".toList] '\t' false).toOption.map
      (fun t => t.row_count) = some 2 ∧
    _openFile ["n\r".toList, "5\r".toList, "\r".toList, "7\r".toList] = 1 ∧
    (TextFileLoad.ctor exactModel ["n\r".toList, "5\r".toList, "\r".toList, "7\r".toList]
      '\t' true).toOption.map (fun t => t.row_count) = some 3 ∧
    (TextFileLoad.ctor exactModel ["n\r".toList, "5\r".toList, "7\r".toList]
      '\t' true).toOption.map (fun t => t.row_count) = some 2 ∧
    (match TextFileLoad.ctor exactModel
        ["n\r".toList, "5\r".toList, "\r".toList, "7\r".toList] '\t' true with
      | Except.ok t => getField_int t 1 []
      | Except.error _ => none) = some [5, 0, 7] ∧
    faultOf (TextFileLoad.ctor exactModel
      ["a\tb\r".toList, "1\t2\r".toList, "\r".toList, "3\t4\r".toList] '\t' true)
      = some Fault.outOfRange ∧
    (TextFileLoad.ctor exactModel ["a\tb\r".toList, "1\t2\r".toList, "3\t4\r".toList]
      '\t' true).toOption.map (fun t => t.row_count) = some 2 := by
  refine ⟨by decide, by decide, by decide, by decide, by decide, by decide, by decide,
    by decide⟩

/-- C5 (row length), as the code has it: when the first line is not empty and every non-empty
data line has exactly as many tokens as the first line, the constructor returns an object
whose `field_count` is the number of tokens of the first line, with one type per field, and
every stored row has exactly `field_count` values. -/
theorem C5_rows_have_field_count_values (F : FloatModel) (file : List (List Char))
    (delimit : Char) (headers : Bool) (hfirst : (getline file).1 ≠ [])
    (hrows : ∀ line ∈ dataLines headers file, line ≠ [] →
      (_splitString (_openFile file) line delimit).length
        = (_splitString (_openFile file) (getline file).1 delimit).length) :
    ∃ t, TextFileLoad.ctor F file delimit headers = Except.ok t ∧
      t.field_count = (_splitString (_openFile file) (getline file).1 delimit).length ∧
      t.field_types.length = t.field_count ∧ t.data.length = t.row_count ∧
      ∀ row ∈ t.data, row.length = t.field_count := by
  have hlen0 : ¬ (getline file).1.length = 0 := fun e => hfirst (List.length_eq_zero.mp e)
  have hcover : RowsCover (_splitString (_openFile file) (getline file).1 delimit).length
      delimit (_openFile file) (dataLines headers file) :=
    fun line hl hne => le_of_eq (hrows line hl hne).symm
  have hty := getFieldTypes_eq _ _ _ _ hcover
  obtain ⟨r, hr⟩ := getData_rows_of_le F
    ((List.range (_splitString (_openFile file) (getline file).1 delimit).length).map
      (fun k => (dataRows (dataLines headers file)).foldl
        (fun ty row => _getFieldTypes_switch ty (cellType (_openFile file) delimit k row))
        _VT_BOOL))
    delimit (_openFile file) (dataLines headers file) [] 0
    (fun line hl hne => by simpa using le_of_eq (hrows line hl hne))
  rw [← getData_eq_rows] at hr
  have hex : ∃ t, TextFileLoad.ctor F file delimit headers = Except.ok t := by
    cases headers
    · simp only [dataLines, Bool.false_eq_true, if_false] at hty hr
      simp [TextFileLoad.ctor, _getFieldNames, hlen0, hty, hr]
    · simp only [dataLines, if_true] at hty hr
      simp [TextFileLoad.ctor, _getFieldNames, hlen0, hty, hr]
  obtain ⟨t, ht⟩ := hex
  obtain ⟨hwf, -, -⟩ := ctor_wellFormed ht
  exact ⟨t, ht, (ctor_ok ht).2.2.1, hwf.1, hwf.2.1, hwf.2.2⟩

theorem C5_rows_have_field_count_values_witness :
    (getline sampleFile).1 ≠ [] ∧
    (∀ line ∈ dataLines true sampleFile, line ≠ [] →
      (_splitString (_openFile sampleFile) line '\t').length
        = (_splitString (_openFile sampleFile) (getline sampleFile).1 '\t').length) ∧
    ∃ t, TextFileLoad.ctor exactModel sampleFile '\t' true = Except.ok t ∧
      t.field_count = (_splitString (_openFile sampleFile) (getline sampleFile).1 '\t').length ∧
      t.field_types.length = t.field_count ∧ t.data.length = t.row_count ∧
      ∀ row ∈ t.data, row.length = t.field_count :=
  ⟨by decide, by decide,
    C5_rows_have_field_count_values exactModel sampleFile '\t' true (by decide) (by decide)⟩

/-- C5, as stated, fails: the first line "a<TAB>b" is not empty and has two tokens, and with a
data line of three tokens, or of one token, the constructor does not return an object at all:
it reads `field_types`, respectively the tokens of the line, outside the bounds. -/
theorem C5_ragged_line_counterexample :
    (getline ["a\tb".toList, "1\t2\t3".toList]).1 ≠ [] ∧
    faultOf (TextFileLoad.ctor exactModel ["a\tb".toList, "1\t2\t3".toList] '\t' true)
      = some Fault.outOfRange ∧
    _getFieldTypes 2 '\t' 0 ["1\t2\t3".toList] = some [_VT_BOOL, _VT_INT] ∧
    _getData exactModel [_VT_BOOL, _VT_INT] '\t' 0 true ["a\tb".toList, "1\t2\t3".toList]
      = none ∧
    faultOf (TextFileLoad.ctor exactModel ["a\tb".toList, "1".toList] '\t' true)
      = some Fault.outOfRange ∧
    _getFieldTypes 2 '\t' 0 ["1".toList] = none := by
  refine ⟨by decide, by decide, by decide, rfl, by decide, by decide⟩

/-! ## The lexeme accepted by `_isDouble` -/

theorem ScanInv.init : ScanInv [] 0
    { period_present := false, e_present := false, ok_negative_loc := 0,
      ok_positive_loc := -1 } :=
  { idx := rfl, period := by simp, exp := by simp, neg := by simp, pos := by simp,
    neg_le := by simp, pos_le := by simp }

theorem ScanInv.step_plain {pre : List Char} {i : Nat} {st : DoubleScan}
    (inv : ScanInv pre i st) (c : Char) (hp : c ≠ '.') (he : c ≠ 'e') :
    ScanInv (pre ++ [c]) (i + 1) st :=
  { idx := by simp [inv.idx]
    period := by
      rw [inv.period]; simp [List.mem_append, Ne.symm hp]
    exp := by
      rw [inv.exp]; simp [List.mem_append, Ne.symm he]
    neg := by
      have := inv.neg_le
      constructor
      · intro h; push_cast at h; omega
      · intro h; simp [he] at h
    pos := by
      have := inv.pos_le
      constructor
      · intro h; push_cast at h; omega
      · intro h; simp [he] at h
    neg_le := by have := inv.neg_le; push_cast; omega
    pos_le := by have := inv.pos_le; push_cast; omega }

theorem ScanInv.step_period {pre : List Char} {i : Nat} {st : DoubleScan}
    (inv : ScanInv pre i st) :
    ScanInv (pre ++ ['.']) (i + 1) { st with period_present := true } :=
  { idx := by simp [inv.idx]
    period := by simp
    exp := by
      have := inv.exp
      simp only [List.mem_append, List.mem_singleton]
      rw [this]
      constructor
      · intro h; exact Or.inl h
      · intro h
        rcases h with h | h
        · exact h
        · exact absurd h (by decide)
    neg := by
      have := inv.neg_le
      constructor
      · intro h; simp only at h; push_cast at h; omega
      · intro h; simp at h
    pos := by
      have := inv.pos_le
      constructor
      · intro h; simp only at h; push_cast at h; omega
      · intro h; simp at h
    neg_le := by have := inv.neg_le; simp only; push_cast; omega
    pos_le := by have := inv.pos_le; simp only; push_cast; omega }

theorem ScanInv.step_exp {pre : List Char} {i : Nat} {st : DoubleScan}
    (inv : ScanInv pre i st) :
    ScanInv (pre ++ ['e']) (i + 1)
      { st with e_present := true, ok_negative_loc := (i : Int) + 1,
                ok_positive_loc := (i : Int) + 1 } :=
  { idx := by simp [inv.idx]
    period := by
      have := inv.period
      simp only [List.mem_append, List.mem_singleton]
      rw [this]
      constructor
      · intro h; exact Or.inl h
      · intro h
        rcases h with h | h
        · exact h
        · exact absurd h (by decide)
    exp := by simp
    neg := by simp
    pos := by simp
    neg_le := by simp
    pos_le := by simp }

theorem isdigit_not_special {c : Char} (h : isdigit c = true) :
    c ≠ '.' ∧ c ≠ 'e' ∧ c ≠ '-' ∧ c ≠ '+' := by
  refine ⟨?_, ?_, ?_, ?_⟩ <;> (rintro rfl; revert h; decide)

/-- The loop of `_isDouble` accepts the rest of the string exactly when every character may
follow the characters before it. -/
theorem isDouble_loop_iff (cs : List Char) :
    ∀ (pre : List Char) (i : Nat) (st : DoubleScan), ScanInv pre i st →
      (_isDouble_loop cs i st = true ↔ ValidSteps pre cs) := by
  induction cs with
  | nil => intro pre i st _; simp [_isDouble_loop, ValidSteps]
  | cons c cs ih =>
    intro pre i st inv
    simp only [_isDouble_loop, ValidSteps]
    by_cases hd : isdigit c = true
    · obtain ⟨h1, h2, h3, h4⟩ := isdigit_not_special hd
      rw [if_pos hd, ih _ _ _ (inv.step_plain c h1 h2)]
      simp [StepOK, hd, h1, h2, h3, h4]
    · rw [if_neg hd]
      by_cases hp : c = '.'
      · subst hp
        rw [if_pos rfl]
        by_cases hpp : st.period_present = true
        · have hmem : '.' ∈ pre := inv.period.mp hpp
          simp [hpp, StepOK, hmem]
        · have hmem : '.' ∉ pre := fun h => hpp (inv.period.mpr h)
          simp only [hpp, if_false, Bool.false_eq_true]
          rw [ih _ _ _ inv.step_period]
          simp [StepOK, hmem]
      · rw [if_neg hp]
        by_cases he : c = 'e'
        · subst he
          rw [if_pos rfl]
          by_cases hep : st.e_present = true
          · have hmem : 'e' ∈ pre := inv.exp.mp hep
            simp [hep, StepOK, hmem]
          · have hmem : 'e' ∉ pre := fun h => hep (inv.exp.mpr h)
            simp only [hep, if_false, Bool.false_eq_true]
            rw [ih _ _ _ inv.step_exp]
            simp [StepOK, hmem]
        · rw [if_neg he]
          by_cases hm : c = '-'
          · subst hm
            rw [if_pos rfl]
            by_cases hloc : (i : Int) = st.ok_negative_loc
            · have hok := inv.neg.mp hloc
              simp only [hloc, ne_eq, not_true_eq_false, if_false]
              rw [ih _ _ _ (inv.step_plain '-' (by decide) (by decide))]
              simp [StepOK, hok]
            · have hok : ¬ (pre = [] ∨ pre.getLast? = some 'e') := fun h => hloc (inv.neg.mpr h)
              simp [hloc, StepOK, hok]
          · rw [if_neg hm]
            by_cases hpl : c = '+'
            · subst hpl
              rw [if_pos rfl]
              by_cases hloc : (i : Int) = st.ok_positive_loc
              · have hok := inv.pos.mp hloc
                simp only [hloc, ne_eq, not_true_eq_false, if_false]
                rw [ih _ _ _ (inv.step_plain '+' (by decide) (by decide))]
                simp [StepOK, hok]
              · have hok : ¬ (pre.getLast? = some 'e') := fun h => hloc (inv.pos.mpr h)
                simp [hloc, StepOK, hok]
            · rw [if_neg hpl]
              simp [StepOK, hd, hp, he, hm, hpl]

theorem afterMarker_append_left (markers pre : List Char) (c : Char) (i : Nat)
    (hi : i ≤ pre.length) :
    AfterMarker markers (pre ++ [c]) i ↔ AfterMarker markers pre i := by
  unfold AfterMarker
  constructor
  · rintro ⟨j, hj, m, hm, hget⟩
    rw [List.getElem?_append_left (by omega)] at hget
    exact ⟨j, hj, m, hm, hget⟩
  · rintro ⟨j, hj, m, hm, hget⟩
    exact ⟨j, hj, m, hm, by rw [List.getElem?_append_left (by omega)]; exact hget⟩

theorem afterMarker_length (pre : List Char) :
    AfterMarker ['e'] pre pre.length ↔ pre.getLast? = some 'e' := by
  unfold AfterMarker
  rw [List.getLast?_eq_getElem?]
  constructor
  · rintro ⟨j, hj, m, hm, hget⟩
    simp only [List.mem_singleton] at hm
    subst hm
    have : pre.length - 1 = j := by omega
    rw [this]; exact hget
  · intro h
    have hlt : pre.length - 1 < pre.length := by
      by_contra hcon
      rw [List.getElem?_eq_none (by omega)] at h
      exact absurd h (by simp)
    exact ⟨pre.length - 1, by omega, 'e', by simp, h⟩

theorem getElem?_snoc_cases (pre : List Char) (c x : Char) (i : Nat)
    (h : (pre ++ [c])[i]? = some x) :
    (i < pre.length ∧ pre[i]? = some x) ∨ (i = pre.length ∧ c = x) := by
  by_cases hlt : i < pre.length
  · left
    rw [List.getElem?_append_left hlt] at h
    exact ⟨hlt, h⟩
  · right
    by_cases heq : i = pre.length
    · subst heq
      rw [List.getElem?_concat_length] at h
      exact ⟨rfl, by simpa using h⟩
    · rw [List.getElem?_eq_none (by simp; omega)] at h
      exact absurd h (by simp)

theorem getElem?_lt_of_some (pre : List Char) (x : Char) (i : Nat) (h : pre[i]? = some x) :
    i < pre.length := by
  by_contra hcon
  rw [List.getElem?_eq_none (by omega)] at h
  exact absurd h (by simp)

/-- Appending one character keeps a lexeme valid exactly when the character may follow. -/
theorem validLexeme_snoc (pre : List Char) (c : Char) :
    ValidLexeme ['e'] (pre ++ [c]) ↔ ValidLexeme ['e'] pre ∧ StepOK pre c := by
  unfold ValidLexeme StepOK
  constructor
  · rintro ⟨hchars, hdot, hexp, hneg, hpos⟩
    refine ⟨⟨fun x hx => hchars x (List.mem_append.mpr (Or.inl hx)), ?_, ?_, ?_, ?_⟩,
      ?_, ?_, ?_, ?_, ?_⟩
    · rw [List.count_append] at hdot; omega
    · rw [List.countP_append] at hexp; omega
    · intro i hi
      have hlt := getElem?_lt_of_some pre _ i hi
      rcases hneg i (by rw [List.getElem?_append_left hlt]; exact hi) with h | h
      · exact Or.inl h
      · exact Or.inr ((afterMarker_append_left _ pre c i (by omega)).mp h)
    · intro i hi
      have hlt := getElem?_lt_of_some pre _ i hi
      exact (afterMarker_append_left _ pre c i (by omega)).mp
        (hpos i (by rw [List.getElem?_append_left hlt]; exact hi))
    · simpa using hchars c (by simp)
    · rintro rfl
      rw [List.count_append] at hdot
      simp only [List.count_singleton_self] at hdot
      exact List.count_eq_zero.mp (by omega)
    · rintro rfl
      rw [List.countP_append] at hexp
      have h1 : List.countP (fun c => decide (c ∈ ['e'])) ['e'] = 1 := by decide
      rw [h1] at hexp
      have h0 : List.countP (fun c => decide (c ∈ ['e'])) pre = 0 := by omega
      rw [List.countP_eq_zero] at h0
      intro hmem
      exact h0 'e' hmem (by simp)
    · rintro rfl
      rcases hneg pre.length (List.getElem?_concat_length pre '-') with h | h
      · exact Or.inl (List.length_eq_zero.mp h)
      · exact Or.inr ((afterMarker_length pre).mp
          ((afterMarker_append_left _ pre '-' pre.length (le_refl _)).mp h))
    · rintro rfl
      exact (afterMarker_length pre).mp
        ((afterMarker_append_left _ pre '+' pre.length (le_refl _)).mp
          (hpos pre.length (List.getElem?_concat_length pre '+')))
  · rintro ⟨⟨hchars, hdot, hexp, hneg, hpos⟩, hc, hcdot, hcexp, hcneg, hcpos⟩
    refine ⟨?_, ?_, ?_, ?_, ?_⟩
    · intro x hx
      rcases List.mem_append.mp hx with h | h
      · exact hchars x h
      · rw [List.mem_singleton] at h
        subst h
        simpa using hc
    · rw [List.count_append]
      by_cases hcd : c = '.'
      · subst hcd
        have := List.count_eq_zero.mpr (hcdot rfl)
        simp only [List.count_singleton_self]; omega
      · have : List.count '.' [c] = 0 := List.count_eq_zero.mpr (by simp [Ne.symm hcd])
        omega
    · rw [List.countP_append]
      by_cases hce : c = 'e'
      · subst hce
        have h0 : List.countP (fun c => decide (c ∈ ['e'])) pre = 0 := by
          rw [List.countP_eq_zero]
          intro a ha hta
          simp only [List.mem_singleton, decide_eq_true_eq] at hta
          subst hta
          exact hcexp rfl ha
        have h1 : List.countP (fun c => decide (c ∈ ['e'])) ['e'] = 1 := by decide
        omega
      · have h1 : List.countP (fun c => decide (c ∈ ['e'])) [c] = 0 := by
          rw [List.countP_eq_zero]
          intro a ha
          rw [List.mem_singleton] at ha
          subst ha
          simp [hce]
        omega
    · intro i hi
      rcases getElem?_snoc_cases pre c '-' i hi with ⟨hlt, hget⟩ | ⟨heq, hcm⟩
      · rcases hneg i hget with h | h
        · exact Or.inl h
        · exact Or.inr ((afterMarker_append_left _ pre c i (by omega)).mpr h)
      · subst heq
        rcases hcneg hcm with h | h
        · left; simp [h]
        · right
          exact (afterMarker_append_left _ pre c pre.length (le_refl _)).mpr
            ((afterMarker_length pre).mpr h)
    · intro i hi
      rcases getElem?_snoc_cases pre c '+' i hi with ⟨hlt, hget⟩ | ⟨heq, hcm⟩
      · exact (afterMarker_append_left _ pre c i (by omega)).mpr (hpos i hget)
      · subst heq
        exact (afterMarker_append_left _ pre c pre.length (le_refl _)).mpr
          ((afterMarker_length pre).mpr (hcpos hcm))

theorem validLexeme_nil : ValidLexeme ['e'] [] := by
  unfold ValidLexeme
  simp

theorem validLexeme_append (cs : List Char) :
    ∀ pre, ValidLexeme ['e'] (pre ++ cs) ↔ ValidLexeme ['e'] pre ∧ ValidSteps pre cs := by
  induction cs with
  | nil => intro pre; simp [ValidSteps]
  | cons c cs ih =>
    intro pre
    have happ : pre ++ c :: cs = (pre ++ [c]) ++ cs := by simp
    rw [happ, ih (pre ++ [c]), validLexeme_snoc]
    simp only [ValidSteps]
    tauto

/-- The loop of `_isDouble`, started at index 0, accepts exactly the valid lexemes whose
exponent marker is the lower-case `e`. -/
theorem isDouble_loop_valid (s : List Char) :
    _isDouble_loop s 0
        { period_present := false, e_present := false, ok_negative_loc := 0,
          ok_positive_loc := -1 } = true
      ↔ ValidLexeme ['e'] s := by
  rw [isDouble_loop_iff s [] 0 _ ScanInv.init]
  have := validLexeme_append s []
  simp only [List.nil_append] at this
  rw [this]
  simp [validLexeme_nil]

/-- C4 (String exactly for invalid lexemes), as the code has it: for every non-empty trimmed
string other than "0" and "1", `_getType` returns String exactly when the string is not a valid
floating-point lexeme, where valid means: only digits, `.`, `e`, `-`, `+` occur; at most one
`.`; at most one exponent marker, which is the lower-case `e`; `-` occurs only at position 0
or immediately after the exponent marker; `+` occurs only immediately after the exponent
marker. -/
theorem C4_string_iff_invalid_lexeme (s : List Char) (htrim : _trim s = s) (hne : s ≠ [])
    (h0 : s ≠ ['0']) (h1 : s ≠ ['1']) :
    _getType s = _VT_STRING ↔ ¬ ValidLexeme ['e'] s := by
  have hlen : ¬ s.length = 0 := fun e => hne (List.length_eq_zero.mp e)
  have hd : _isDouble s = true ↔ ValidLexeme ['e'] s := by
    unfold _isDouble
    simp only [htrim]
    exact isDouble_loop_valid s
  unfold _getType
  simp only [hlen, if_false, htrim, h0, h1, decide_False, Bool.or_self, Bool.false_eq_true]
  by_cases hv : _isDouble s = true
  · have hvalid := hd.mp hv
    simp only [hv, Bool.not_true, Bool.false_eq_true, if_false]
    constructor
    · intro h
      split at h
      · exact absurd h (by decide)
      · split at h <;> exact absurd h (by decide)
    · intro h; exact absurd hvalid h
  · have hinvalid : ¬ ValidLexeme ['e'] s := fun h => hv (hd.mpr h)
    simp [hv, hinvalid]

theorem C4_string_iff_invalid_lexeme_witness :
    _trim "-1.5e-3".toList = "-1.5e-3".toList ∧ "-1.5e-3".toList ≠ [] ∧
    "-1.5e-3".toList ≠ ['0'] ∧ "-1.5e-3".toList ≠ ['1'] ∧
    (_getType "-1.5e-3".toList = _VT_STRING ↔ ¬ ValidLexeme ['e'] "-1.5e-3".toList) ∧
    _getType "1e5".toList = _VT_DOUBLE ∧ _getType "-1.5e-3".toList = _VT_DOUBLE ∧
    _getType "1e+5".toList = _VT_DOUBLE ∧ _getType "+5".toList = _VT_STRING ∧
    _getType "1-2".toList = _VT_STRING ∧ _getType "1.2.3".toList = _VT_STRING ∧
    _getType "1e5e2".toList = _VT_STRING :=
  ⟨by decide, by decide, by decide, by decide,
    C4_string_iff_invalid_lexeme "-1.5e-3".toList (by decide) (by decide) (by decide)
      (by decide),
    by decide, by decide, by decide, by decide, by decide, by decide, by decide⟩

/-- C4, as stated, fails: "1E5" is a non-empty trimmed string other than "0" and "1", it is a
valid lexeme when the exponent marker may be `e` or `E`, and `_getType` classifies it as
String: `_isDouble` has no case for the upper-case `E`. -/
theorem C4_upper_case_exponent_counterexample :
    _trim "1E5".toList = "1E5".toList ∧ ValidLexeme ['e', 'E'] "1E5".toList ∧
    _isDouble "1E5".toList = false ∧ _getType "1E5".toList = _VT_STRING := by
  refine ⟨by decide, ⟨by decide, by decide, by decide, ?_, ?_⟩, by decide, by decide⟩
  · intro i hi
    rcases i with _ | _ | _ | i <;> simp at hi
  · intro i hi
    rcases i with _ | _ | _ | i <;> simp at hi

/-! ## The tokenizer against its structural reference -/

/-- What the search for the delimiter finds in a suffix whose head has index `p`, and what it
means for the tokens of the suffix. -/
theorem find_from_tokens (d : Char) (rest : List Char) :
    ∀ p : Nat,
      (find_from d rest p = -1 ∧ tokens d rest = [rest] ∧ rest.count d = 0) ∨
      ∃ k, find_from d rest p = ((p + k : Nat) : Int) ∧ k < rest.length ∧
        tokens d rest = rest.take k :: tokens d (rest.drop (k + 1)) ∧
        rest.count d = (rest.drop (k + 1)).count d + 1 := by
  induction rest with
  | nil => intro p; left; simp [find_from, tokens]
  | cons c cs ih =>
    intro p
    by_cases hc : c = d
    · right
      subst hc
      exact ⟨0, by simp [find_from], by simp, by simp [tokens], by simp⟩
    · have hcount : (c :: cs).count d = cs.count d := by
        rw [List.count_cons]; simp [hc]
      rcases ih (p + 1) with ⟨h1, h2, h3⟩ | ⟨k, h1, h2, h3, h4⟩
      · left
        refine ⟨by simp [find_from, hc, h1], by simp [tokens, hc, h2], by rw [hcount]; exact h3⟩
      · right
        refine ⟨k + 1, ?_, by simp; omega, ?_, ?_⟩
        · simp only [find_from, hc, if_false, h1]
          push_cast; omega
        · simp [tokens, hc, h3]
        · rw [hcount]; simpa using h4

/-- The loop of `_splitString` with enough iterations allowed: the tokens found, followed by
the text after the last delimiter, are the tokens of the line. -/
theorem splitString_loop_tokens (str : List Char) (d : Char) :
    ∀ (fuel p : Nat) (results : List (List Char)),
      (str.drop p).count d < fuel →
      (_splitString_loop str d fuel p (find str d p) results).2
          ++ [str.drop (_splitString_loop str d fuel p (find str d p) results).1]
        = results ++ tokens d (str.drop p) := by
  intro fuel
  induction fuel with
  | zero => intro p results h; omega
  | succ fuel ih =>
    intro p results hfuel
    rcases find_from_tokens d (str.drop p) p with ⟨h1, h2, -⟩ | ⟨k, h1, h2, h3, h4⟩
    · have hfind : find str d p = -1 := h1
      simp [_splitString_loop, hfind, h2]
    · have hfind : find str d p = ((p + k : Nat) : Int) := h1
      have hne : ((p + k : Nat) : Int) ≠ -1 := by omega
      have hnext : (((p + k : Nat) : Int) + 1).toNat = p + k + 1 := by omega
      have hlen : (((p + k : Nat) : Int) - (p : Int)).toNat = k := by omega
      have hdrop : str.drop (p + k + 1) = (str.drop p).drop (k + 1) := by
        rw [List.drop_drop, Nat.add_assoc]
      simp only [_splitString_loop, hfind, hne, ne_eq, not_false_eq_true, if_true, hnext, hlen]
      rw [ih (p + k + 1) _ (by rw [hdrop]; omega), hdrop, h3]
      simp [substr]

/-- The tokenizer returns the tokens of the line, the last one cut by `finalToken`. -/
theorem splitString_eq_tokens (offset : Int) (str : List Char) (d : Char) :
    ∃ init last, tokens d str = init ++ [last] ∧
      _splitString offset str d = init ++ [finalToken offset last] := by
  have hloop := splitString_loop_tokens str d (str.length + 1) 0 []
    (by have := List.count_le_length d (str.drop 0); simp at this ⊢; omega)
  simp only [List.drop_zero, List.nil_append] at hloop
  refine ⟨(_splitString_loop str d (str.length + 1) 0 (find str d 0) []).2,
    str.drop (_splitString_loop str d (str.length + 1) 0 (find str d 0) []).1, hloop.symm, ?_⟩
  simp only [_splitString, finalToken, substr, List.length_drop]
  congr 2
  by_cases hle : (_splitString_loop str d (str.length + 1) 0 (find str d 0) []).1 ≤ str.length
  · congr 2
    omega
  · have hnil : str.drop (_splitString_loop str d (str.length + 1) 0 (find str d 0) []).1 = [] :=
      List.drop_eq_nil_of_le (by omega)
    rw [hnil]; simp

theorem tokens_length_le (d : Char) (str : List Char) :
    ∀ t ∈ tokens d str, t.length ≤ str.length := by
  induction str with
  | nil => intro t ht; simp [tokens] at ht; simp [ht]
  | cons c cs ih =>
    intro t ht
    by_cases hc : c = d
    · simp only [tokens, hc, if_true, List.mem_cons] at ht
      rcases ht with rfl | ht
      · simp
      · have := ih t ht
        simp only [List.length_cons]; omega
    · cases htc : tokens d cs with
      | nil =>
        simp only [tokens, hc, if_false, htc, List.mem_singleton] at ht
        subst ht
        simp
      | cons t0 ts =>
        simp only [tokens, hc, if_false, htc, List.mem_cons] at ht
        rcases ht with rfl | ht
        · have := ih t0 (by rw [htc]; simp)
          simp only [List.length_cons]; omega
        · have := ih t (by rw [htc]; simp [ht])
          simp only [List.length_cons]; omega

/-- Without stripping (offset 0) the tokenizer returns exactly the tokens of the line. -/
theorem splitString_zero (str : List Char) (d : Char)
    (hlen : str.length < 18446744073709551616) : _splitString 0 str d = tokens d str := by
  obtain ⟨init, last, htok, hsplit⟩ := splitString_eq_tokens 0 str d
  rw [hsplit, htok]
  congr 2
  have hle : last.length ≤ str.length :=
    tokens_length_le d str last (by rw [htok]; simp)
  unfold finalToken
  have : (((last.length : Int) - 0) % 18446744073709551616).toNat = last.length := by omega
  rw [this]
  simp

/-! ## Trimming -/

theorem find_last_not_of_from_spec (c : Char) (s : List Char) :
    ∀ i : Nat,
      (find_last_not_of_from c s i = none ∧ ∀ x ∈ s, x = c) ∨
      ∃ k, find_last_not_of_from c s i = some (i + k) ∧ k < s.length ∧
        (∃ y, s[k]? = some y ∧ y ≠ c) ∧ ∀ x ∈ s.drop (k + 1), x = c := by
  induction s with
  | nil => intro i; left; simp [find_last_not_of_from]
  | cons x xs ih =>
    intro i
    rcases ih (i + 1) with ⟨h1, h2⟩ | ⟨k, h1, h2, h3, h4⟩
    · by_cases hx : x = c
      · left
        refine ⟨by simp [find_last_not_of_from, h1, hx], ?_⟩
        intro y hy
        rcases List.mem_cons.mp hy with rfl | hy'
        · exact hx
        · exact h2 y hy'
      · right
        exact ⟨0, by simp [find_last_not_of_from, h1, hx], by simp, ⟨x, by simp, hx⟩,
          by simpa using h2⟩
    · right
      refine ⟨k + 1, ?_, by simp; omega, ?_, ?_⟩
      · simp only [find_last_not_of_from, h1]
        congr 1; omega
      · simpa using h3
      · simpa using h4

theorem find_first_not_of_from_spec (c : Char) (r : List Char) :
    ∀ i : Nat,
      (find_first_not_of_from c r i = none ∧ ∀ x ∈ r, x = c) ∨
      ∃ k, find_first_not_of_from c r i = some (i + k) ∧ k < r.length ∧
        (∃ y, r[k]? = some y ∧ y ≠ c) ∧ ∀ x ∈ r.take k, x = c := by
  induction r with
  | nil => intro i; left; simp [find_first_not_of_from]
  | cons x xs ih =>
    intro i
    by_cases hx : x = c
    · rcases ih (i + 1) with ⟨h1, h2⟩ | ⟨k, h1, h2, h3, h4⟩
      · left
        refine ⟨by simp [find_first_not_of_from, h1, hx], ?_⟩
        intro y hy
        rcases List.mem_cons.mp hy with rfl | hy'
        · exact hx
        · exact h2 y hy'
      · right
        refine ⟨k + 1, ?_, by simp; omega, by simpa using h3, ?_⟩
        · simp only [find_first_not_of_from, hx, if_true, h1]
          congr 1; omega
        · intro y hy
          simp only [List.take_succ_cons, List.mem_cons] at hy
          rcases hy with rfl | hy'
          · exact hx
          · exact h4 y hy'
    · right
      exact ⟨0, by simp [find_first_not_of_from, hx], by simp, ⟨x, by simp, hx⟩, by simp⟩

theorem eq_replicate_of_all (c : Char) (l : List Char) (h : ∀ x ∈ l, x = c) :
    l = List.replicate l.length c :=
  List.eq_replicate_iff.mpr ⟨rfl, h⟩

/-- The shape of a string around its trimmed part: spaces, the trimmed part, spaces; the
trimmed part neither begins nor ends with a space. -/
theorem trim_spec (s : List Char) :
    ∃ a b, s = List.replicate a ' ' ++ _trim s ++ List.replicate b ' ' ∧
      (_trim s).head? ≠ some ' ' ∧ (_trim s).getLast? ≠ some ' ' := by
  rcases find_last_not_of_from_spec ' ' s 0 with ⟨h1, h2⟩ | ⟨k, h1, h2, ⟨y, hy, hyc⟩, h4⟩
  · have htrim : _trim s = [] := by
      simp [_trim, find_last_not_of, h1, erase_after, find_first_not_of,
        find_first_not_of_from, erase_front]
    refine ⟨s.length, 0, ?_, by simp [htrim], by simp [htrim]⟩
    rw [htrim]
    simpa using eq_replicate_of_all ' ' s h2
  · have hr : erase_after s (find_last_not_of s ' ') = s.take (k + 1) := by
      simp [find_last_not_of, h1, erase_after]
    have hrlen : (s.take (k + 1)).length = k + 1 := by simp; omega
    have hrk : (s.take (k + 1))[k]? = some y := by
      rw [List.getElem?_take_of_lt (by omega)]; exact hy
    rcases find_first_not_of_from_spec ' ' (s.take (k + 1)) 0 with
      ⟨-, g2⟩ | ⟨j, g1, g2, ⟨z, hz, hzc⟩, g4⟩
    · exact absurd (g2 y (List.getElem?_mem hrk)) hyc
    · have htrim : _trim s = (s.take (k + 1)).drop j := by
        simp [_trim, hr, find_first_not_of, g1, erase_front]
      have hsplit : s = s.take (k + 1) ++ s.drop (k + 1) := (List.take_append_drop _ _).symm
      have hsplit2 : s.take (k + 1) = (s.take (k + 1)).take j ++ (s.take (k + 1)).drop j :=
        (List.take_append_drop _ _).symm
      refine ⟨((s.take (k + 1)).take j).length, (s.drop (k + 1)).length, ?_, ?_, ?_⟩
      · rw [htrim, ← eq_replicate_of_all ' ' _ g4, ← eq_replicate_of_all ' ' _ h4, ← hsplit2,
          ← hsplit]
      · rw [htrim, List.head?_drop, hz]
        simpa using hzc
      · rw [htrim, List.getLast?_drop, if_neg (by omega), List.getLast?_eq_getElem?, hrlen]
        simp only [Nat.add_sub_cancel]
        rw [hrk]
        simpa using hyc

theorem trim_fixed (t : List Char) (hhead : t.head? ≠ some ' ')
    (hlast : t.getLast? ≠ some ' ') : _trim t = t := by
  obtain ⟨a, b, hshape, -, -⟩ := trim_spec t
  have ha : a = 0 := by
    cases a with
    | zero => rfl
    | succ n =>
      exfalso; apply hhead
      rw [hshape]; simp [List.replicate_succ]
  have hb : b = 0 := by
    cases b with
    | zero => rfl
    | succ n =>
      exfalso; apply hlast
      rw [hshape, List.replicate_succ', ← List.append_assoc]
      simp
  subst ha; subst hb
  simpa using hshape.symm

/-- Trimming twice is trimming once. -/
theorem trim_idem (s : List Char) : _trim (_trim s) = _trim s := by
  obtain ⟨a, b, -, hhead, hlast⟩ := trim_spec s
  exact trim_fixed _ hhead hlast

theorem strtol_replicate_space (n : Nat) (t : List Char) :
    strtol (List.replicate n ' ' ++ t) = strtol t := by
  induction n with
  | zero => simp
  | succ n ih =>
    simp only [List.replicate_succ, List.cons_append, strtol]
    rw [if_pos (by decide)]
    exact ih

theorem digitsValue_append_spaces (t : List Char) (ht : _isLong_loop t = true) (b : Nat) :
    ∀ acc, digitsValue acc (t ++ List.replicate b ' ') = digitsValue acc t := by
  induction t with
  | nil =>
    intro acc
    cases b with
    | zero => simp
    | succ n =>
      simp only [List.nil_append, List.replicate_succ, digitsValue]
      rw [if_neg (by decide)]
  | cons c cs ih =>
    intro acc
    simp only [_isLong_loop] at ht
    by_cases hc : isdigit c = true
    · simp only [hc, if_true] at ht
      simp only [List.cons_append, digitsValue, hc, if_true]
      exact ih ht _
    · simp [hc] at ht

theorem isspace_not_digit {c : Char} (h : isdigit c = true) :
    isspace c = false ∧ c ≠ '-' ∧ c ≠ '+' := by
  have h1 : isspace c = false := by
    cases hs : isspace c with
    | false => rfl
    | true =>
      exfalso
      simp only [isspace, Bool.or_eq_true, decide_eq_true_eq] at hs
      rcases hs with ((((rfl | rfl) | rfl) | rfl) | rfl) | rfl <;> revert h <;> decide
  exact ⟨h1, by rintro rfl; revert h; decide, by rintro rfl; revert h; decide⟩

/-- On a string whose trimmed part consists of digits, `atol` reads the trimmed part. -/
theorem atol_trim (s : List Char) (hlong : _isLong_loop (_trim s) = true) :
    atol s = atol (_trim s) := by
  obtain ⟨a, b, hshape, -, -⟩ := trim_spec s
  unfold atol
  conv_lhs => rw [hshape, List.append_assoc, strtol_replicate_space]
  cases ht : _trim s with
  | nil =>
    cases b with
    | zero => simp
    | succ n =>
      have := strtol_replicate_space (n + 1) []
      simp only [List.append_nil] at this
      simp only [List.nil_append]
      rw [this]
  | cons c cs =>
    rw [ht] at hlong
    have hc : isdigit c = true := by
      simp only [_isLong_loop] at hlong
      by_cases hc : isdigit c = true
      · exact hc
      · simp [hc] at hlong
    obtain ⟨h1, h2, h3⟩ := isspace_not_digit hc
    have hd := digitsValue_append_spaces (c :: cs) hlong b 0
    simp only [List.cons_append] at hd
    simp only [List.cons_append, strtol, h1, h2, h3, if_false, Bool.false_eq_true,
      List.append_eq, hd]

/-- The classification of a string is the classification of its trimmed part, unless the
trimmed part is empty. -/
theorem getType_trim (s : List Char) (h : _trim s ≠ []) : _getType s = _getType (_trim s) := by
  have hs : ¬ s.length = 0 := by
    intro e
    have : s = [] := List.length_eq_zero.mp e
    subst this
    exact h (by decide)
  have ht : ¬ (_trim s).length = 0 := fun e => h (List.length_eq_zero.mp e)
  unfold _getType
  simp only [hs, ht, if_false, trim_idem]
  by_cases hlong : _isLong (_trim s) = true
  · have hl : _isLong_loop (_trim s) = true := by
      have := hlong
      unfold _isLong at this
      simpa only [trim_idem] using this
    rw [atol_trim s hl]
  · simp [hlong]

/-- A non-empty string of spaces only is classified Int, its trimmed part Bool. -/
theorem getType_blank (s : List Char) (hne : s ≠ []) (h : _trim s = []) :
    _getType s = _VT_INT ∧ _getType (_trim s) = _VT_BOOL := by
  have hs : ¬ s.length = 0 := fun e => hne (List.length_eq_zero.mp e)
  obtain ⟨a, b, hshape, -, -⟩ := trim_spec s
  have hatol : atol s = 0 := by
    unfold atol
    rw [hshape, h, List.append_nil]
    have h1 := strtol_replicate_space a (List.replicate b ' ')
    have h2 := strtol_replicate_space b []
    simp only [List.append_nil] at h2
    rw [h1, h2]; rfl
  refine ⟨?_, by rw [h]; decide⟩
  unfold _getType
  simp only [hs, if_false, h, hatol]
  decide

/-- C3 (classification and trimming): `_getType s = _getType (_trim s)` holds for the empty
string and for every string whose trimmed part is not empty, but it fails for every non-empty
string made of spaces only: such a cell trims to the empty string, which is classified Bool,
and the cell itself is classified Int, because the test for an empty value is made on the raw
string. The cell of two spaces is an instance. -/
theorem C3_blank_padded_cell_is_int :
    (∀ s, _trim s ≠ [] → _getType s = _getType (_trim s)) ∧
    _getType [] = _getType (_trim []) ∧
    (∀ s, s ≠ [] → _trim s = [] → _getType s = _VT_INT ∧ _getType (_trim s) = _VT_BOOL) ∧
    _trim "  ".toList = [] ∧ _getType (_trim "  ".toList) = _VT_BOOL ∧
    _getType "  ".toList = _VT_INT ∧ _getType [] = _VT_BOOL := by
  refine ⟨getType_trim, by decide, getType_blank, by decide, by decide, by decide, by decide⟩


/-! ## Conversions on retrieval -/

theorem longTable_constructed :
    TextFileLoad.ctor exactModel longFile '\t' true = Except.ok longTable := by
  rfl

/-- C11 (Long read as String): the 14-digit value 12345678901234 is stored in a Long column,
its decimal text has 14 characters, and `getField` into a string vector returns
"1234567890123": the text passes through a buffer of 14 bytes, which keeps 13 characters.
No text of more than 13 characters is returned unchanged. -/
theorem C11_long_text_is_cut_to_13_characters :
    longTable.field_types = [_VT_LONG] ∧
    (data_at longTable 0 0).map (fun v => v.vt_long) = some 12345678901234 ∧
    fmt_d 12345678901234 = "12345678901234".toList ∧
    getField_string longTable 1 [] = some ["1234567890123".toList] ∧
    (∀ v : Int, 13 < (fmt_d v).length → snprintf_conv (fmt_d v) ≠ fmt_d v) := by
  refine ⟨rfl, rfl, by decide, by decide, ?_⟩
  intro v hv heq
  have hlen : (snprintf_conv (fmt_d v)).length ≤ 13 := by
    simp [snprintf_conv]
  rw [heq] at hlen
  omega

theorem wrap32_spec (v : Int) :
    -2147483648 ≤ wrap32 v ∧ wrap32 v < 2147483648 ∧ (wrap32 v - v) % 4294967296 = 0 ∧
      (-2147483648 ≤ v → v < 2147483648 → wrap32 v = v) := by
  unfold wrap32
  refine ⟨by omega, by omega, by omega, fun h1 h2 => by omega⟩

theorem bool_to_int_spec (b : Bool) :
    bool_to_int b = (if b = true then 1 else 0) := by
  cases b <;> rfl

/-- C18 (numeric conversions on retrieval): in a well-formed object, for a column number `k`
with 1 ≤ k ≤ field_count, (1) reading a Long column as int always returns a list, whose
element for a stored value `v` lies in the signed 32-bit range, is congruent to `v` modulo
2^32, and is `v` itself when `v` is in that range; (2) reading an Int column as long returns
the stored values; (3) reading a Bool column as int or long returns 1 for true and 0 for
false. -/
theorem C18_numeric_conversions_on_retrieval {F : FloatModel} (t : TextFileLoad F)
    (hwf : WellFormed t) (k : Int) (hk1 : 1 ≤ k) (hk2 : k ≤ t.field_count) :
    (vector_at t.field_types (k - 1) = some _VT_LONG → ∀ out, ∃ res,
      getField_int t k out = some res ∧ res.length = t.row_count ∧
      ∀ i, i < t.row_count → ∃ v r, data_at t i (k - 1) = some v ∧ res[i]? = some r ∧
        -2147483648 ≤ r ∧ r < 2147483648 ∧ (r - v.vt_long) % 4294967296 = 0 ∧
        (-2147483648 ≤ v.vt_long → v.vt_long < 2147483648 → r = v.vt_long)) ∧
    (vector_at t.field_types (k - 1) = some _VT_INT → ∀ out, ∃ res,
      getField_long t k out = some res ∧ res.length = t.row_count ∧
      ∀ i, i < t.row_count → ∃ v, data_at t i (k - 1) = some v ∧ res[i]? = some v.vt_int) ∧
    (vector_at t.field_types (k - 1) = some _VT_BOOL → ∀ out,
      (∃ res, getField_int t k out = some res ∧ res.length = t.row_count ∧
        ∀ i, i < t.row_count → ∃ v, data_at t i (k - 1) = some v ∧
          res[i]? = some (if v.vt_bool = true then 1 else 0)) ∧
      (∃ res, getField_long t k out = some res ∧ res.length = t.row_count ∧
        ∀ i, i < t.row_count → ∃ v, data_at t i (k - 1) = some v ∧
          res[i]? = some (if v.vt_bool = true then 1 else 0))) := by
  have hc0 : 0 ≤ k - 1 := by omega
  have hc1 : k - 1 < t.field_count := by omega
  refine ⟨?_, ?_, ?_⟩
  · intro htype out
    obtain ⟨res, hres, hlen, hel⟩ :=
      getField_loop_column t hwf (k - 1) hc0 hc1 (fun v => wrap32 v.vt_long)
    refine ⟨res, by simp only [getField_int, htype, clear]; exact hres, hlen, ?_⟩
    intro i hi
    obtain ⟨v, hv, hr⟩ := hel i hi
    obtain ⟨w1, w2, w3, w4⟩ := wrap32_spec v.vt_long
    exact ⟨v, _, hv, hr, w1, w2, w3, w4⟩
  · intro htype out
    obtain ⟨res, hres, hlen, hel⟩ :=
      getField_loop_column t hwf (k - 1) hc0 hc1 (fun v => v.vt_int)
    exact ⟨res, by simp only [getField_long, htype, clear]; exact hres, hlen, hel⟩
  · intro htype out
    obtain ⟨res, hres, hlen, hel⟩ :=
      getField_loop_column t hwf (k - 1) hc0 hc1 (fun v => bool_to_int v.vt_bool)
    have hel2 : ∀ i, i < t.row_count → ∃ v, data_at t i (k - 1) = some v ∧
        res[i]? = some (if v.vt_bool = true then 1 else 0) := by
      intro i hi
      obtain ⟨v, hv, hr⟩ := hel i hi
      exact ⟨v, hv, by rw [hr, bool_to_int_spec]⟩
    exact ⟨⟨res, by simp only [getField_int, htype, clear]; exact hres, hlen, hel2⟩,
      ⟨res, by simp only [getField_long, htype, clear]; exact hres, hlen, hel2⟩⟩

theorem longTable_wellFormed : WellFormed longTable := by
  refine ⟨rfl, rfl, ?_⟩
  intro row hrow
  simp only [longTable, List.mem_singleton] at hrow
  subst hrow
  rfl

theorem C18_numeric_conversions_on_retrieval_witness :
    WellFormed longTable ∧ (1 : Int) ≤ 1 ∧ (1 : Int) ≤ longTable.field_count ∧
    vector_at longTable.field_types (1 - 1) = some _VT_LONG ∧
    (∃ res, getField_int longTable 1 [5] = some res ∧ res.length = longTable.row_count ∧
      ∀ i, i < longTable.row_count → ∃ v r, data_at longTable i (1 - 1) = some v ∧
        res[i]? = some r ∧ -2147483648 ≤ r ∧ r < 2147483648 ∧
        (r - v.vt_long) % 4294967296 = 0 ∧
        (-2147483648 ≤ v.vt_long → v.vt_long < 2147483648 → r = v.vt_long)) ∧
    getField_int longTable 1 [5] = some [1942892530] ∧
    getField_long sampleTable 1 [] = some [1, 0] ∧
    getField_int sampleTable 2 [] = some [5, 70000] :=
  ⟨longTable_wellFormed, by decide, by decide, rfl,
    (C18_numeric_conversions_on_retrieval longTable longTable_wellFormed 1 (by decide)
      (by decide)).1 rfl [5],
    by decide, by decide, by decide⟩

/-! ## Failure of the construction -/

/-- C15 (empty first row), as the code has it: the constructor stops with the first-row-empty
fault exactly when the first line of the file is empty, whether or not a header row was
specified. -/
theorem C15_first_row_empty_iff (F : FloatModel) (file : List (List Char)) (delimit : Char)
    (headers : Bool) :
    faultOf (TextFileLoad.ctor F file delimit headers) = some Fault.firstRowEmpty
      ↔ (getline file).1 = [] := by
  by_cases hfirst : (getline file).1.length = 0
  · have hnil : (getline file).1 = [] := List.length_eq_zero.mp hfirst
    simp [TextFileLoad.ctor, _getFieldNames, hfirst, hnil, faultOf]
  · have hne : (getline file).1 ≠ [] := fun e => hfirst (by simp [e])
    simp only [hne, iff_false]
    unfold TextFileLoad.ctor
    cases headers
    · simp only [_getFieldNames, hfirst, if_false, Bool.not_false, if_true]
      split
      · simp [faultOf]
      · split <;> simp [faultOf]
    · simp only [_getFieldNames, hfirst, if_false, Bool.not_true, Bool.false_eq_true]
      split
      · simp [faultOf]
      · split <;> simp [faultOf]

/-- C15, as stated, fails: without a header row, a file whose first line is empty and whose
second line is a data line makes the constructor stop with the first-row-empty fault; the
empty line is not skipped, although the same data line alone gives an object with one row. -/
theorem C15_empty_first_line_without_header_counterexample :
    faultOf (TextFileLoad.ctor exactModel [[], "1\t2".toList] '\t' false)
      = some Fault.firstRowEmpty ∧
    ((TextFileLoad.ctor exactModel ["1\t2".toList] '\t' false).toOption.map
      (fun t => (t.field_count, t.row_count))) = some (2, 1) := by
  refine ⟨by decide, by decide⟩

/-! ## Properties of the tokenizer -/

theorem tokens_ne_nil (d : Char) (str : List Char) : tokens d str ≠ [] := by
  cases str with
  | nil => simp [tokens]
  | cons c cs =>
    by_cases hc : c = d
    · simp [tokens, hc]
    · cases h : tokens d cs <;> simp [tokens, hc, h]

theorem tokens_length (d : Char) (str : List Char) :
    (tokens d str).length = str.count d + 1 := by
  induction str with
  | nil => simp [tokens]
  | cons c cs ih =>
    by_cases hc : c = d
    · subst hc
      simp [tokens, ih]
    · have hcount : (c :: cs).count d = cs.count d := by
        rw [List.count_cons]; simp [hc]
      cases h : tokens d cs with
      | nil => exact absurd h (tokens_ne_nil d cs)
      | cons t ts =>
        rw [h] at ih
        simp only [tokens, hc, if_false, h, hcount]
        simpa using ih

theorem tokens_no_delimiter (d : Char) (str : List Char) :
    ∀ tok ∈ tokens d str, d ∉ tok := by
  induction str with
  | nil => intro tok h; simp [tokens] at h; simp [h]
  | cons c cs ih =>
    intro tok htok
    by_cases hc : c = d
    · simp only [tokens, hc, if_true, List.mem_cons] at htok
      rcases htok with rfl | h
      · simp
      · exact ih tok h
    · cases h : tokens d cs with
      | nil => exact absurd h (tokens_ne_nil d cs)
      | cons t ts =>
        simp only [tokens, hc, if_false, h, List.mem_cons] at htok
        rcases htok with rfl | h'
        · have := ih t (by rw [h]; simp)
          simp only [List.mem_cons, not_or]
          exact ⟨fun e => hc e.symm, this⟩
        · exact ih tok (by rw [h]; simp [h'])

theorem intercalate_cons_cons (sep : List Char) (c : Char) (t : List Char)
    (ts : List (List Char)) :
    sep.intercalate ((c :: t) :: ts) = c :: sep.intercalate (t :: ts) := by
  cases ts <;> simp [List.intercalate]

theorem intercalate_nil_cons (sep : List Char) (t : List Char) (ts : List (List Char)) :
    sep.intercalate ([] :: t :: ts) = sep ++ sep.intercalate (t :: ts) := by
  simp [List.intercalate]

theorem tokens_intercalate (d : Char) (str : List Char) :
    [d].intercalate (tokens d str) = str := by
  induction str with
  | nil => simp [tokens, List.intercalate]
  | cons c cs ih =>
    cases h : tokens d cs with
    | nil => exact absurd h (tokens_ne_nil d cs)
    | cons t ts =>
      rw [h] at ih
      by_cases hc : c = d
      · subst hc
        simp only [tokens, if_true, h]
        rw [intercalate_nil_cons, ih]
        rfl
      · simp only [tokens, hc, if_false, h]
        rw [intercalate_cons_cons, ih]

/-- C19 (splitting without stripping): for every line and delimiter, with offset 0,
`_splitString` returns one token more than the line has delimiters, no token contains the
delimiter, and the tokens joined by the delimiter are the line; so only the delimiter decides
where the line is split. -/
theorem C19_splitString_tokens (str : List Char) (delimit : Char)
    (hlen : str.length < 18446744073709551616) :
    (_splitString 0 str delimit).length = str.count delimit + 1 ∧
    (∀ tok ∈ _splitString 0 str delimit, delimit ∉ tok) ∧
    [delimit].intercalate (_splitString 0 str delimit) = str := by
  rw [splitString_zero str delimit hlen]
  exact ⟨tokens_length delimit str, tokens_no_delimiter delimit str,
    tokens_intercalate delimit str⟩

theorem C19_splitString_tokens_witness :
    "\"a,b\",c,".toList.length < 18446744073709551616 ∧
    _splitString 0 "\"a,b\",c,".toList ',' = ["\"a".toList, "b\"".toList, "c".toList, []] ∧
    (_splitString 0 "\"a,b\",c,".toList ',').length = "\"a,b\",c,".toList.count ',' + 1 ∧
    (∀ tok ∈ _splitString 0 "\"a,b\",c,".toList ',', ',' ∉ tok) ∧
    [','].intercalate (_splitString 0 "\"a,b\",c,".toList ',') = "\"a,b\",c,".toList :=
  ⟨by decide, by decide, C19_splitString_tokens "\"a,b\",c,".toList ',' (by decide)⟩

theorem finalToken_one (last : List Char) (hlen : last.length < 18446744073709551616) :
    finalToken 1 last = last.dropLast := by
  unfold finalToken
  rw [List.dropLast_eq_take]
  cases last with
  | nil => simp
  | cons c cs =>
    congr 1
    simp only [List.length_cons] at hlen ⊢
    omega

theorem finalToken_zero (last : List Char) (hlen : last.length < 18446744073709551616) :
    finalToken 0 last = last := by
  unfold finalToken
  have : (((last.length : Int) - 0) % 18446744073709551616).toNat = last.length := by omega
  rw [this]
  simp

/-- The tokenizer with offset 1 against the tokenizer with offset 0: the same tokens, the
last one without its last character. -/
theorem splitString_one (str : List Char) (d : Char)
    (hlen : str.length < 18446744073709551616) :
    ∃ init last, _splitString 0 str d = init ++ [last] ∧
      _splitString 1 str d = init ++ [last.dropLast] := by
  obtain ⟨init, last, htok, hsplit⟩ := splitString_eq_tokens 1 str d
  have hle : last.length ≤ str.length := tokens_length_le d str last (by rw [htok]; simp)
  refine ⟨init, last, ?_, ?_⟩
  · rw [splitString_zero str d hlen, htok]
  · rw [hsplit, finalToken_one last (by omega)]

theorem crFile_offset : _openFile crFile = 1 := by
  decide

/-- C20 (carriage-return mode): with offset 1 the tokens are those of offset 0 except that
the last token has lost its last character, whatever that character is. A trailing carriage
return is removed, but a line that does not end in a carriage return loses a character of
its text: "c<TAB>d" gives the tokens "c" and "", and the file whose last line "0<TAB>world"
has no terminator gives the column "hello", "worl". -/
theorem C20_offset_one_cuts_any_last_character :
    (∀ (str : List Char) (d : Char), str.length < 18446744073709551616 →
      ∃ init last, _splitString 0 str d = init ++ [last] ∧
        _splitString 1 str d = init ++ [last.dropLast]) ∧
    _splitString 1 "a\tb\r".toList '\t' = ["a".toList, "b".toList] ∧
    _splitString 0 "c\td".toList '\t' = ["c".toList, "d".toList] ∧
    _splitString 1 "c\td".toList '\t' = ["c".toList, []] ∧
    _openFile crFile = 1 ∧
    (match TextFileLoad.ctor exactModel crFile '\t' true with
      | Except.ok t => getField_string t 2 []
      | Except.error _ => none) = some ["hello".toList, "worl".toList] := by
  refine ⟨splitString_one, by decide, by decide, by decide, by decide, by decide⟩

/-! ## The stored values -/

theorem getData_cols_eq_storedRow (F : FloatModel) (field_types : List VT)
    (cells : List (List Char)) (col_num : Nat) (row_data row : List (variant F))
    (h : _getData_cols F field_types cells col_num row_data = some row) :
    row = row_data ++ storedRow F field_types cells col_num := by
  induction cells generalizing col_num row_data with
  | nil =>
    simp only [_getData_cols, Option.some.injEq] at h
    simp [storedRow, h]
  | cons cell rest ih =>
    simp only [_getData_cols] at h
    cases hty : field_types[col_num]? with
    | none => simp [hty] at h
    | some ty =>
      simp only [hty] at h
      have hget : field_types.getD col_num _VT_INT = ty := by
        simp [List.getD_eq_getElem?_getD, hty]
      rw [ih _ _ h]
      simp [storedRow, hty]

theorem storedRow_getElem? (F : FloatModel) (field_types : List VT) (cells : List (List Char)) :
    ∀ (col_num j : Nat), (storedRow F field_types cells col_num)[j]?
      = (cells[j]?).map (fun cell =>
          _getData_switch F (field_types.getD (col_num + j) _VT_INT) cell) := by
  induction cells with
  | nil => intro col_num j; simp [storedRow]
  | cons cell rest ih =>
    intro col_num j
    cases j with
    | zero => simp [storedRow]
    | succ j =>
      simp only [storedRow, List.getElem?_cons_succ]
      rw [ih (col_num + 1) j]
      congr 2
      funext cell'
      congr 2
      omega

theorem getData_rows_eq_map (F : FloatModel) (field_types : List VT) (delimiter : Char)
    (offset : Int) (in_stream : List (List Char)) (data data2 : List (List (variant F)))
    (row_count row_count2 : Nat)
    (h : _getData_rows F field_types delimiter offset in_stream data row_count
      = some (data2, row_count2)) :
    data2 = data ++ (dataRows in_stream).map
      (fun line => storedRow F field_types (_splitString offset line delimiter) 0) := by
  induction in_stream generalizing data row_count with
  | nil =>
    simp only [_getData_rows, Option.some.injEq, Prod.mk.injEq] at h
    simp [dataRows, h.1]
  | cons full_row rest ih =>
    by_cases hemp : full_row.length = 0
    · have hnil : full_row = [] := List.length_eq_zero.mp hemp
      subst hnil
      simp only [_getData_rows, List.length_nil, if_true] at h
      have hd : dataRows ([] :: rest) = dataRows rest := by simp [dataRows]
      rw [hd]
      exact ih data row_count h
    · have hne : full_row ≠ [] := fun e => hemp (by simp [e])
      simp only [_getData_rows, hemp, if_false] at h
      cases hcols : _getData_cols F field_types (_splitString offset full_row delimiter) 0 []
        with
      | none => simp [hcols] at h
      | some row_data =>
        simp only [hcols] at h
        have hrow := getData_cols_eq_storedRow F field_types _ 0 [] row_data hcols
        have hd : dataRows (full_row :: rest) = full_row :: dataRows rest := by
          simp [dataRows, hne]
        rw [ih _ _ h, hd, hrow]
        simp

/-- The rows of a constructed object: one per data row of the file, in order, each cell
converted for the type of its column. -/
theorem ctor_data {F : FloatModel} {file : List (List Char)} {delimit : Char}
    {headers : Bool} {t : TextFileLoad F}
    (h : TextFileLoad.ctor F file delimit headers = Except.ok t) :
    t.data = (dataRows (dataLines headers file)).map
      (fun line => storedRow F t.field_types (_splitString (_openFile file) line delimit) 0) := by
  obtain ⟨-, -, -, -, hdata⟩ := ctor_ok h
  rw [getData_eq_rows] at hdata
  simpa using getData_rows_eq_map F _ _ _ _ _ _ _ _ hdata

theorem vector_at_bounds {α : Type} {xs : List α} {c : Int} {x : α}
    (h : vector_at xs c = some x) : 0 ≤ c ∧ c.toNat < xs.length ∧ xs[c.toNat]? = some x := by
  unfold vector_at at h
  by_cases hc : c < 0
  · simp [hc] at h
  · simp only [hc, if_false] at h
    refine ⟨by omega, ?_, h⟩
    by_contra hcon
    rw [List.getElem?_eq_none (by omega)] at h
    exact absurd h (by simp)

/-- The stored value of data row `i` and column `c` of a constructed object: the raw cell of
the `i`-th data row of the file, converted for the type of the column. -/
theorem ctor_data_at {F : FloatModel} {file : List (List Char)} {delimit : Char}
    {headers : Bool} {t : TextFileLoad F}
    (h : TextFileLoad.ctor F file delimit headers = Except.ok t) (i : Nat) (c : Int)
    (type : VT) (htype : vector_at t.field_types c = some type) (v : variant F)
    (hv : data_at t i c = some v) :
    ∃ line cell, (dataRows (dataLines headers file))[i]? = some line ∧
      rawCell (_openFile file) delimit line c.toNat = some cell ∧
      v = _getData_switch F type cell := by
  obtain ⟨hc0, hclt, hcty⟩ := vector_at_bounds htype
  have hdata := ctor_data h
  unfold data_at at hv
  rw [hdata, List.getElem?_map] at hv
  cases hline : (dataRows (dataLines headers file))[i]? with
  | none => simp [hline] at hv
  | some line =>
    simp only [hline, Option.map_some'] at hv
    obtain ⟨-, -, hrow⟩ := vector_at_bounds hv
    rw [storedRow_getElem?] at hrow
    cases hcell : (_splitString (_openFile file) line delimit)[c.toNat]? with
    | none => simp [hcell] at hrow
    | some cell =>
      simp only [hcell, Option.map_some', Option.some.injEq, Nat.zero_add] at hrow
      have hget : t.field_types.getD c.toNat _VT_INT = type := by
        simp [List.getD_eq_getElem?_getD, hcty]
      rw [hget] at hrow
      exact ⟨line, cell, rfl, hcell, hrow.symm⟩

/-- C12 (String read as String): in a constructed object, for every column number `k` whose
field type is String, `getField` into a string vector returns `row_count` elements, whatever
the vector held before, and the element of index `i` is the raw token of column `k` of the
`i`-th data row of the file, exactly as `_splitString` produced it. -/
theorem C12_string_column_reads_raw_tokens {F : FloatModel} (file : List (List Char))
    (delimit : Char) (headers : Bool) (t : TextFileLoad F)
    (hctor : TextFileLoad.ctor F file delimit headers = Except.ok t) (k : Int)
    (hstring : vector_at t.field_types (k - 1) = some _VT_STRING) (out : List (List Char)) :
    ∃ res, getField_string t k out = some res ∧ res.length = t.row_count ∧
      ∀ i, i < t.row_count → ∃ line cell,
        (dataRows (dataLines headers file))[i]? = some line ∧
        rawCell (_openFile file) delimit line (k - 1).toNat = some cell ∧
        res[i]? = some cell := by
  obtain ⟨hwf, -, -⟩ := ctor_wellFormed hctor
  obtain ⟨hc0, hclt, -⟩ := vector_at_bounds hstring
  have hc1 : k - 1 < t.field_count := by rw [← hwf.1]; omega
  obtain ⟨res, hres, hlen, hel⟩ :=
    getField_loop_column t hwf (k - 1) hc0 hc1 (fun v => v.vt_string)
  refine ⟨res, by simp only [getField_string, hstring, clear]; exact hres, hlen, ?_⟩
  intro i hi
  obtain ⟨v, hv, hr⟩ := hel i hi
  obtain ⟨line, cell, hline, hcell, hveq⟩ := ctor_data_at hctor i (k - 1) _VT_STRING hstring v hv
  refine ⟨line, cell, hline, hcell, ?_⟩
  rw [hr, hveq]
  rfl

theorem paddedTable_constructed :
    TextFileLoad.ctor exactModel paddedFile '\t' true = Except.ok paddedTable := by
  rfl

theorem C12_string_column_reads_raw_tokens_witness :
    TextFileLoad.ctor exactModel paddedFile '\t' true = Except.ok paddedTable ∧
    vector_at paddedTable.field_types (2 - 1) = some _VT_STRING ∧
    getField_string paddedTable 2 ["old".toList] = some [" x y ".toList, " 5".toList] ∧
    ∃ res, getField_string paddedTable 2 ["old".toList] = some res ∧
      res.length = paddedTable.row_count ∧
      ∀ i, i < paddedTable.row_count → ∃ line cell,
        (dataRows (dataLines true paddedFile))[i]? = some line ∧
        rawCell (_openFile paddedFile) '\t' line (2 - 1 : Int).toNat = some cell ∧
        res[i]? = some cell :=
  ⟨paddedTable_constructed, rfl, by decide,
    C12_string_column_reads_raw_tokens paddedFile '\t' true paddedTable
      paddedTable_constructed 2 rfl ["old".toList]⟩

/-! ## Lookup by column name -/

theorem column_name_key (case_sensitive : Bool) (name : List Char) :
    (if (!case_sensitive) = true then _toUpper name else name) = nameKey case_sensitive name := by
  cases case_sensitive <;> rfl

/-- The loop of `_getColNum` over names that exist: it returns the first column whose name
matches, or stops with column-not-found when none of the columns it visits matches. -/
theorem getColNum_loop_spec (field_names : List (List Char)) (key : List Char)
    (case_sensitive : Bool) :
    ∀ n col_num, col_num + n ≤ field_names.length →
      (∃ c, _getColNum_loop field_names key case_sensitive n col_num = Except.ok c ∧
        col_num ≤ c ∧ c < col_num + n ∧
        (∃ fn, field_names[c]? = some fn ∧ key = nameKey case_sensitive fn) ∧
        ∀ j, col_num ≤ j → j < c →
          ¬ ∃ fn, field_names[j]? = some fn ∧ key = nameKey case_sensitive fn) ∨
      (_getColNum_loop field_names key case_sensitive n col_num
          = Except.error Fault.columnNotFound ∧
        ∀ j, col_num ≤ j → j < col_num + n →
          ¬ ∃ fn, field_names[j]? = some fn ∧ key = nameKey case_sensitive fn) := by
  intro n
  induction n with
  | zero =>
    intro col_num _
    right
    exact ⟨rfl, fun j h1 h2 => by omega⟩
  | succ n ih =>
    intro col_num hle
    have hlt : col_num < field_names.length := by omega
    have hget : field_names[col_num]? = some (field_names[col_num]) :=
      List.getElem?_eq_getElem hlt
    by_cases hkey : key = nameKey case_sensitive (field_names[col_num])
    · left
      refine ⟨col_num, ?_, le_refl _, by omega, ⟨_, hget, hkey⟩, fun j h1 h2 => by omega⟩
      simp only [_getColNum_loop, hget]
      rw [if_pos (by simpa [nameKey] using hkey)]
    · have hstep : _getColNum_loop field_names key case_sensitive (n + 1) col_num
          = _getColNum_loop field_names key case_sensitive n (col_num + 1) := by
        simp only [_getColNum_loop, hget]
        rw [if_neg (by simpa [nameKey] using hkey)]
      have hno : ¬ ∃ fn, field_names[col_num]? = some fn ∧ key = nameKey case_sensitive fn := by
        rintro ⟨fn, hfn, hk⟩
        rw [hget] at hfn
        simp only [Option.some.injEq] at hfn
        subst hfn
        exact hkey hk
      rcases ih (col_num + 1) (by omega) with ⟨c, h1, h2, h3, h4, h5⟩ | ⟨h1, h2⟩
      · left
        refine ⟨c, by rw [hstep]; exact h1, by omega, by omega, h4, ?_⟩
        intro j hj1 hj2
        by_cases hj : j = col_num
        · subst hj; exact hno
        · exact h5 j (by omega) hj2
      · right
        refine ⟨by rw [hstep]; exact h1, ?_⟩
        intro j hj1 hj2
        by_cases hj : j = col_num
        · subst hj; exact hno
        · exact h2 j (by omega) (by omega)

/-- What `_getColNum` returns on an object that has one name per field: the first field whose
name matches, or column-not-found when no field name matches. -/
theorem getColNum_spec {F : FloatModel} (t : TextFileLoad F)
    (hnames : t.field_names.length = t.field_count) (name : List Char)
    (case_sensitive : Bool) :
    (∃ c, _getColNum t name case_sensitive = Except.ok c ∧
      NameMatches t name case_sensitive c ∧
      ∀ j, j < c → ¬ NameMatches t name case_sensitive j) ∨
    (_getColNum t name case_sensitive = Except.error Fault.columnNotFound ∧
      ∀ j, ¬ NameMatches t name case_sensitive j) := by
  unfold _getColNum
  simp only [column_name_key]
  rcases getColNum_loop_spec t.field_names (nameKey case_sensitive name) case_sensitive
    t.field_count 0 (by omega) with ⟨c, h1, -, -, h4, h5⟩ | ⟨h1, h2⟩
  · left
    exact ⟨c, h1, h4, fun j hj => h5 j (by omega) hj⟩
  · right
    refine ⟨h1, ?_⟩
    intro j hm
    obtain ⟨fn, hfn, hk⟩ := hm
    have hj : j < t.field_names.length := by
      by_contra hcon
      rw [List.getElem?_eq_none (by omega)] at hfn
      exact absurd hfn (by simp)
    exact h2 j (by omega) (by omega) ⟨fn, hfn, hk⟩

/-- C13 (lookup by name): in an object that has one name per field (a header was read),
`_getColNum` succeeds exactly when some field name equals the name, after capitalizing both
when the lookup is not case sensitive and literally when it is; it then returns the lowest
such ordinal, and otherwise it stops with column-not-found. Each `getField` by name returns
what `getField` by number returns for that ordinal plus one, and stops with column-not-found
when `_getColNum` does. -/
theorem C13_lookup_by_name {F : FloatModel} (t : TextFileLoad F)
    (hnames : t.field_names.length = t.field_count) (name : List Char)
    (case_sensitive : Bool) :
    ((∃ c, _getColNum t name case_sensitive = Except.ok c) ↔
      ∃ fn ∈ t.field_names, nameKey case_sensitive name = nameKey case_sensitive fn) ∧
    (∀ c, _getColNum t name case_sensitive = Except.ok c →
      NameMatches t name case_sensitive c ∧
      ∀ j, j < c → ¬ NameMatches t name case_sensitive j) ∧
    ((¬ ∃ fn ∈ t.field_names, nameKey case_sensitive name = nameKey case_sensitive fn) →
      _getColNum t name case_sensitive = Except.error Fault.columnNotFound) ∧
    (∀ c, _getColNum t name case_sensitive = Except.ok c →
      (∀ out, getField_bool_by_name t name out case_sensitive
        = byNumber (getField_bool t ((c : Int) + 1) out)) ∧
      (∀ out, getField_int_by_name t name out case_sensitive
        = byNumber (getField_int t ((c : Int) + 1) out)) ∧
      (∀ out, getField_long_by_name t name out case_sensitive
        = byNumber (getField_long t ((c : Int) + 1) out)) ∧
      (∀ out, getField_double_by_name t name out case_sensitive
        = byNumber (getField_double t ((c : Int) + 1) out)) ∧
      (∀ out, getField_string_by_name t name out case_sensitive
        = byNumber (getField_string t ((c : Int) + 1) out))) ∧
    (_getColNum t name case_sensitive = Except.error Fault.columnNotFound →
      (∀ out, getField_bool_by_name t name out case_sensitive
        = Except.error Fault.columnNotFound) ∧
      (∀ out, getField_int_by_name t name out case_sensitive
        = Except.error Fault.columnNotFound) ∧
      (∀ out, getField_long_by_name t name out case_sensitive
        = Except.error Fault.columnNotFound) ∧
      (∀ out, getField_double_by_name t name out case_sensitive
        = Except.error Fault.columnNotFound) ∧
      (∀ out, getField_string_by_name t name out case_sensitive
        = Except.error Fault.columnNotFound)) := by
  have hspec := getColNum_spec t hnames name case_sensitive
  have hmem : (∃ fn ∈ t.field_names,
      nameKey case_sensitive name = nameKey case_sensitive fn) ↔
      ∃ j, NameMatches t name case_sensitive j := by
    constructor
    · rintro ⟨fn, hfn, hk⟩
      obtain ⟨j, hj⟩ := List.mem_iff_getElem?.mp hfn
      exact ⟨j, fn, hj, hk⟩
    · rintro ⟨j, fn, hj, hk⟩
      exact ⟨fn, List.getElem?_mem hj, hk⟩
  refine ⟨?_, ?_, ?_, ?_, ?_⟩
  · rw [hmem]
    constructor
    · rintro ⟨c, hc⟩
      rcases hspec with ⟨c2, h1, h2, -⟩ | ⟨h1, -⟩
      · exact ⟨c2, h2⟩
      · rw [hc] at h1; exact absurd h1 (by simp)
    · rintro ⟨j, hj⟩
      rcases hspec with ⟨c2, h1, -, -⟩ | ⟨-, h2⟩
      · exact ⟨c2, h1⟩
      · exact absurd hj (h2 j)
  · intro c hc
    rcases hspec with ⟨c2, h1, h2, h3⟩ | ⟨h1, -⟩
    · rw [hc] at h1
      simp only [Except.ok.injEq] at h1
      subst h1
      exact ⟨h2, h3⟩
    · rw [hc] at h1; exact absurd h1 (by simp)
  · intro hno
    rw [hmem] at hno
    rcases hspec with ⟨c2, -, h2, -⟩ | ⟨h1, -⟩
    · exact absurd ⟨c2, h2⟩ hno
    · exact h1
  · intro c hc
    refine ⟨?_, ?_, ?_, ?_, ?_⟩ <;> intro out
    · simp only [getField_bool_by_name, hc]
    · simp only [getField_int_by_name, hc]
    · simp only [getField_long_by_name, hc]
    · simp only [getField_double_by_name, hc]
    · simp only [getField_string_by_name, hc]
  · intro hc
    refine ⟨?_, ?_, ?_, ?_, ?_⟩ <;> intro out
    · simp only [getField_bool_by_name, hc]
    · simp only [getField_int_by_name, hc]
    · simp only [getField_long_by_name, hc]
    · simp only [getField_double_by_name, hc]
    · simp only [getField_string_by_name, hc]

theorem C13_lookup_by_name_witness :
    sampleTable.field_names.length = sampleTable.field_count ∧
    _getColNum sampleTable "NoTe".toList false = Except.ok 2 ∧
    (NameMatches sampleTable "NoTe".toList false 2 ∧
      ∀ j, j < 2 → ¬ NameMatches sampleTable "NoTe".toList false j) ∧
    getField_int_by_name sampleTable "NoTe".toList [4] false
      = byNumber (getField_int sampleTable ((2 : Nat) + 1) [4]) ∧
    _getColNum sampleTable "NoTe".toList true = Except.error Fault.columnNotFound ∧
    _getColNum sampleTable "note".toList true = Except.ok 2 :=
  ⟨rfl, rfl,
    (C13_lookup_by_name sampleTable rfl "NoTe".toList false).2.1 2 rfl,
    ((C13_lookup_by_name sampleTable rfl "NoTe".toList false).2.2.2.1 2 rfl).2.1 [4],
    rfl, rfl⟩

theorem existsFieldName_loop_iff (name : List Char) (case_sensitive : Bool)
    (field_names : List (List Char)) :
    existsFieldName_loop name case_sensitive field_names = true ↔
      ∃ fn ∈ field_names, (case_sensitive = true ∧ name = fn) ∨ name = _toUpper fn := by
  induction field_names with
  | nil => simp [existsFieldName_loop]
  | cons fn rest ih =>
    simp only [existsFieldName_loop, List.mem_cons, exists_eq_or_imp]
    by_cases h1 : (case_sensitive && decide (name = fn)) = true
    · have h1' : case_sensitive = true ∧ name = fn := by simpa using h1
      simp [h1, h1']
    · have h1' : ¬ (case_sensitive = true ∧ name = fn) := by simpa using h1
      rw [if_neg h1]
      by_cases h2 : name = _toUpper fn
      · simp [h2]
      · rw [if_neg h2, ih]
        simp [h1', h2]

/-- C14 (existence of a field name): `existsFieldName` without case sensitivity is true
exactly when some field name equals the name after capitalizing both, as `_getColNum` has it;
but with case sensitivity it is true when some field name equals the name or when the
capitalized field name equals the name. With the header "id", "n", "note" the query "ID" with
case sensitivity is answered true, although `_getColNum` does not find the column. -/
theorem C14_existsFieldName_case_sensitive_also_matches_capitalized :
    (∀ (F : FloatModel) (t : TextFileLoad F) (name : List Char),
      existsFieldName t name false = true ↔
        ∃ fn ∈ t.field_names, nameKey false name = nameKey false fn) ∧
    (∀ (F : FloatModel) (t : TextFileLoad F) (name : List Char),
      existsFieldName t name true = true ↔
        ∃ fn ∈ t.field_names, name = fn ∨ name = _toUpper fn) ∧
    sampleTable.field_names = ["id".toList, "n".toList, "note".toList] ∧
    existsFieldName sampleTable "ID".toList true = true ∧
    _getColNum sampleTable "ID".toList true = Except.error Fault.columnNotFound ∧
    existsFieldName sampleTable "id".toList true = true ∧
    existsFieldName sampleTable "Id".toList true = false := by
  refine ⟨?_, ?_, rfl, by decide, rfl, by decide, by decide⟩
  · intro F t name
    unfold existsFieldName
    simp only [column_name_key, existsFieldName_loop_iff]
    simp [nameKey]
  · intro F t name
    unfold existsFieldName
    simp only [column_name_key, existsFieldName_loop_iff]
    simp [nameKey]

/-! ## Scenarios -/

theorem scenarioTable_constructed (F : FloatModel) :
    TextFileLoad.ctor F scenarioFile '\t' true = Except.ok (scenarioTable F) := by
  rfl

theorem scenarioDataTable_constructed (F : FloatModel) :
    TextFileLoad.ctor F scenarioData '\t' false = Except.ok (scenarioDataTable F) := by
  rfl

/-- C16 (end to end): for the tab-delimited file with the header id, value, note and the data
lines (1, 3.14, hello) and (0, 2, world), read with a header, the constructor returns an
object for which `getFieldTypes` is BOOLEAN, DOUBLE, STRING; `getField` of "id" into bools is
true, false; of "value" into doubles is the `atof` of "3.14" and of "2"; of "note" into ints is
0, 0; and `getField` of column 1 into strings is "1", "0". In exact arithmetic the two doubles
are 3.14 and 2. -/
theorem C16_end_to_end_scenario (F : FloatModel) :
    ∃ t, TextFileLoad.ctor F scenarioFile '\t' true = Except.ok t ∧
      getFieldTypes t = ["BOOLEAN".toList, "DOUBLE".toList, "STRING".toList] ∧
      getField_bool_by_name t "id".toList [] false = Except.ok [true, false] ∧
      getField_double_by_name t "value".toList [] false
        = Except.ok [F.atof "3.14".toList, F.atof "2".toList] ∧
      getField_int_by_name t "note".toList [] false = Except.ok [0, 0] ∧
      getField_string t 1 [] = some ["1".toList, "0".toList] ∧
      strtod_exact "3.14".toList = 314 / 100 ∧ strtod_exact "2".toList = 2 := by
  have h1 : snprintf_conv (fmt_d (bool_to_int true)) = "1".toList := by decide
  have h0 : snprintf_conv (fmt_d (bool_to_int false)) = "0".toList := by decide
  refine ⟨scenarioTable F, scenarioTable_constructed F, rfl, rfl, rfl, rfl, ?_, ?_, ?_⟩
  · simp only [getField_string, scenarioTable, vector_at, clear, getField_loop, data_at]
    simp [h1, h0, variant.uninit]
  · simp [strtod_exact, decimalValue, scanDigits, scanExponent, isspace, isdigit]
    norm_num
  · simp [strtod_exact, decimalValue, scanDigits, scanExponent, isspace, isdigit]

/-- The field names of a constructed object: the tokens of the first line when a header row
was specified, none otherwise. -/
theorem ctor_field_names {F : FloatModel} {file : List (List Char)} {delimit : Char}
    {headers : Bool} {t : TextFileLoad F}
    (h : TextFileLoad.ctor F file delimit headers = Except.ok t) :
    t.field_names
      = if headers then _splitString (_openFile file) (getline file).1 delimit else [] := by
  unfold TextFileLoad.ctor at h
  by_cases hfirst : (getline file).1.length = 0
  · simp [_getFieldNames, hfirst] at h
  · cases headers
    · simp only [_getFieldNames, hfirst, if_false, Bool.not_false, if_true] at h
      split at h
      · exact absurd h (by simp)
      · split at h
        · exact absurd h (by simp)
        · simp only [Except.ok.injEq] at h
          subst h
          rfl
    · simp only [_getFieldNames, hfirst, if_false, Bool.not_true, Bool.false_eq_true] at h
      split at h
      · exact absurd h (by simp)
      · split at h
        · exact absurd h (by simp)
        · simp only [Except.ok.injEq] at h
          subst h
          rfl

/-- C17 (no header row): when the constructor returns an object for a file read without a
header, `getFieldNames` is empty, `field_count` is the number of tokens of the first line, the
first line is the first data row of both passes, row 1 of the stored data is the first line
converted for the column types, and the type of every column is at least the classification
of the cell of the first line. -/
theorem C17_no_header_first_line_is_data {F : FloatModel} (file : List (List Char))
    (delimit : Char) (t : TextFileLoad F)
    (hctor : TextFileLoad.ctor F file delimit false = Except.ok t) :
    getFieldNames t = [] ∧
    getFieldCount t = (_splitString (_openFile file) (getline file).1 delimit).length ∧
    (dataRows (dataLines false file))[0]? = some (getline file).1 ∧
    _getFieldTypes t.field_count delimit (_openFile file) file = some t.field_types ∧
    t.data[0]? = some (storedRow F t.field_types
      (_splitString (_openFile file) (getline file).1 delimit) 0) ∧
    (∀ i, i < t.field_count → ∃ type cell, t.field_types[i]? = some type ∧
      rawCell (_openFile file) delimit (getline file).1 i = some cell ∧
      rank (_getType cell) ≤ rank type ∧
      data_at t 0 i = some (_getData_switch F type cell)) := by
  obtain ⟨hne, -, hfc, hty, -⟩ := ctor_ok hctor
  have hnames := ctor_field_names hctor
  have hdata := ctor_data hctor
  obtain ⟨hwf, -, hexact⟩ := ctor_wellFormed hctor
  have hlines : dataLines false file = file := by simp [dataLines]
  rw [hlines] at hty hdata hexact
  have hrows : ∃ rest, dataRows file = (getline file).1 :: dataRows rest := by
    cases file with
    | nil => exact absurd rfl hne
    | cons first rest =>
      have hf : first ≠ [] := hne
      exact ⟨rest, by simp [dataRows, getline, hf]⟩
  obtain ⟨rest, hrows⟩ := hrows
  have hmem : (getline file).1 ∈ file := by
    cases file with
    | nil => exact absurd rfl hne
    | cons first rest => simp [getline]
  have hrow0 : t.data[0]? = some (storedRow F t.field_types
      (_splitString (_openFile file) (getline file).1 delimit) 0) := by
    rw [hdata, hrows]; simp
  refine ⟨by simpa [getFieldNames] using hnames, hfc, by rw [hlines, hrows]; simp, hty, hrow0,
    ?_⟩
  intro i hi
  have hcover := (getFieldTypes_some _ _ _ _ _ hty).2
  have hlt : i < (_splitString (_openFile file) (getline file).1 delimit).length := by
    rw [hexact _ hmem hne]; exact hi
  have hcell := @rawCell_of_lt (_openFile file) delimit (getline file).1 i hlt
  have hclosed := getFieldTypes_eq _ _ _ _ hcover
  rw [hty] at hclosed
  simp only [Option.some.injEq] at hclosed
  obtain ⟨-, hub, -⟩ := fold_switch_spec (cellType (_openFile file) delimit i) (dataRows file)
    _VT_BOOL
  have hrank := hub (getline file).1 (mem_dataRows.mpr ⟨hmem, hne⟩)
  rw [cellType_of_rawCell hcell] at hrank
  have htyi : t.field_types[i]? = some ((dataRows file).foldl
      (fun ty row => _getFieldTypes_switch ty (cellType (_openFile file) delimit i row))
      _VT_BOOL) := by
    rw [hclosed]; simp [hi]
  refine ⟨_, _, htyi, hcell, hrank, ?_⟩
  have hget : t.field_types.getD i _VT_INT = (dataRows file).foldl
      (fun ty row => _getFieldTypes_switch ty (cellType (_openFile file) delimit i row))
      _VT_BOOL := by
    rw [List.getD_eq_getElem?_getD, htyi]; rfl
  simp only [data_at, hrow0, vector_at]
  rw [if_neg (by omega)]
  simp only [Int.toNat_ofNat, storedRow_getElem?, List.getElem?_eq_getElem hlt,
    Option.map_some', Nat.zero_add, hget]

theorem C17_no_header_first_line_is_data_witness :
    TextFileLoad.ctor exactModel scenarioData '\t' false
      = Except.ok (scenarioDataTable exactModel) ∧
    getFieldNames (scenarioDataTable exactModel) = [] ∧
    getFieldCount (scenarioDataTable exactModel) = 3 ∧
    getRowCount (scenarioDataTable exactModel) = 2 ∧
    (scenarioDataTable exactModel).data[0]?
      = some [{ variant.uninit exactModel with vt_type := _VT_BOOL, vt_bool := true },
          { variant.uninit exactModel with vt_type := _VT_DOUBLE,
                                           vt_double := strtod_exact "3.14".toList },
          { variant.uninit exactModel with vt_type := _VT_STRING,
                                           vt_string := "hello".toList }] ∧
    (dataRows (dataLines false scenarioData))[0]? = some "1\t3.14\thello".toList ∧
    (scenarioDataTable exactModel).data[0]?
      = some (storedRow exactModel (scenarioDataTable exactModel).field_types
          (_splitString (_openFile scenarioData) (getline scenarioData).1 '\t') 0) :=
  ⟨scenarioDataTable_constructed exactModel, rfl, rfl, rfl, rfl,
    (C17_no_header_first_line_is_data scenarioData '\t' (scenarioDataTable exactModel)
      (scenarioDataTable_constructed exactModel)).2.2.1,
    (C17_no_header_first_line_is_data scenarioData '\t' (scenarioDataTable exactModel)
      (scenarioDataTable_constructed exactModel)).2.2.2.2.1⟩

/-! ## Digits in classified strings -/

theorem isLong_loop_head_digit (t : List Char) (hne : t ≠ []) (h : _isLong_loop t = true) :
    ∃ c ∈ t, isdigit c = true := by
  cases t with
  | nil => exact absurd rfl hne
  | cons c cs =>
    simp only [_isLong_loop] at h
    by_cases hc : isdigit c = true
    · exact ⟨c, by simp, hc⟩
    · simp [hc] at h

/-- What the classification of a string says about its trimmed part: Bool is given to the
empty string and to the strings that trim to "0" or "1"; Int and Long only to strings whose
trimmed part consists of digits. -/
theorem getType_cases (s : List Char) :
    (_getType s = _VT_BOOL → s = [] ∨ _trim s = ['0'] ∨ _trim s = ['1']) ∧
    (_getType s = _VT_INT →
      s ≠ [] ∧ _isLong_loop (_trim s) = true ∧ atol s < 32768 ∧ atol s > -32768) ∧
    (_getType s = _VT_LONG → s ≠ [] ∧ _isLong_loop (_trim s) = true) := by
  have hlong : _isLong (_trim s) = _isLong_loop (_trim s) := by
    unfold _isLong
    simp only [trim_idem]
  by_cases hs : s.length = 0
  · have hnil : s = [] := List.length_eq_zero.mp hs
    subst hnil
    refine ⟨fun _ => Or.inl rfl, ?_, ?_⟩ <;> intro h <;> exact absurd h (by decide)
  · have hne : s ≠ [] := fun e => hs (by simp [e])
    unfold _getType
    simp only [hs, if_false]
    by_cases h01 : (decide (_trim s = ['0']) || decide (_trim s = ['1'])) = true
    · simp only [h01, if_true]
      have h01' : _trim s = ['0'] ∨ _trim s = ['1'] := by simpa using h01
      refine ⟨fun _ => Or.inr h01', ?_, ?_⟩ <;> intro h <;> exact absurd h (by decide)
    · rw [if_neg h01]
      by_cases hd : _isDouble (_trim s) = true
      · simp only [hd, Bool.not_true, Bool.false_eq_true, if_false]
        by_cases hl : _isLong (_trim s) = true
        · simp only [hl, Bool.not_true, Bool.false_eq_true, if_false]
          have hl' : _isLong_loop (_trim s) = true := by rw [← hlong]; exact hl
          by_cases hr : atol s < 32768 ∧ atol s > -32768
          · rw [if_pos hr]
            exact ⟨fun h => absurd h (by decide), fun _ => ⟨hne, hl', hr.1, hr.2⟩,
              fun h => absurd h (by decide)⟩
          · rw [if_neg hr]
            exact ⟨fun h => absurd h (by decide), fun h => absurd h (by decide),
              fun _ => ⟨hne, hl'⟩⟩
        · simp only [hl, Bool.not_false, if_true]
          refine ⟨?_, ?_, ?_⟩ <;> intro h <;> exact absurd h (by decide)
      · simp only [hd, Bool.not_false, if_true]
        refine ⟨?_, ?_, ?_⟩ <;> intro h <;> exact absurd h (by decide)

/-- C25 (numeric classes and digits): a string with a non-empty trimmed part that `_getType`
classifies as Bool, Int or Long has a digit in its trimmed part; but the digit-free strings
"-", ".", "e" and "-.e" pass `_isDouble` and are classified Double, not String. -/
theorem C25_digit_free_strings_are_double :
    (∀ s, _trim s ≠ [] →
      _getType s = _VT_BOOL ∨ _getType s = _VT_INT ∨ _getType s = _VT_LONG →
      ∃ c ∈ _trim s, isdigit c = true) ∧
    _isDouble "-".toList = true ∧ _getType "-".toList = _VT_DOUBLE ∧
    _getType ".".toList = _VT_DOUBLE ∧ _getType "e".toList = _VT_DOUBLE ∧
    _getType "-.e".toList = _VT_DOUBLE ∧
    (∀ c ∈ "-.e".toList, isdigit c = false) := by
  refine ⟨?_, by decide, by decide, by decide, by decide, by decide, by decide⟩
  intro s hne hclass
  obtain ⟨hb, hi, hl⟩ := getType_cases s
  rcases hclass with h | h | h
  · rcases hb h with h0 | h0 | h0
    · subst h0; exact absurd (by decide) hne
    · rw [h0]; exact ⟨'0', by simp, by decide⟩
    · rw [h0]; exact ⟨'1', by simp, by decide⟩
  · exact isLong_loop_head_digit _ hne (hi h).2.1
  · exact isLong_loop_head_digit _ hne (hl h).2

/-! ## Lookup by name without a header -/

theorem existsFieldName_no_names {F : FloatModel} (t : TextFileLoad F)
    (hnames : t.field_names = []) (name : List Char) (case_sensitive : Bool) :
    existsFieldName t name case_sensitive = false := by
  simp [existsFieldName, hnames, existsFieldName_loop]

theorem getColNum_no_names {F : FloatModel} (t : TextFileLoad F) (hnames : t.field_names = [])
    (hcount : 1 ≤ t.field_count) (name : List Char) (case_sensitive : Bool) :
    _getColNum t name case_sensitive = Except.error Fault.outOfRange := by
  unfold _getColNum
  rw [hnames]
  cases hfc : t.field_count with
  | zero => omega
  | succ n => simp [_getColNum_loop]

/-- C22 (lookup by name without a header): in every object constructed without a header
row there is no field name while `field_count` is at least 1, so `_getColNum` reads
`field_names[0]`, which does not exist, for every name, and no `getField` by name reaches the
column-not-found exit; `existsFieldName` returns false for every name. The two data lines of
the scenario read without a header are an instance. -/
theorem C22_getColNum_reads_missing_field_name :
    (∀ (F : FloatModel) (file : List (List Char)) (delimit : Char) (t : TextFileLoad F),
      TextFileLoad.ctor F file delimit false = Except.ok t →
      ∀ (name : List Char) (case_sensitive : Bool),
        t.field_names = [] ∧ 1 ≤ t.field_count ∧
        _getColNum t name case_sensitive = Except.error Fault.outOfRange ∧
        getField_string_by_name t name [] case_sensitive = Except.error Fault.outOfRange ∧
        getField_int_by_name t name [] case_sensitive = Except.error Fault.outOfRange ∧
        existsFieldName t name case_sensitive = false) ∧
    TextFileLoad.ctor exactModel scenarioData '\t' false
      = Except.ok (scenarioDataTable exactModel) ∧
    (scenarioDataTable exactModel).field_names = [] ∧
    (scenarioDataTable exactModel).field_count = 3 ∧
    _getColNum (scenarioDataTable exactModel) "id".toList false
      = Except.error Fault.outOfRange ∧
    faultOf (getField_bool_by_name (scenarioDataTable exactModel) "id".toList [] false)
      = some Fault.outOfRange ∧
    existsFieldName (scenarioDataTable exactModel) "id".toList false = false := by
  refine ⟨?_, scenarioDataTable_constructed exactModel, rfl, rfl, rfl, rfl, rfl⟩
  intro F file delimit t hctor name case_sensitive
  have hnames : t.field_names = [] := by simpa using ctor_field_names hctor
  have hcount : 1 ≤ t.field_count := by
    rw [(ctor_ok hctor).2.2.1]
    exact splitString_length_pos _ _ _
  have hcol := getColNum_no_names t hnames hcount name case_sensitive
  refine ⟨hnames, hcount, hcol, ?_, ?_, existsFieldName_no_names t hnames name case_sensitive⟩
  · simp only [getField_string_by_name, hcol]
  · simp only [getField_int_by_name, hcol]

/-! ## Blank cells -/

theorem blankTable_constructed :
    TextFileLoad.ctor exactModel blankFile '\t' true = Except.ok blankTable := by
  rfl

theorem digitsTable_constructed :
    TextFileLoad.ctor exactModel digitsFile '\t' true = Except.ok digitsTable := by
  rfl

theorem dataRows_append (a b : List (List Char)) :
    dataRows (a ++ b) = dataRows a ++ dataRows b := by
  simp [dataRows, List.filter_append]

theorem switch_bool (type : VT) : _getFieldTypes_switch type _VT_BOOL = type := by
  cases type <;> rfl

/-- A row whose cell in column `i` is blank does not change the fold of the `switch` over
the column. -/
theorem resolvedType_blank_row (field_count : Nat) (delimiter : Char) (offset : Int)
    (pre post : List (List Char)) (row : List Char) (i : Nat) (hi : i < field_count)
    (hrows : RowsCover field_count delimiter offset (pre ++ row :: post))
    (hblank : rawCell offset delimiter row i = some []) :
    resolvedType field_count delimiter offset (pre ++ row :: post) i
      = resolvedType field_count delimiter offset (pre ++ post) i := by
  have hrows2 : RowsCover field_count delimiter offset (pre ++ post) := by
    intro r hr hne
    apply hrows r _ hne
    rcases List.mem_append.mp hr with h | h
    · exact List.mem_append.mpr (Or.inl h)
    · exact List.mem_append.mpr (Or.inr (List.mem_cons_of_mem _ h))
  rw [resolvedType_eq _ _ _ _ hrows i hi, resolvedType_eq _ _ _ _ hrows2 i hi]
  congr 1
  by_cases hne : row = []
  · subst hne
    rw [dataRows_append_nil_cons]
  · have hd : dataRows (pre ++ row :: post) = dataRows pre ++ row :: dataRows post := by
      rw [dataRows_append]
      congr 1
      simp [dataRows, hne]
    have hty : cellType offset delimiter i row = _VT_BOOL := by
      rw [cellType_of_rawCell hblank]; decide
    rw [hd, dataRows_append, List.foldl_append, List.foldl_append, List.foldl_cons, hty,
      switch_bool]

/-- C21 (blank cells): in a constructed object, the value stored for a cell that is the
empty string is false in a Bool column, 0 in an Int or Long column, 0.0 in a Double column
(the value of `atof` on the empty string) and the empty string in a String column; and a row
whose cell is blank, at any position among the data rows, does not change the type resolved
for the column. -/
theorem C21_blank_cells_store_zero {F : FloatModel} (hatof : F.atof [] = F.zero)
    (file : List (List Char)) (delimit : Char) (headers : Bool) (t : TextFileLoad F)
    (hctor : TextFileLoad.ctor F file delimit headers = Except.ok t) (k : Int) (type : VT)
    (htype : vector_at t.field_types (k - 1) = some type) (i : Nat) (v : variant F)
    (hv : data_at t i (k - 1) = some v) :
    (∃ line cell, (dataRows (dataLines headers file))[i]? = some line ∧
      rawCell (_openFile file) delimit line (k - 1).toNat = some cell ∧
      (cell = [] →
        (type = _VT_BOOL → v.vt_bool = false) ∧ (type = _VT_INT → v.vt_int = 0) ∧
        (type = _VT_LONG → v.vt_long = 0) ∧ (type = _VT_DOUBLE → v.vt_double = F.zero) ∧
        (type = _VT_STRING → v.vt_string = []))) ∧
    (∀ (field_count : Nat) (offset : Int) (pre post : List (List Char)) (row : List Char)
      (j : Nat), j < field_count →
      RowsCover field_count delimit offset (pre ++ row :: post) →
      rawCell offset delimit row j = some [] →
      resolvedType field_count delimit offset (pre ++ row :: post) j
        = resolvedType field_count delimit offset (pre ++ post) j) := by
  refine ⟨?_, fun fc off pre post row j hj hrows hblank =>
    resolvedType_blank_row fc delimit off pre post row j hj hrows hblank⟩
  obtain ⟨line, cell, hline, hcell, hveq⟩ := ctor_data_at hctor i (k - 1) type htype v hv
  refine ⟨line, cell, hline, hcell, ?_⟩
  intro hblank
  subst hblank
  have hatoi : atoi [] = 0 := by decide
  have hatol : atol [] = 0 := by decide
  refine ⟨?_, ?_, ?_, ?_, ?_⟩ <;> intro hty <;> subst hty <;> rw [hveq]
  · simp [_getData_switch, hatoi]
  · simp [_getData_switch, hatoi]
  · simp [_getData_switch, hatol]
  · simp [_getData_switch, hatof]
  · simp [_getData_switch]

theorem C21_blank_cells_store_zero_witness :
    exactModel.atof [] = exactModel.zero ∧
    TextFileLoad.ctor exactModel blankFile '\t' true = Except.ok blankTable ∧
    vector_at blankTable.field_types (4 - 1) = some _VT_DOUBLE ∧
    data_at blankTable 1 (4 - 1) = some blankDoubleCell ∧
    (∃ line cell, (dataRows (dataLines true blankFile))[1]? = some line ∧
      rawCell (_openFile blankFile) '\t' line (4 - 1 : Int).toNat = some cell ∧
      (cell = [] →
        (_VT_DOUBLE = _VT_BOOL → blankDoubleCell.vt_bool = false) ∧
        (_VT_DOUBLE = _VT_INT → blankDoubleCell.vt_int = 0) ∧
        (_VT_DOUBLE = _VT_LONG → blankDoubleCell.vt_long = 0) ∧
        (_VT_DOUBLE = _VT_DOUBLE → blankDoubleCell.vt_double = exactModel.zero) ∧
        (_VT_DOUBLE = _VT_STRING → blankDoubleCell.vt_string = []))) ∧
    (∀ (field_count : Nat) (offset : Int) (pre post : List (List Char)) (row : List Char)
      (j : Nat), j < field_count →
      RowsCover field_count '\t' offset (pre ++ row :: post) →
      rawCell offset '\t' row j = some [] →
      resolvedType field_count '\t' offset (pre ++ row :: post) j
        = resolvedType field_count '\t' offset (pre ++ post) j) ∧
    rawCell (_openFile blankFile) '\t' "\t\t\t\t".toList 3 = some [] :=
  ⟨rfl, blankTable_constructed, rfl, rfl,
    (@C21_blank_cells_store_zero exactModel rfl blankFile '\t' true blankTable
      blankTable_constructed 4 _VT_DOUBLE rfl 1 blankDoubleCell rfl).1,
    (@C21_blank_cells_store_zero exactModel rfl blankFile '\t' true blankTable
      blankTable_constructed 4 _VT_DOUBLE rfl 1 blankDoubleCell rfl).2,
    by decide⟩

/-! ## Stored integers -/

theorem strtol_digits (t : List Char) (h : _isLong_loop t = true) :
    strtol t = min (digitsValue 0 t : Int) 9223372036854775807 := by
  cases t with
  | nil => simp [strtol, digitsValue]
  | cons c cs =>
    have hc : isdigit c = true := by
      simp only [_isLong_loop] at h
      by_cases hc : isdigit c = true
      · exact hc
      · simp [hc] at h
    obtain ⟨h1, h2, h3⟩ := isspace_not_digit hc
    simp only [strtol, h1, h2, h3, if_false, Bool.false_eq_true]

/-- On a string whose trimmed part consists of digits, `atol` is the value of these digits,
saturated at `LONG_MAX`. -/
theorem atol_digits (s : List Char) (h : _isLong_loop (_trim s) = true) :
    atol s = min (digitsValue 0 (_trim s) : Int) 9223372036854775807 := by
  rw [atol_trim s h]
  exact strtol_digits _ h

/-- A string classified Bool or Int has a trimmed part made of digits and a value from 0 to
32767. -/
theorem small_class_value (cell : List Char) (h : rank (_getType cell) ≤ 1) :
    _isLong_loop (_trim cell) = true ∧ 0 ≤ atol cell ∧ atol cell < 32768 := by
  obtain ⟨hb, hi, -⟩ := getType_cases cell
  have hclass : _getType cell = _VT_BOOL ∨ _getType cell = _VT_INT := by
    cases hg : _getType cell <;> rw [hg] at h <;> simp [rank] at h ⊢
  rcases hclass with hc | hc
  · rcases hb hc with h0 | h0 | h0
    · subst h0
      exact ⟨by decide, by decide, by decide⟩
    · have hl : _isLong_loop (_trim cell) = true := by rw [h0]; decide
      have hv := atol_trim cell hl
      rw [h0] at hv
      have h00 : atol ['0'] = 0 := by decide
      rw [h00] at hv
      exact ⟨hl, by omega, by omega⟩
    · have hl : _isLong_loop (_trim cell) = true := by rw [h0]; decide
      have hv := atol_trim cell hl
      rw [h0] at hv
      have h11 : atol ['1'] = 1 := by decide
      rw [h11] at hv
      exact ⟨hl, by omega, by omega⟩
  · obtain ⟨-, hl, hlt, -⟩ := hi hc
    have hv := atol_digits cell hl
    refine ⟨hl, ?_, hlt⟩
    rw [hv]
    omega

/-- In a constructed object the type of a column is at least the classification of each of
its raw cells. -/
theorem ctor_cell_rank {F : FloatModel} {file : List (List Char)} {delimit : Char}
    {headers : Bool} {t : TextFileLoad F}
    (h : TextFileLoad.ctor F file delimit headers = Except.ok t) (i : Nat) (c : Int)
    (type : VT) (htype : vector_at t.field_types c = some type) (line cell : List Char)
    (hline : (dataRows (dataLines headers file))[i]? = some line)
    (hcell : rawCell (_openFile file) delimit line c.toNat = some cell) :
    rank (_getType cell) ≤ rank type := by
  obtain ⟨-, -, -, hty, -⟩ := ctor_ok h
  obtain ⟨hlen, hcover⟩ := getFieldTypes_some _ _ _ _ _ hty
  have hclosed := getFieldTypes_eq _ _ _ _ hcover
  rw [hty] at hclosed
  simp only [Option.some.injEq] at hclosed
  obtain ⟨-, hclt, hcty⟩ := vector_at_bounds htype
  have hlt : c.toNat < t.field_count := by omega
  obtain ⟨-, hub, -⟩ := fold_switch_spec (cellType (_openFile file) delimit c.toNat)
    (dataRows (dataLines headers file)) _VT_BOOL
  have hrank := hub line (List.getElem?_mem hline)
  rw [cellType_of_rawCell hcell] at hrank
  have hfold : t.field_types[c.toNat]? = some ((dataRows (dataLines headers file)).foldl
      (fun ty row => _getFieldTypes_switch ty (cellType (_openFile file) delimit c.toNat row))
      _VT_BOOL) := by
    rw [hclosed]; simp [hlt]
  rw [hcty] at hfold
  simp only [Option.some.injEq] at hfold
  rw [hfold]
  exact hrank

theorem fmt_d_short (n : Int) (h0 : 0 ≤ n) (h1 : n < 32768) :
    snprintf_conv (fmt_d n) = fmt_d n := by
  have hlen : (fmt_d n).length ≤ 5 := by
    unfold fmt_d
    rw [if_neg (by omega)]
    have hnat : n.natAbs < 10 ^ 5 := by omega
    exact Nat.repr_length n.natAbs 5 (by decide) hnat
  unfold snprintf_conv
  exact List.take_of_length_le (by omega)

/-- C23 (Int columns): in a constructed object, for every column number `k` whose field
type is Int, every stored value is the value that the 64-bit parse of its raw cell gives (the
32-bit `atoi` does not overflow) and lies in 0..32767, hence strictly between -32768 and
32768; `getField` into ints and into longs returns the stored values and `getField` into
strings returns their complete decimal texts, whatever the vectors held before. -/
theorem C23_int_column_values_in_range {F : FloatModel} (file : List (List Char))
    (delimit : Char) (headers : Bool) (t : TextFileLoad F)
    (hctor : TextFileLoad.ctor F file delimit headers = Except.ok t) (k : Int)
    (hint : vector_at t.field_types (k - 1) = some _VT_INT) :
    ∃ ints longs strs,
      (∀ out, getField_int t k out = some ints) ∧
      (∀ out, getField_long t k out = some longs) ∧
      (∀ out, getField_string t k out = some strs) ∧
      ∀ i, i < t.row_count → ∃ v line cell, data_at t i (k - 1) = some v ∧
        (dataRows (dataLines headers file))[i]? = some line ∧
        rawCell (_openFile file) delimit line (k - 1).toNat = some cell ∧
        v.vt_int = atoi cell ∧ atoi cell = strtol cell ∧
        0 ≤ v.vt_int ∧ v.vt_int < 32768 ∧ -32768 < v.vt_int ∧
        ints[i]? = some v.vt_int ∧ longs[i]? = some v.vt_int ∧
        strs[i]? = some (fmt_d v.vt_int) := by
  obtain ⟨hwf, -, -⟩ := ctor_wellFormed hctor
  obtain ⟨hc0, hclt, -⟩ := vector_at_bounds hint
  have hc1 : k - 1 < t.field_count := by rw [← hwf.1]; omega
  obtain ⟨ints, hints, -, hiel⟩ :=
    getField_loop_column t hwf (k - 1) hc0 hc1 (fun v => v.vt_int)
  obtain ⟨strs, hstrs, -, hsel⟩ :=
    getField_loop_column t hwf (k - 1) hc0 hc1 (fun v => snprintf_conv (fmt_d v.vt_int))
  refine ⟨ints, ints, strs,
    fun out => by simp only [getField_int, hint, clear]; exact hints,
    fun out => by simp only [getField_long, hint, clear]; exact hints,
    fun out => by simp only [getField_string, hint, clear]; exact hstrs, ?_⟩
  intro i hi
  obtain ⟨v, hv, hri⟩ := hiel i hi
  obtain ⟨v2, hv2, hrs⟩ := hsel i hi
  have hsame : v2 = v := by
    rw [hv] at hv2
    exact (Option.some.inj hv2).symm
  subst hsame
  obtain ⟨line, cell, hline, hcell, hveq⟩ := ctor_data_at hctor i (k - 1) _VT_INT hint v2 hv
  have hrank := ctor_cell_rank hctor i (k - 1) _VT_INT hint line cell hline hcell
  obtain ⟨-, hge, hlt⟩ := small_class_value cell hrank
  have hstored : v2.vt_int = atoi cell := by rw [hveq]; rfl
  have hatoi : atoi cell = strtol cell := by
    unfold atoi
    exact (wrap32_spec (strtol cell)).2.2.2 (by unfold atol at hge; omega)
      (by unfold atol at hlt; omega)
  have hval : v2.vt_int = atol cell := by rw [hstored, hatoi]; rfl
  refine ⟨v2, line, cell, hv, hline, hcell, hstored, hatoi, by omega, by omega, by omega, hri,
    hri, ?_⟩
  rw [hrs, fmt_d_short v2.vt_int (by omega) (by omega)]

theorem C23_int_column_values_in_range_witness :
    TextFileLoad.ctor exactModel digitsFile '\t' true = Except.ok digitsTable ∧
    vector_at digitsTable.field_types (1 - 1) = some _VT_INT ∧
    getField_int digitsTable 1 [9] = some [7, 12] ∧
    getField_string digitsTable 1 [] = some ["7".toList, "12".toList] ∧
    ∃ ints longs strs,
      (∀ out, getField_int digitsTable 1 out = some ints) ∧
      (∀ out, getField_long digitsTable 1 out = some longs) ∧
      (∀ out, getField_string digitsTable 1 out = some strs) ∧
      ∀ i, i < digitsTable.row_count → ∃ v line cell, data_at digitsTable i (1 - 1) = some v ∧
        (dataRows (dataLines true digitsFile))[i]? = some line ∧
        rawCell (_openFile digitsFile) '\t' line (1 - 1 : Int).toNat = some cell ∧
        v.vt_int = atoi cell ∧ atoi cell = strtol cell ∧
        0 ≤ v.vt_int ∧ v.vt_int < 32768 ∧ -32768 < v.vt_int ∧
        ints[i]? = some v.vt_int ∧ longs[i]? = some v.vt_int ∧
        strs[i]? = some (fmt_d v.vt_int) :=
  ⟨digitsTable_constructed, rfl, by decide, by decide,
    C23_int_column_values_in_range digitsFile '\t' true digitsTable digitsTable_constructed 1
      rfl⟩

/-- C24 (stored integers and booleans): in a constructed object, for a stored value and its
raw cell, (1) when the trimmed cell is a non-empty string of digits whose value is below
2^63, the value stored in an Int column and the value stored in a Long column is that value,
whatever the leading zeros and the space padding; (2) in a Bool column the stored value is
true exactly when the trimmed cell is "1". -/
theorem C24_stored_value_is_value_of_digits {F : FloatModel} (file : List (List Char))
    (delimit : Char) (headers : Bool) (t : TextFileLoad F)
    (hctor : TextFileLoad.ctor F file delimit headers = Except.ok t) (k : Int) (type : VT)
    (htype : vector_at t.field_types (k - 1) = some type) (i : Nat) (v : variant F)
    (hv : data_at t i (k - 1) = some v) :
    ∃ line cell, (dataRows (dataLines headers file))[i]? = some line ∧
      rawCell (_openFile file) delimit line (k - 1).toNat = some cell ∧
      (_trim cell ≠ [] → _isLong_loop (_trim cell) = true →
        digitsValue 0 (_trim cell) < 9223372036854775808 →
        (type = _VT_INT → v.vt_int = (digitsValue 0 (_trim cell) : Int)) ∧
        (type = _VT_LONG → v.vt_long = (digitsValue 0 (_trim cell) : Int))) ∧
      (type = _VT_BOOL → (v.vt_bool = true ↔ _trim cell = ['1'])) := by
  obtain ⟨line, cell, hline, hcell, hveq⟩ := ctor_data_at hctor i (k - 1) type htype v hv
  have hrank := ctor_cell_rank hctor i (k - 1) type htype line cell hline hcell
  refine ⟨line, cell, hline, hcell, ?_, ?_⟩
  · intro _ hdigits hbound
    have hatol := atol_digits cell hdigits
    have hmin : atol cell = (digitsValue 0 (_trim cell) : Int) := by
      rw [hatol]; omega
    refine ⟨?_, ?_⟩
    · intro hty
      subst hty
      obtain ⟨-, hge, hlt⟩ := small_class_value cell hrank
      have hstored : v.vt_int = atoi cell := by rw [hveq]; rfl
      have hatoi : atoi cell = atol cell := by
        unfold atoi
        exact (wrap32_spec (strtol cell)).2.2.2 (by unfold atol at hge; omega)
          (by unfold atol at hlt; omega)
      rw [hstored, hatoi, hmin]
    · intro hty
      subst hty
      have hstored : v.vt_long = atol cell := by rw [hveq]; rfl
      rw [hstored, hmin]
  · intro hty
    subst hty
    have hstored : v.vt_bool = decide (atoi cell ≠ 0) := by rw [hveq]; rfl
    have hclass : _getType cell = _VT_BOOL := by
      apply rank_injective
      have : rank _VT_BOOL = 0 := rfl
      omega
    rcases (getType_cases cell).1 hclass with h0 | h0 | h0
    · subst h0
      rw [hstored]
      decide
    · have hl : _isLong_loop (_trim cell) = true := by rw [h0]; decide
      have hval := atol_trim cell hl
      rw [h0] at hval
      have h00 : atol ['0'] = 0 := by decide
      have hatoi : atoi cell = 0 := by
        have : atoi cell = wrap32 (atol cell) := rfl
        rw [this, hval, h00]; decide
      rw [hstored, hatoi, h0]
      decide
    · have hl : _isLong_loop (_trim cell) = true := by rw [h0]; decide
      have hval := atol_trim cell hl
      rw [h0] at hval
      have h11 : atol ['1'] = 1 := by decide
      have hatoi : atoi cell = 1 := by
        have : atoi cell = wrap32 (atol cell) := rfl
        rw [this, hval, h11]; decide
      rw [hstored, hatoi, h0]
      decide

theorem C24_stored_value_is_value_of_digits_witness :
    TextFileLoad.ctor exactModel digitsFile '\t' true = Except.ok digitsTable ∧
    vector_at digitsTable.field_types (1 - 1) = some _VT_INT ∧
    data_at digitsTable 0 (1 - 1)
      = some { variant.uninit exactModel with vt_type := _VT_INT, vt_int := 7 } ∧
    rawCell (_openFile digitsFile) '\t' " 007 \t 40000\t1".toList 0 = some " 007 ".toList ∧
    _trim " 007 ".toList = "007".toList ∧ digitsValue 0 "007".toList = 7 ∧
    (∃ line cell, (dataRows (dataLines true digitsFile))[0]? = some line ∧
      rawCell (_openFile digitsFile) '\t' line (1 - 1 : Int).toNat = some cell ∧
      (_trim cell ≠ [] → _isLong_loop (_trim cell) = true →
        digitsValue 0 (_trim cell) < 9223372036854775808 →
        (_VT_INT = _VT_INT → (7 : Int) = (digitsValue 0 (_trim cell) : Int)) ∧
        (_VT_INT = _VT_LONG → (0 : Int) = (digitsValue 0 (_trim cell) : Int))) ∧
      (_VT_INT = _VT_BOOL → (false = true ↔ _trim cell = ['1']))) ∧
    getField_long digitsTable 2 [] = some [40000, 5] ∧
    getField_bool digitsTable 3 [] = some [true, false] :=
  ⟨digitsTable_constructed, rfl, rfl, by decide, by decide, by decide,
    C24_stored_value_is_value_of_digits digitsFile '\t' true digitsTable
      digitsTable_constructed 1 _VT_INT rfl 0
      { variant.uninit exactModel with vt_type := _VT_INT, vt_int := 7 } rfl,
    by decide, by decide⟩

end TFL
